import Mathlib

/-!
StackManagerQt, `AppDelegate.cpp`.

A shallow embedding of the orchestration logic of `src/AppDelegate.cpp`
(artifact readiness, worker registry, identity resolution, release
manifest parsing) together with theorems about it.

Conventions of the embedding:

* member functions of `AppDelegate` become functions from an `AppDelegate`
  record (the member variables) to the new record and the list of
  externally visible actions (`Effect`) they performed, in order;
* the singleton `GlobalData` (declared in `GlobalData.h`, which is not part
  of the sources at hand) is a record of the values its getters return;
* everything the code observes of the file system and of the network
  during start-up is a `World` record of functions;
* Qt library routines (`QByteArray::trimmed`, `QUuid(QString)`,
  `QString::toInt`, `QXmlStreamReader`, ...) are modelled by small
  executable functions following the Qt 5 documentation.
-/

namespace StackManager

/-! ## Byte arrays and the checksum comparison -/

/-- A `QByteArray`: the list of its octets (numbers below 256). -/
abbrev QByteArray := List Nat

/-- Qt's `ascii_isspace`, the whitespace test of `QByteArray::trimmed`:
tab, line feed, vertical tab, form feed, carriage return and space. -/
def asciiIsSpace (c : Nat) : Bool :=
  c == 32 || (decide (9 ≤ c) && decide (c ≤ 13))

/-- `QByteArray::trimmed()`: whitespace removed from both ends. -/
def trimmed (a : QByteArray) : QByteArray :=
  ((a.dropWhile asciiIsSpace).reverse.dropWhile asciiIsSpace).reverse

/-- `QTextStream stream(a); stream >> a;`: the stream skips leading
whitespace and reads one word, up to the next whitespace.  (Exact for
input whose first word is ASCII, which is what a textual checksum is.) -/
def readWord (a : QByteArray) : QByteArray :=
  (a.dropWhile asciiIsSpace).takeWhile (fun c => !asciiIsSpace c)

/-- One octet of `QByteArray::toLower()` (Qt 5 reads the array as Latin-1):
`A`..`Z` and the accented capitals 0xC0..0xDE other than 0xD7 move up by 32. -/
def toLowerByte (c : Nat) : Nat :=
  if (decide (65 ≤ c) && decide (c ≤ 90)) ||
     (decide (192 ≤ c) && decide (c ≤ 222) && c != 215) then c + 32 else c

/-- `QByteArray::toLower()`. -/
def toLower (a : QByteArray) : QByteArray := a.map toLowerByte

/-- One hexadecimal digit of `QByteArray::toHex()`: `0`..`9`, `a`..`f`. -/
def hexDigit (n : Nat) : Nat := if n < 10 then 48 + n else 87 + n

/-- `QByteArray::toHex()`: two lower-case hexadecimal digits per octet. -/
def toHex : QByteArray → QByteArray
  | [] => []
  | b :: bs => hexDigit (b / 16 % 16) :: hexDigit (b % 16) :: toHex bs

/-! ## Environment -/

/-- The values returned by the getters of the `GlobalData` singleton. -/
structure GlobalData where
  platform : String
  clientsLaunchPath : String
  clientsResourcesPath : String
  requirementsZipPath : String
  domainServerResourcesZipPath : String
  domainServerExecutablePath : String
  assignmentClientExecutablePath : String
  requirementsURL : String
  assignmentClientURL : String
  domainServerURL : String
  domainServerResourcesURL : String
  requirementsMD5URL : String
  assignmentClientMD5URL : String
  domainServerMD5URL : String
  domainServerResourcesMD5URL : String
  hifiBuildDirectorySet : Bool
  domainServerBaseUrl : String

/-- What start-up observes of the outside: the file system, the replies of
the network, and the library digest `QCryptographicHash::hash(_, Md5)`. -/
structure World where
  /-- `QDir(path).exists()` -/
  dirExists : String → Bool
  /-- `QFileInfo(path).exists()` -/
  fileExists : String → Bool
  /-- The bytes read by `open(ReadOnly)` and `readAll()`; empty when the file
  cannot be opened, as the code then leaves its buffer empty. -/
  readFile : String → QByteArray
  /-- `QDir(path).entryInfoList(QDir::AllEntries).size()` -/
  entryCount : String → Nat
  /-- `readAll()` of the finished reply of a `get` on the URL. -/
  httpGet : String → QByteArray
  /-- `QCryptographicHash::hash(data, QCryptographicHash::Md5)` -/
  md5 : QByteArray → QByteArray

/-- A handle on a `BackgroundProcess` object; `0` is the null pointer. -/
abbrev ProcessPtr := Nat

/-- A `QUuid` used as a key of the worker registry. -/
abbrev QUuid := Nat

/-- Externally visible actions, in the order the code performs them. -/
inductive Effect where
  /-- `_manager->get(QNetworkRequest(url))` -/
  | networkGet (url : String)
  /-- `_window->show()` -/
  | windowShow
  /-- `_window->setRequirementsLastChecked(now)` -/
  | setRequirementsLastChecked
  /-- `new DownloadManager`, connected to `onFileSuccessfullyInstalled`, shown -/
  | downloadManagerShow
  /-- `downloadManager->downloadFile(url)` -/
  | downloadFile (url : String)
  /-- `emit domainServerIDMissing()` -/
  | domainServerIDMissing
  /-- `emit domainAddressChanged()` -/
  | domainAddressChanged
  /-- `_window->setUpdateNotification(text)` -/
  | setUpdateNotification (text : String)
  /-- `_window->update()` -/
  | windowUpdate
  /-- `new BackgroundProcess(program, this)` -/
  | processNew (p : ProcessPtr) (program : String)
  /-- `BackgroundProcess::start(args)` -/
  | processStart (p : ProcessPtr) (args : List String)
  /-- `QProcess::start()`: start again with the program and arguments set -/
  | processRestart (p : ProcessPtr)
  /-- `terminate()` -/
  | processTerminate (p : ProcessPtr)
  /-- `waitForFinished(msecs)`; `none` is the call without argument -/
  | processWaitForFinished (p : ProcessPtr) (msecs : Option Nat)
  /-- `kill()` -/
  | processKill (p : ProcessPtr)
  /-- `deleteLater()` -/
  | processDeleteLater (p : ProcessPtr)
  /-- `getLogsWidget()->addTab(viewer of p, title)` -/
  | addLogTab (p : ProcessPtr) (title : String)
  /-- `getLogsWidget()->removeTab(index of viewer of p)` -/
  | removeLogTab (p : ProcessPtr)
  /-- `QTimer::singleShot(msecs, this, SLOT(requestDomainServerID()))` -/
  | scheduleRequestDomainServerID (msecs : Nat)
  /-- `emit stackStateChanged(start)` -/
  | stackStateChanged (start : Bool)
  deriving DecidableEq

/-- Modelled from the spec: the class `BackgroundProcess` (declared in
`BackgroundProcess.h`, not among the sources): a child process of a fixed
executable that records the argument list it was last started with. -/
structure BackgroundProcess where
  program : String
  lastArgList : List String
  deriving DecidableEq

/-- The member variables of `AppDelegate` that the orchestration logic reads
and writes. `heap` holds the `BackgroundProcess` objects created with `new`:
pointer `p` (from 1) designates `heap[p - 1]`. `_scriptProcesses` is the
`QHash<QUuid, BackgroundProcess*>`, kept as a list of its (key, value) pairs. -/
structure AppDelegate where
  _qtReady : Bool
  _dsReady : Bool
  _dsResourcesReady : Bool
  _acReady : Bool
  _domainServerProcess : ProcessPtr
  _acMonitorProcess : ProcessPtr
  _domainServerName : String
  _domainServerID : String
  _scriptProcesses : List (QUuid × ProcessPtr)
  heap : List BackgroundProcess
  deriving DecidableEq

/-- The member initialisers of the constructor `AppDelegate::AppDelegate`
(lines 82-91), before the two fixed processes are created. -/
def AppDelegate.initial : AppDelegate :=
  { _qtReady := false, _dsReady := false, _dsResourcesReady := false, _acReady := false,
    _domainServerProcess := 0, _acMonitorProcess := 0,
    _domainServerName := "localhost", _domainServerID := "",
    _scriptProcesses := [], heap := [] }

/-- The state in which the constructor calls
`downloadLatestExecutablesAndRequirements` (line 119): the member
initialisers, then the two fixed processes created at lines 111-112. -/
def AppDelegate.constructed (g : GlobalData) : AppDelegate :=
  { AppDelegate.initial with
    heap := [{ program := g.domainServerExecutablePath, lastArgList := [] },
             { program := g.assignmentClientExecutablePath, lastArgList := [] }],
    _domainServerProcess := 1, _acMonitorProcess := 2 }

/-- The test `_qtReady && _acReady && _dsReady && _dsResourcesReady`. -/
def AppDelegate.allReady (s : AppDelegate) : Bool :=
  s._qtReady && s._acReady && s._dsReady && s._dsResourcesReady

/-! ## Artifact readiness -/

/-- Lines 431-439 of `onFileSuccessfullyInstalled`: the flag of the first
artifact whose download URL equals `url` is set. -/
def markInstalled (g : GlobalData) (s : AppDelegate) (url : String) : AppDelegate :=
  if url = g.requirementsURL then { s with _qtReady := true }
  else if url = g.assignmentClientURL then { s with _acReady := true }
  else if url = g.domainServerURL then { s with _dsReady := true }
  else if url = g.domainServerResourcesURL then { s with _dsResourcesReady := true }
  else s

/-- `AppDelegate::onFileSuccessfullyInstalled` (lines 430-445). -/
def onFileSuccessfullyInstalled (g : GlobalData) (s : AppDelegate) (url : String) :
    AppDelegate × List Effect :=
  let s := markInstalled g s url
  if s._qtReady && s._acReady && s._dsReady && s._dsResourcesReady then
    (s, [Effect.setRequirementsLastChecked, Effect.windowShow])
  else
    (s, [])

/-- Lines 482-494 of `downloadLatestExecutablesAndRequirements`: is the Qt
core library of the platform already in the launch directory? -/
def qtInstalled (g : GlobalData) (w : World) : Bool :=
  if g.platform = "mac" then
    w.dirExists (g.clientsLaunchPath ++ "QtCore.framework")
  else if g.platform = "win" then
    w.fileExists (g.clientsLaunchPath ++ "Qt5Core.dll")
  else
    w.fileExists (g.clientsLaunchPath ++ "libQt5Core.so.5")

/-- The remote checksum as the code normalises it (lines 538-544 and the
three copies of that passage): the reply is `trimmed()`, and on the platform
`"win"` its first word is read through a `QTextStream`. -/
def remoteMd5 (g : GlobalData) (w : World) (url : String) : QByteArray :=
  let md5Data := trimmed (w.httpGet url)
  if g.platform = "win" then readWord md5Data else md5Data

/-- The comparison `md5Data.toLower() == QCryptographicHash::hash(data, Md5).toHex()`. -/
def checksumMatches (w : World) (md5Data data : QByteArray) : Bool :=
  toLower md5Data == toHex (w.md5 data)

/-- Lines 619-646 of `downloadLatestExecutablesAndRequirements`: with a flag
still false the download manager is created and shown, otherwise the main
window is; then one download is requested per flag that is false. -/
def requestDownloadsOrShow (g : GlobalData) (s : AppDelegate) : List Effect :=
  -- lines 619-630
  let fx :=
    if !s._qtReady || !s._acReady || !s._dsReady || !s._dsResourcesReady then
      [Effect.downloadManagerShow]
    else
      [Effect.setRequirementsLastChecked, Effect.windowShow]
  -- lines 632-646
  let fx := if !s._qtReady then fx ++ [Effect.downloadFile g.requirementsURL] else fx
  let fx := if !s._acReady then fx ++ [Effect.downloadFile g.assignmentClientURL] else fx
  let fx := if !s._dsReady then fx ++ [Effect.downloadFile g.domainServerURL] else fx
  if !s._dsResourcesReady then fx ++ [Effect.downloadFile g.domainServerResourcesURL] else fx

/-- Lines 578-647 of `downloadLatestExecutablesAndRequirements`: the checks
of the two bundles, then the downloads or the display of the main window.
`fx` are the effects performed before line 578. -/
def verifyBundlesAndDownload (g : GlobalData) (w : World)
    (reqZipData resZipData : QByteArray) (s : AppDelegate) (fx : List Effect) :
    AppDelegate × List Effect :=
  -- lines 578-596
  let (s, fx) :=
    if s._qtReady then
      let reqZipMd5Data := remoteMd5 g w g.requirementsMD5URL
      let fx := fx ++ [Effect.networkGet g.requirementsMD5URL]
      if !checksumMatches w reqZipMd5Data reqZipData then
        ({ s with _qtReady := false }, fx)
      else (s, fx)
    else (s, fx)
  -- lines 598-617
  let (s, fx) :=
    if s._dsResourcesReady then
      let resZipMd5Data := remoteMd5 g w g.domainServerResourcesMD5URL
      let fx := fx ++ [Effect.networkGet g.domainServerResourcesMD5URL]
      if !checksumMatches w resZipMd5Data resZipData then
        ({ s with _dsResourcesReady := false }, fx)
      else (s, fx)
    else (s, fx)
  -- lines 619-646
  (s, fx ++ requestDownloadsOrShow g s)

/-- `AppDelegate::downloadLatestExecutablesAndRequirements` (lines 480-647).
The early `return` of line 551 is the branch that does not continue into
`verifyBundlesAndDownload`. -/
def downloadLatestExecutablesAndRequirements (g : GlobalData) (w : World) (s : AppDelegate) :
    AppDelegate × List Effect :=
  -- lines 482-494
  let s := if qtInstalled g w then { s with _qtReady := true } else s
  -- lines 497-508
  let reqZipData := w.readFile g.requirementsZipPath
  let resZipData := w.readFile g.domainServerResourcesZipPath
  -- lines 510-513
  let s :=
    if !(decide (w.entryCount g.clientsResourcesPath < 3)) then
      { s with _dsResourcesReady := true }
    else s
  -- lines 516-576
  if g.hifiBuildDirectorySet then
    verifyBundlesAndDownload g w reqZipData resZipData
      { s with _dsReady := true, _acReady := true } []
  else
    let dsData := w.readFile g.domainServerExecutablePath
    let acData := w.readFile g.assignmentClientExecutablePath
    let acMd5Data := remoteMd5 g w g.assignmentClientMD5URL
    if acMd5Data.length = 0 then
      -- network is not accessible
      (s, [Effect.networkGet g.assignmentClientMD5URL, Effect.windowShow])
    else
      let s := if checksumMatches w acMd5Data acData then { s with _acReady := true } else s
      let dsMd5Data := remoteMd5 g w g.domainServerMD5URL
      let s := if checksumMatches w dsMd5Data dsData then { s with _dsReady := true } else s
      verifyBundlesAndDownload g w reqZipData resZipData s
        [Effect.networkGet g.assignmentClientMD5URL, Effect.networkGet g.domainServerMD5URL]

/-- The run of `downloadLatestExecutablesAndRequirements` takes the early
`return` of line 551: no build directory is configured and the normalised
checksum reply for the assignment client has size 0. -/
def abortedForNoNetwork (g : GlobalData) (w : World) : Bool :=
  !g.hifiBuildDirectorySet && (remoteMd5 g w g.assignmentClientMD5URL).length == 0

/-- The state after a list of `fileSuccessfullyInstalled(url)` signals. -/
def installAll (g : GlobalData) (s : AppDelegate) (urls : List String) : AppDelegate :=
  urls.foldl (fun s url => (onFileSuccessfullyInstalled g s url).1) s

/-- The outcome "stack startable": the time of the requirements check is
recorded and the main window is shown. -/
def declaresStartable (fx : List Effect) : Bool :=
  fx.contains Effect.setRequirementsLastChecked && fx.contains Effect.windowShow

/-! ## Sample environments -/

/-- A Linux installation with no local build directory configured. -/
def sampleGlobalData : GlobalData :=
  { platform := "linux",
    clientsLaunchPath := "/opt/stack/",
    clientsResourcesPath := "/opt/stack/resources/",
    requirementsZipPath := "/opt/stack/requirements.zip",
    domainServerResourcesZipPath := "/opt/stack/resources.zip",
    domainServerExecutablePath := "/opt/stack/domain-server",
    assignmentClientExecutablePath := "/opt/stack/assignment-client",
    requirementsURL := "http://s3/requirements.zip",
    assignmentClientURL := "http://s3/assignment-client",
    domainServerURL := "http://s3/domain-server",
    domainServerResourcesURL := "http://s3/resources.zip",
    requirementsMD5URL := "http://s3/requirements.md5",
    assignmentClientMD5URL := "http://s3/assignment-client.md5",
    domainServerMD5URL := "http://s3/domain-server.md5",
    domainServerResourcesMD5URL := "http://s3/resources.md5",
    hifiBuildDirectorySet := false,
    domainServerBaseUrl := "http://localhost:40100" }

/-- The same installation started with the option `-b`. -/
def sampleBuildDirGlobalData : GlobalData :=
  { sampleGlobalData with hifiBuildDirectorySet := true }

/-- A stand-in for the library digest in the sample worlds: sixteen octets
0xAB for every input, so that its `toHex` is `abab...ab`. -/
def sampleDigest (_ : QByteArray) : QByteArray := List.replicate 16 171

/-- Qt and the resources are installed, every file is empty, and the network
answers every request with an empty body. -/
def offlineWorld : World :=
  { dirExists := fun _ => true, fileExists := fun _ => true, readFile := fun _ => [],
    entryCount := fun _ => 5, httpGet := fun _ => [], md5 := sampleDigest }

/-- Nothing is installed, and the network answers every request with the
single letter `x`, which is the `toHex` of no digest. -/
def staleWorld : World :=
  { dirExists := fun _ => false, fileExists := fun _ => false, readFile := fun _ => [],
    entryCount := fun _ => 2, httpGet := fun _ => [120], md5 := sampleDigest }

/-- The Qt library is missing from the launch directory although every
remote checksum equals the digest of the local file: the network answers
every request with a space, `AbAb...Ab` and a line end. -/
def matchingWorld : World :=
  { dirExists := fun _ => false, fileExists := fun _ => false, readFile := fun _ => [],
    entryCount := fun _ => 5,
    httpGet := fun _ => [32] ++ (List.replicate 16 [65, 98]).flatten ++ [13, 10],
    md5 := sampleDigest }

/-- Like `matchingWorld`, with Qt installed. -/
def upToDateWorld : World :=
  { matchingWorld with dirExists := fun _ => true, fileExists := fun _ => true }

/-! ## Worker registry -/

/-- `WAIT_FOR_CHILD_MSECS` (line 42). -/
def WAIT_FOR_CHILD_MSECS : Nat := 5000

/-- `QHash::value(key)`: the value stored under the key, or the null pointer
(a default-constructed value) when there is none. -/
def hashValue (h : List (QUuid × ProcessPtr)) (key : QUuid) : ProcessPtr :=
  (h.lookup key).getD 0

/-- `QHash::insert(key, value)`: an item already stored under the key is
replaced. -/
def hashInsert (h : List (QUuid × ProcessPtr)) (key : QUuid) (value : ProcessPtr) :
    List (QUuid × ProcessPtr) :=
  (key, value) :: h.filter (fun e => e.1 != key)

/-- `QHash::take(key)`: removes the item stored under the key and returns its
value, or the null pointer when there is none. -/
def hashTake (h : List (QUuid × ProcessPtr)) (key : QUuid) :
    ProcessPtr × List (QUuid × ProcessPtr) :=
  (hashValue h key, h.filter (fun e => e.1 != key))

/-- `AppDelegate::startScriptedAssignment` (lines 237-262). `pid` gives the
`processId()` the operating system reports for a process object. The result
is the new state, the effects, and the returned process id. -/
def startScriptedAssignment (g : GlobalData) (pid : ProcessPtr → Int) (s : AppDelegate)
    (scriptID : QUuid) (pool : String) : AppDelegate × List Effect × Int :=
  let scriptProcess := hashValue s._scriptProcesses scriptID
  if scriptProcess = 0 then
    let argList := ["-t", "2"] ++ (if pool ≠ "" then ["--pool", pool] else [])
    -- new BackgroundProcess(...), then start(argList)
    let scriptProcess := s.heap.length + 1
    let heap := s.heap ++
      [{ program := g.assignmentClientExecutablePath, lastArgList := argList }]
    let processID := pid scriptProcess
    let s := { s with heap := heap,
                      _scriptProcesses := hashInsert s._scriptProcesses scriptID scriptProcess }
    (s, [Effect.processNew scriptProcess g.assignmentClientExecutablePath,
         Effect.processStart scriptProcess argList,
         Effect.addLogTab scriptProcess ("Scripted Assignment " ++ toString processID)],
     pid scriptProcess)
  else
    (s, [Effect.processRestart scriptProcess], pid scriptProcess)

/-- `AppDelegate::stopScriptedAssignment(BackgroundProcess*)` (lines 264-269). -/
def stopScriptedAssignmentProcess (backgroundProcess : ProcessPtr) : List Effect :=
  [Effect.removeLogTab backgroundProcess,
   Effect.processTerminate backgroundProcess,
   Effect.processWaitForFinished backgroundProcess (some WAIT_FOR_CHILD_MSECS),
   Effect.processKill backgroundProcess]

/-- `AppDelegate::stopScriptedAssignment(const QUuid&)` (lines 271-276). -/
def stopScriptedAssignment (s : AppDelegate) (scriptID : QUuid) : AppDelegate × List Effect :=
  let (processValue, rest) := hashTake s._scriptProcesses scriptID
  let s := { s with _scriptProcesses := rest }
  if processValue ≠ 0 then (s, stopScriptedAssignmentProcess processValue) else (s, [])

/-- A call on the worker registry. -/
inductive RegistryCall where
  | start (scriptID : QUuid) (pool : String)
  | stop (scriptID : QUuid)
  deriving DecidableEq

/-- The task id a call is about. -/
def RegistryCall.scriptID : RegistryCall → QUuid
  | .start scriptID _ => scriptID
  | .stop scriptID => scriptID

/-- The state after one call. -/
def applyCall (g : GlobalData) (pid : ProcessPtr → Int) (s : AppDelegate) :
    RegistryCall → AppDelegate
  | .start scriptID pool => (startScriptedAssignment g pid s scriptID pool).1
  | .stop scriptID => (stopScriptedAssignment s scriptID).1

/-- The state after a sequence of calls, from the constructed application. -/
def afterCalls (g : GlobalData) (pid : ProcessPtr → Int) (calls : List RegistryCall) :
    AppDelegate :=
  calls.foldl (applyCall g pid) (AppDelegate.constructed g)

/-- The ids started by a sequence of calls. -/
def startedIds (calls : List RegistryCall) : List QUuid :=
  calls.filterMap (fun c => match c with | .start scriptID _ => some scriptID | .stop _ => none)

/-- The ids explicitly stopped by a sequence of calls. -/
def stoppedIds (calls : List RegistryCall) : List QUuid :=
  calls.filterMap (fun c => match c with | .start _ _ => none | .stop scriptID => some scriptID)

/-- The most recent call about `scriptID` is a start. -/
def lastCallIsStart (calls : List RegistryCall) (scriptID : QUuid) : Bool :=
  match calls.reverse.find? (fun c => c.scriptID == scriptID) with
  | some (.start _ _) => true
  | _ => false

/-- The distinct ids that were started and not stopped since. -/
def liveIds (calls : List RegistryCall) : List QUuid :=
  (startedIds calls).dedup.filter (lastCallIsStart calls)

/-- The registry invariant: no two entries share a key, and no entry holds
the null pointer. -/
def RegistryOk (s : AppDelegate) : Prop :=
  (s._scriptProcesses.map Prod.fst).Nodup ∧ ∀ e ∈ s._scriptProcesses, e.2 ≠ 0

/-! ## Identity resolution -/

/-- `HIGH_FIDELITY_API_URL` (line 33). -/
def HIGH_FIDELITY_API_URL : String := "https://metaverse.highfidelity.com/api/v1"

/-- What the handlers read of a finished `QNetworkReply` besides its body:
`error()` (`0` is `QNetworkReply::NoError`) and the HTTP status attribute. -/
structure ReplyStatus where
  error : Nat
  httpStatusCode : Int
  deriving DecidableEq

/-- The value of a hexadecimal digit, as in Qt's `_q_fromHex`. -/
def hexValue (c : Char) : Option Nat :=
  if 48 ≤ c.toNat ∧ c.toNat ≤ 57 then some (c.toNat - 48)
  else if 97 ≤ c.toNat ∧ c.toNat ≤ 102 then some (c.toNat - 87)
  else if 65 ≤ c.toNat ∧ c.toNat ≤ 70 then some (c.toNat - 55)
  else none

/-- Qt's `_q_fromHex`: reads `n` hexadecimal digits onto the accumulator. -/
def fromHex : Nat → Nat → List Char → Option (Nat × List Char)
  | 0, acc, cs => some (acc, cs)
  | _ + 1, _, [] => none
  | n + 1, acc, c :: cs =>
    match hexValue c with
    | some v => fromHex n (acc * 16 + v) cs
    | none => none

/-- Reads the separator `-`. -/
def expectDash : List Char → Option (List Char)
  | c :: cs => if c.toNat = 45 then some cs else none
  | [] => none

/-- Qt's `_q_uuidFromHex`: an optional opening brace, then five groups of 8,
4, 4, 4 and 12 hexadecimal digits separated by `-`. What follows is not
read. The result is the 128-bit value. -/
def uuidFromHex (src : List Char) : Option Nat :=
  let src := match src with
    | c :: cs => if c.toNat = 123 then cs else c :: cs
    | [] => []
  match fromHex 8 0 src with
  | none => none
  | some (d1, src) =>
  match expectDash src with
  | none => none
  | some src =>
  match fromHex 4 d1 src with
  | none => none
  | some (d2, src) =>
  match expectDash src with
  | none => none
  | some src =>
  match fromHex 4 d2 src with
  | none => none
  | some (d3, src) =>
  match expectDash src with
  | none => none
  | some src =>
  match fromHex 4 d3 src with
  | none => none
  | some (d4, src) =>
  match expectDash src with
  | none => none
  | some src =>
  match fromHex 12 d4 src with
  | none => none
  | some (d5, _) => some d5

/-- The text is accepted by the constructor `QUuid(const QString&)` of Qt 5:
at least 36 characters (37 with an opening brace) that `_q_uuidFromHex`
reads. -/
def isValidUuidText (text : String) : Bool :=
  decide (36 ≤ text.length) &&
  !(decide (text.toList.head? = some (Char.ofNat 123)) && decide (text.length < 37)) &&
  (uuidFromHex text.toList).isSome

/-- `QUuid(const QString&)`: the value read, or the null UUID (`0`) when the
text is not accepted. -/
def uuidFromString (text : String) : QUuid :=
  if isValidUuidText text then (uuidFromHex text.toList).getD 0 else 0

/-- `AppDelegate::getServerAddress` (lines 291-293). -/
def getServerAddress (s : AppDelegate) : String :=
  "hifi://" ++ s._domainServerName

/-- `AppDelegate::handleDomainIDReply` (lines 295-321); `body` is
`QString(reply->readAll())`. -/
def handleDomainIDReply (s : AppDelegate) (reply : ReplyStatus) (body : String) :
    AppDelegate × List Effect :=
  if reply.error = 0 ∧ reply.httpStatusCode = 200 then
    let s := { s with _domainServerID := body }
    if s._domainServerID ≠ "" then
      if uuidFromString s._domainServerID ≠ 0 then
        -- fire off a request to high fidelity API
        (s, [Effect.networkGet (HIGH_FIDELITY_API_URL ++ "/domains/" ++ s._domainServerID)])
      else
        (s, [Effect.domainServerIDMissing])
    else (s, [])
  else (s, [])

/-- A `QJsonValue`. -/
inductive QJsonValue where
  | null
  | undefined
  | bool (b : Bool)
  | double (x : Int)
  | string (s : String)
  | array (a : List QJsonValue)
  | object (o : List (String × QJsonValue))

/-- `QJsonValue::toObject()`: the members, or an empty object for a value
that is not an object. -/
def QJsonValue.toObject : QJsonValue → List (String × QJsonValue)
  | .object o => o
  | _ => []

/-- `QJsonValue::toArray()`: the elements, or an empty array. -/
def QJsonValue.toArray : QJsonValue → List QJsonValue
  | .array a => a
  | _ => []

/-- `QJsonValue::toString()`: the string, or a null (empty) string for a
value that is not a string. -/
def QJsonValue.toString : QJsonValue → String
  | .string s => s
  | _ => ""

/-- `QJsonObject::contains(key)`. -/
def jsonContains (o : List (String × QJsonValue)) (key : String) : Bool :=
  (o.lookup key).isSome

/-- `QJsonObject::operator[](key)`: the member, or `Undefined`. -/
def jsonMember (o : List (String × QJsonValue)) (key : String) : QJsonValue :=
  (o.lookup key).getD QJsonValue.undefined

/-- `QJsonArray::operator[](i)`: the element, or `Undefined`. -/
def jsonAt (a : List QJsonValue) (i : Nat) : QJsonValue :=
  a.getD i QJsonValue.undefined

/-- `AppDelegate::handleDomainGetReply` (lines 323-348); `responseDocument` is
the root of `QJsonDocument::fromJson(reply->readAll())` (`null` for a body
that is not JSON). -/
def handleDomainGetReply (s : AppDelegate) (reply : ReplyStatus)
    (responseDocument : QJsonValue) : AppDelegate × List Effect :=
  if reply.error = 0 ∧ reply.httpStatusCode = 200 then
    let domainObject := (jsonMember responseDocument.toObject "domain").toObject
    let s :=
      if jsonContains domainObject "name" then
        { s with _domainServerName := (jsonMember domainObject "name").toString }
      else if jsonContains domainObject "owner_places" then
        let ownerPlaces := (jsonMember domainObject "owner_places").toArray
        if ownerPlaces.length > 0 then
          { s with _domainServerName :=
              (jsonMember (jsonAt ownerPlaces 0).toObject "name").toString }
        else s
      else s
    (s, [Effect.domainAddressChanged])
  else (s, [])

/-- The directory reply whose body is `"domain": ("name": "bobtown")` in
JSON braces. -/
def bobtownDocument : QJsonValue :=
  .object [("domain", .object [("name", .string "bobtown")])]

/-- A reply without error and with HTTP status 200. -/
def okReply : ReplyStatus := { error := 0, httpStatusCode := 200 }

/-! ## Release manifest -/

/-- A token reported by `QXmlStreamReader::readNext()`. The token type
`Invalid` is not a token of the stream: it is what the reader reports once
the stream is exhausted or in error. -/
inductive XmlToken where
  | noToken
  | startDocument
  | endDocument
  | startElement (name : String) (attributes : List (String × String))
  | endElement (name : String)
  | characters (text : String)
  | comment (text : String)
  | dtd (text : String)
  | entityReference (name text : String)
  | processingInstruction (target data : String)
  deriving DecidableEq

/-- The state of a `QXmlStreamReader`: the current token followed by the
tokens still to be read. The empty list is the reader in error (token type
`Invalid`), where it stays. -/
abbrev XmlReader := List XmlToken

/-- `xml.tokenType() == QXmlStreamReader::StartElement && xml.name() == name`. -/
def isStartOf (xml : XmlReader) (name : String) : Bool :=
  match xml with
  | .startElement n _ :: _ => n == name
  | _ => false

/-- `xml.tokenType() == QXmlStreamReader::EndElement && xml.name() == name`. -/
def isEndOf (xml : XmlReader) (name : String) : Bool :=
  match xml with
  | .endElement n :: _ => n == name
  | _ => false

/-- `xml.text()`: the text of a `Characters`, `Comment`, `DTD` or
`EntityReference` token, empty for the other tokens. -/
def xmlText (xml : XmlReader) : String :=
  match xml with
  | .characters t :: _ => t
  | .comment t :: _ => t
  | .dtd t :: _ => t
  | .entityReference _ t :: _ => t
  | _ => ""

/-- The loop over `xml.attributes()` of lines 689-694 and 699-704: the value
of the first attribute called `name`, or the empty string. -/
def nameAttribute (xml : XmlReader) : String :=
  match xml with
  | .startElement _ attributes :: _ => (attributes.lookup "name").getD ""
  | _ => ""

/-- `xml.readNext()`. -/
def readNext (xml : XmlReader) : XmlReader := xml.tail

/-- `xml.atEnd()`: the reader is at `EndDocument` or in error. -/
def atEnd (xml : XmlReader) : Bool :=
  match xml with
  | [] => true
  | .endDocument :: _ => true
  | _ => false

/-- `xml.hasError()`. -/
def hasError (xml : XmlReader) : Bool := xml.isEmpty

/-- The structure `VersionInformation` (lines 660-665). `downloadUrl` holds
the text given to `QUrl`. -/
structure VersionInformation where
  version : String := ""
  downloadUrl : String := ""
  timeStamp : String := ""
  releaseNotes : String := ""
  deriving DecidableEq

/-- `QChar::isSpace()`. -/
def isSpaceChar (c : Char) : Bool :=
  (decide (9 ≤ c.toNat) && decide (c.toNat ≤ 13)) || c.toNat == 32 || c.toNat == 133 ||
  c.toNat == 160 || c.toNat == 5760 || (decide (8192 ≤ c.toNat) && decide (c.toNat ≤ 8202)) ||
  c.toNat == 8232 || c.toNat == 8233 || c.toNat == 8239 || c.toNat == 8287 || c.toNat == 12288

/-- The value of a string of decimal digits; `none` if a character is no
digit. -/
def digitsValue : Nat → List Char → Option Nat
  | acc, [] => some acc
  | acc, c :: cs =>
    if 48 ≤ c.toNat ∧ c.toNat ≤ 57 then digitsValue (acc * 10 + (c.toNat - 48)) cs else none

/-- `QString::toInt()` in base 10: surrounding whitespace is ignored, a sign
may precede the digits, and the result is `0` when the text is no number or
the number does not fit a 32-bit `int`. -/
def toInt (s : String) : Int :=
  let cs := ((s.toList.dropWhile isSpaceChar).reverse.dropWhile isSpaceChar).reverse
  let (negative, digits) := match cs with
    | c :: rest => if c.toNat = 45 then (true, rest) else if c.toNat = 43 then (false, rest)
                   else (false, c :: rest)
    | [] => (false, [])
  match digits with
  | [] => 0
  | _ =>
    match digitsValue 0 digits with
    | none => 0
    | some n =>
      let v : Int := if negative then -(n : Int) else (n : Int)
      if -2147483648 ≤ v ∧ v ≤ 2147483647 then v else 0

/-- The `QHash<QString, VersionInformation> projectVersions`, as the list of
its (key, value) pairs. -/
abbrev ProjectVersions := List (String × VersionInformation)

/-- `projectVersions[key] = value`. -/
def setVersion (pv : ProjectVersions) (key : String) (value : VersionInformation) :
    ProjectVersions :=
  (key, value) :: pv.filter (fun e => e.1 != key)

/-- Lines 712-731: one round of the loop over the tokens of a `build`. -/
def buildStep (xml : XmlReader) (info : VersionInformation) : XmlReader × VersionInformation :=
  let (xml, info) :=
    if isStartOf xml "version" then
      let xml := readNext xml
      (xml, { info with version := xmlText xml })
    else (xml, info)
  let (xml, info) :=
    if isStartOf xml "url" then
      let xml := readNext xml
      (xml, { info with downloadUrl := xmlText xml })
    else (xml, info)
  let (xml, info) :=
    if isStartOf xml "timestamp" then
      let xml := readNext xml
      (xml, { info with timeStamp := xmlText xml })
    else (xml, info)
  let (xml, info) :=
    if isStartOf xml "note" then
      let xml := readNext xml
      let info :=
        if info.releaseNotes ≠ "" then { info with releaseNotes := info.releaseNotes ++ "\n" }
        else info
      (xml, { info with releaseNotes := info.releaseNotes ++ xmlText xml })
    else (xml, info)
  (readNext xml, info)

/-- Lines 711-732: the loop over the tokens of a `build`, entered on its
start tag. `none` when the fuel runs out before the loop ends. -/
def readBuild : Nat → XmlReader → VersionInformation → Option (XmlReader × VersionInformation)
  | 0, _, _ => none
  | fuel + 1, xml, info =>
    if isEndOf xml "build" then some (xml, info)
    else
      let (xml, info) := buildStep xml info
      readBuild fuel xml info

/-- Lines 707-740: the loop over the tokens of a `platform`, entered on its
start tag, with the greatest version seen and its build. -/
def readPlatform (operatingSystem platformName : String) :
    Nat → XmlReader → Int → VersionInformation → Option (XmlReader × Int × VersionInformation)
  | 0, _, _, _ => none
  | fuel + 1, xml, latestVersion, latestVersionInformation =>
    if isEndOf xml "platform" then some (xml, latestVersion, latestVersionInformation)
    else if platformName = operatingSystem then
      if isStartOf xml "build" then
        match readBuild fuel xml {} with
        | none => none
        | some (xml, buildVersionInformation) =>
          if latestVersion < toInt buildVersionInformation.version then
            readPlatform operatingSystem platformName fuel (readNext xml)
              (toInt buildVersionInformation.version) buildVersionInformation
          else
            readPlatform operatingSystem platformName fuel (readNext xml)
              latestVersion latestVersionInformation
      else
        readPlatform operatingSystem platformName fuel (readNext xml)
          latestVersion latestVersionInformation
    else
      readPlatform operatingSystem platformName fuel (readNext xml)
        latestVersion latestVersionInformation

/-- Lines 695-747: the loop over the tokens of a `project`, entered on its
start tag. -/
def readProject (operatingSystem projectName : String) :
    Nat → XmlReader → ProjectVersions → Option (XmlReader × ProjectVersions)
  | 0, _, _ => none
  | fuel + 1, xml, projectVersions =>
    if isEndOf xml "project" then some (xml, projectVersions)
    else if projectName ≠ "" then
      if isStartOf xml "platform" then
        match readPlatform operatingSystem (nameAttribute xml) fuel xml 0 {} with
        | none => none
        | some (xml, latestVersion, latestVersionInformation) =>
          if latestVersion > 0 then
            readProject operatingSystem projectName fuel (readNext xml)
              (setVersion projectVersions projectName latestVersionInformation)
          else
            readProject operatingSystem projectName fuel (readNext xml) projectVersions
      else
        readProject operatingSystem projectName fuel (readNext xml) projectVersions
    else
      readProject operatingSystem projectName fuel (readNext xml) projectVersions

/-- Lines 686-750: the loop over the tokens of the document. -/
def readDocument (operatingSystem : String) :
    Nat → XmlReader → ProjectVersions → Option ProjectVersions
  | 0, _, _ => none
  | fuel + 1, xml, projectVersions =>
    if !atEnd xml && !hasError xml then
      if isStartOf xml "project" then
        match readProject operatingSystem (nameAttribute xml) fuel xml projectVersions with
        | none => none
        | some (xml, projectVersions) =>
          readDocument operatingSystem fuel (readNext xml) projectVersions
      else
        readDocument operatingSystem fuel (readNext xml) projectVersions
    else some projectVersions

/-- Lines 681-750 of `parseVersionXml`: the reader starts before the first
token of the reply (token type `NoToken`) with an empty hash. -/
def parseProjectVersions (operatingSystem : String) (fuel : Nat) (document : List XmlToken) :
    Option ProjectVersions :=
  readDocument operatingSystem fuel (XmlToken.noToken :: document) []

/-- Lines 765-771 of `parseVersionXml`: the notification, given the hash and
`QCoreApplication::applicationVersion()`. -/
def updateNotification (applicationVersion : String) (projectVersions : ProjectVersions) :
    List Effect :=
  match projectVersions.lookup "stackmanager" with
  | some latestVersion =>
    if applicationVersion ≠ latestVersion.version ∧ applicationVersion ≠ "dev" then
      [Effect.setUpdateNotification
        ("There is an update available. Please download and install version " ++
          latestVersion.version ++ "."),
       Effect.windowUpdate]
    else []
  | none => []

/-- `AppDelegate::parseVersionXml` (lines 667-774) on the token stream of the
reply, for the operating system the program was compiled for. `none` when
the fuel runs out before the loops end. -/
def parseVersionXml (operatingSystem applicationVersion : String) (fuel : Nat)
    (document : List XmlToken) : Option (List Effect) :=
  match parseProjectVersions operatingSystem fuel document with
  | none => none
  | some projectVersions => some (updateNotification applicationVersion projectVersions)

/-! ### Manifests as trees

The documents the parser is meant for: projects holding platform groups
holding builds holding the four known leaf elements, with arbitrary other
tokens (white space, comments, unknown elements) in between. -/

/-- The leaf elements of a build that the parser reads. -/
inductive FieldKind where
  | version
  | url
  | timestamp
  | note
  deriving DecidableEq

/-- The element name of a leaf. -/
def FieldKind.tag : FieldKind → String
  | .version => "version"
  | .url => "url"
  | .timestamp => "timestamp"
  | .note => "note"

/-- What stands inside a `build` element: a known leaf element with its
text, or any other token. -/
inductive BuildItem where
  | field (kind : FieldKind) (text : String)
  | other (token : XmlToken)
  deriving DecidableEq

/-- A `build` element. -/
structure Build where
  items : List BuildItem
  deriving DecidableEq

/-- What stands inside a `platform` element. -/
inductive PlatformItem where
  | build (b : Build)
  | other (token : XmlToken)
  deriving DecidableEq

/-- A `platform` element. -/
structure Platform where
  attributes : List (String × String)
  items : List PlatformItem
  deriving DecidableEq

/-- What stands inside a `project` element. -/
inductive ProjectItem where
  | platform (p : Platform)
  | other (token : XmlToken)
  deriving DecidableEq

/-- A `project` element. -/
structure Project where
  attributes : List (String × String)
  items : List ProjectItem
  deriving DecidableEq

/-- What stands at the top of the document. -/
inductive DocItem where
  | project (p : Project)
  | other (token : XmlToken)
  deriving DecidableEq

/-- A manifest: the items of the document; its token stream ends with
`EndDocument`. -/
abbrev Manifest := List DocItem

/-- The tokens of a leaf element: start tag, the text unless empty, end tag. -/
def fieldTokens (kind : FieldKind) (text : String) : List XmlToken :=
  if text = "" then [.startElement kind.tag [], .endElement kind.tag]
  else [.startElement kind.tag [], .characters text, .endElement kind.tag]

/-- The tokens of an item of a build. -/
def BuildItem.tokens : BuildItem → List XmlToken
  | .field kind text => fieldTokens kind text
  | .other token => [token]

/-- The tokens of a build. -/
def Build.tokens (b : Build) : List XmlToken :=
  [.startElement "build" []] ++ (b.items.map BuildItem.tokens).flatten ++ [.endElement "build"]

/-- The tokens of an item of a platform group. -/
def PlatformItem.tokens : PlatformItem → List XmlToken
  | .build b => b.tokens
  | .other token => [token]

/-- The tokens of a platform group. -/
def Platform.tokens (p : Platform) : List XmlToken :=
  [.startElement "platform" p.attributes] ++ (p.items.map PlatformItem.tokens).flatten ++
    [.endElement "platform"]

/-- The tokens of an item of a project. -/
def ProjectItem.tokens : ProjectItem → List XmlToken
  | .platform p => p.tokens
  | .other token => [token]

/-- The tokens of a project. -/
def Project.tokens (p : Project) : List XmlToken :=
  [.startElement "project" p.attributes] ++ (p.items.map ProjectItem.tokens).flatten ++
    [.endElement "project"]

/-- The tokens of an item of the document. -/
def DocItem.tokens : DocItem → List XmlToken
  | .project p => p.tokens
  | .other token => [token]

/-- The token stream of a manifest. -/
def Manifest.tokens (m : Manifest) : List XmlToken :=
  (m.map DocItem.tokens).flatten ++ [.endDocument]

/-- The token is the end tag of the named element. -/
def XmlToken.isEnd (t : XmlToken) (name : String) : Bool := isEndOf [t] name

/-- The token is a start tag of the named element. -/
def XmlToken.isStart (t : XmlToken) (name : String) : Bool := isStartOf [t] name

/-- An other token inside a build: not one that closes an enclosing element,
and not the start tag of a known leaf. -/
def BuildItem.wellFormed : BuildItem → Bool
  | .field _ _ => true
  | .other t => !t.isEnd "build" && !t.isEnd "platform" && !t.isEnd "project" &&
      !t.isStart "version" && !t.isStart "url" && !t.isStart "timestamp" && !t.isStart "note"

/-- Well-formedness of a build. -/
def Build.wellFormed (b : Build) : Bool := b.items.all BuildItem.wellFormed

/-- An other token inside a platform group closes no enclosing element and
starts no build. -/
def PlatformItem.wellFormed : PlatformItem → Bool
  | .build b => b.wellFormed
  | .other t => !t.isEnd "platform" && !t.isEnd "project" && !t.isStart "build"

/-- Well-formedness of a platform group. -/
def Platform.wellFormed (p : Platform) : Bool := p.items.all PlatformItem.wellFormed

/-- An other token inside a project does not close it and starts no platform
group. -/
def ProjectItem.wellFormed : ProjectItem → Bool
  | .platform p => p.wellFormed
  | .other t => !t.isEnd "project" && !t.isStart "platform"

/-- Well-formedness of a project. -/
def Project.wellFormed (p : Project) : Bool := p.items.all ProjectItem.wellFormed

/-- An other token at the top starts no project and does not end the
document. -/
def DocItem.wellFormed : DocItem → Bool
  | .project p => p.wellFormed
  | .other t => !t.isStart "project" && t != XmlToken.endDocument

/-- Well-formedness of a manifest: matched tags, as the tree gives them, and
other tokens that are not mistaken for the tags the parser looks for. -/
def Manifest.wellFormed (m : Manifest) : Bool := m.all DocItem.wellFormed

/-- The value of the attribute `name` of a project. -/
def Project.name (p : Project) : String := (p.attributes.lookup "name").getD ""

/-- The value of the attribute `name` of a platform group. -/
def Platform.name (p : Platform) : String := (p.attributes.lookup "name").getD ""

/-- What one item of a build contributes to its `VersionInformation`. -/
def BuildItem.apply (info : VersionInformation) : BuildItem → VersionInformation
  | .field .version text => { info with version := text }
  | .field .url text => { info with downloadUrl := text }
  | .field .timestamp text => { info with timeStamp := text }
  | .field .note text =>
    { info with releaseNotes :=
        (if info.releaseNotes ≠ "" then info.releaseNotes ++ "\n" else info.releaseNotes) ++ text }
  | .other _ => info

/-- The `VersionInformation` a build describes: the text of its last
`version`, `url` and `timestamp` elements and the texts of its `note`
elements, one per line. -/
def Build.info (b : Build) : VersionInformation := b.items.foldl BuildItem.apply {}

/-- The integer version of a build. -/
def Build.version (b : Build) : Int := toInt b.info.version

/-- The builds of a platform group, in document order. -/
def Platform.builds (p : Platform) : List Build :=
  p.items.filterMap (fun i => match i with | .build b => some b | .other _ => none)

/-- The platform groups of a project, in document order. -/
def Project.platforms (p : Project) : List Platform :=
  p.items.filterMap (fun i => match i with | .platform q => some q | .other _ => none)

/-- The projects of a manifest, in document order. -/
def Manifest.projects (m : Manifest) : List Project :=
  m.filterMap (fun i => match i with | .project p => some p | .other _ => none)

/-- The groups of a project for the running operating system, in document
order, each as the list of its builds. -/
def Project.groups (p : Project) (operatingSystem : String) : List (List Build) :=
  (p.platforms.filter (fun q => q.name == operatingSystem)).map Platform.builds

/-- The project+platform groups of a list of projects for a project name and
the running operating system, in document order. Projects without a name are
left out. -/
def projectGroups (ps : List Project) (operatingSystem projectName : String) :
    List (List Build) :=
  if projectName = "" then []
  else
    ((ps.filter (fun p => p.name == projectName)).map
      (fun p => p.groups operatingSystem)).flatten

/-- The project+platform groups of a manifest for a project name and the
running operating system, in document order, each as the list of its builds. -/
def Manifest.groups (m : Manifest) (operatingSystem projectName : String) : List (List Build) :=
  projectGroups m.projects operatingSystem projectName

/-- A manifest with one `stackmanager` project holding, for `ubuntu`, builds
10 and 12 and, for `solaris`, build 99, laid out with white space. -/
def sampleManifest : Manifest :=
  [ .other .startDocument,
    .other (.startElement "projects" []),
    .other (.characters "\n  "),
    .project
      { attributes := [("name", "stackmanager")],
        items :=
          [ .other (.characters "\n    "),
            .platform
              { attributes := [("name", "ubuntu")],
                items :=
                  [ .build { items := [.field .version "10", .field .url "http://s3/sm-10.deb",
                                       .field .note "first"] },
                    .other (.characters "\n      "),
                    .build { items := [.other (.characters " "), .field .url "http://s3/sm-12.deb",
                                       .field .version "12", .field .timestamp "2014-08-01",
                                       .field .note "second", .field .note "third"] } ] },
            .platform
              { attributes := [("name", "solaris")],
                items := [ .build { items := [.field .version "99"] } ] } ] },
    .other (.endElement "projects") ]

/-- A manifest whose only build for `ubuntu` has version 0. -/
def zeroVersionManifest : Manifest :=
  [ .project
      { attributes := [("name", "stackmanager")],
        items :=
          [ .platform
              { attributes := [("name", "ubuntu")],
                items := [ .build { items := [.field .version "0"] } ] } ] } ]

/-! ### The parse read off the tree -/

/-- Lines 733-736: a build replaces the latest one when its integer version
is strictly greater. -/
def retainLatest (acc : Int × VersionInformation) (b : Build) : Int × VersionInformation :=
  if acc.1 < b.version then (b.version, b.info) else acc

/-- The greatest version and its build after the loop over a list of builds,
from `latestVersion = 0` and an empty `VersionInformation`. -/
def latestOf (builds : List Build) : Int × VersionInformation :=
  builds.foldl retainLatest (0, {})

/-- The entry of a project after one more of its groups for the running
operating system: the latest build of the group if its version is positive,
the previous entry otherwise. -/
def chooseGroup (entry : Option VersionInformation) (g : List Build) :
    Option VersionInformation :=
  if 0 < (latestOf g).1 then some (latestOf g).2 else entry

/-- What the loop over a platform group leaves in `latestVersion` and
`latestVersionInformation`: builds are read only when the platform is the
running operating system. -/
def Platform.latest (operatingSystem : String) (p : Platform) : Int × VersionInformation :=
  if p.name = operatingSystem then latestOf p.builds else (0, {})

/-- Lines 741-743 for one platform group of a project. -/
def retainPlatform (operatingSystem projectName : String) (pv : ProjectVersions)
    (q : Platform) : ProjectVersions :=
  if 0 < (q.latest operatingSystem).1 then
    setVersion pv projectName (q.latest operatingSystem).2
  else pv

/-- What the loop over a project does to the hash: nothing for a project
without a name. -/
def Project.retain (operatingSystem : String) (pv : ProjectVersions) (p : Project) :
    ProjectVersions :=
  if p.name ≠ "" then p.platforms.foldl (retainPlatform operatingSystem p.name) pv else pv

/-- The hash after the loop over a manifest. -/
def Manifest.retained (m : Manifest) (operatingSystem : String) : ProjectVersions :=
  m.projects.foldl (Project.retain operatingSystem) []

/-! ## Starting and stopping the stack -/

/-- The argument list a process object was last started with
(`BackgroundProcess::getLastArgList()`); empty for a pointer to no object. -/
def lastArgListOf (s : AppDelegate) (p : ProcessPtr) : List String :=
  if p = 0 then [] else ((s.heap.get? (p - 1)).map (fun b => b.lastArgList)).getD []

/-- Modelled from the spec: `BackgroundProcess::start(args)` (declared in
`BackgroundProcess.h`, not among the sources) launches the executable with
`args` and records `args` as the last used argument list. -/
def backgroundProcessStart (s : AppDelegate) (p : ProcessPtr) (args : List String) :
    AppDelegate × List Effect :=
  let heap :=
    if p = 0 then s.heap
    else match s.heap.get? (p - 1) with
      | some b => s.heap.set (p - 1) { b with lastArgList := args }
      | none => s.heap
  ({ s with heap := heap }, [Effect.processStart p args])

/-- The three calls `terminate()`, `waitForFinished(WAIT_FOR_CHILD_MSECS)`,
`kill()` on one process (lines 208-210, 219-221, 230-232, 266-268). -/
def terminateWaitKill (p : ProcessPtr) : List Effect :=
  [Effect.processTerminate p,
   Effect.processWaitForFinished p (some WAIT_FOR_CHILD_MSECS),
   Effect.processKill p]

/-- `AppDelegate::toggleDomainServer` (lines 196-212). -/
def toggleDomainServer (s : AppDelegate) (start : Bool) : AppDelegate × List Effect :=
  if start then
    let (s, fx) := backgroundProcessStart s s._domainServerProcess []
    let fx := fx ++ [Effect.addLogTab s._domainServerProcess "Domain Server"]
    if s._domainServerID = "" then
      -- after giving the domain server some time to set up, ask for its ID
      (s, fx ++ [Effect.scheduleRequestDomainServerID 1000])
    else (s, fx)
  else
    (s, terminateWaitKill s._domainServerProcess)

/-- `AppDelegate::toggleAssignmentClientMonitor` (lines 214-223). -/
def toggleAssignmentClientMonitor (s : AppDelegate) (start : Bool) :
    AppDelegate × List Effect :=
  if start then
    let (s, fx) := backgroundProcessStart s s._acMonitorProcess ["-n", "4"]
    (s, fx ++ [Effect.addLogTab s._acMonitorProcess "Assignment Clients"])
  else
    (s, terminateWaitKill s._acMonitorProcess)

/-- The body of the `foreach` of lines 226-234 for one value of the hash. -/
def toggleScriptProcess (start : Bool) (acc : AppDelegate × List Effect)
    (scriptProcess : ProcessPtr) : AppDelegate × List Effect :=
  if start then
    let (s, fx) := backgroundProcessStart acc.1 scriptProcess (lastArgListOf acc.1 scriptProcess)
    (s, acc.2 ++ fx)
  else
    (acc.1, acc.2 ++ terminateWaitKill scriptProcess)

/-- `AppDelegate::toggleScriptedAssignmentClients` (lines 225-235): the
`foreach` over the values of `_scriptProcesses`, in the order of the hash. -/
def toggleScriptedAssignmentClients (s : AppDelegate) (start : Bool) :
    AppDelegate × List Effect :=
  (s._scriptProcesses.map Prod.snd).foldl (toggleScriptProcess start) (s, [])

/-- `AppDelegate::toggleStack` (lines 189-194). -/
def toggleStack (s : AppDelegate) (start : Bool) : AppDelegate × List Effect :=
  let (s, fx₁) := toggleDomainServer s start
  let (s, fx₂) := toggleAssignmentClientMonitor s start
  let (s, fx₃) := toggleScriptedAssignmentClients s start
  (s, fx₁ ++ fx₂ ++ fx₃ ++ [Effect.stackStateChanged start])

/-- Lines 129-142 of the destructor: the loop that erases each entry of
`_scriptProcesses` and calls `terminate()`, `waitForFinished()` (without
argument) and `deleteLater()` on its process. -/
def destroyScriptProcesses : List (QUuid × ProcessPtr) → List Effect
  | [] => []
  | (_, backgroundProcess) :: rest =>
    [Effect.processTerminate backgroundProcess,
     Effect.processWaitForFinished backgroundProcess none,
     Effect.processDeleteLater backgroundProcess] ++ destroyScriptProcesses rest

/-- The destructor `AppDelegate::~AppDelegate` (lines 128-159), as far as it
acts on the child processes. -/
def destructor (s : AppDelegate) : AppDelegate × List Effect :=
  ({ s with _scriptProcesses := [] },
   destroyScriptProcesses s._scriptProcesses ++
   [Effect.processTerminate s._domainServerProcess,
    Effect.processWaitForFinished s._domainServerProcess none,
    Effect.processTerminate s._acMonitorProcess,
    Effect.processWaitForFinished s._acMonitorProcess none,
    Effect.processDeleteLater s._domainServerProcess,
    Effect.processDeleteLater s._acMonitorProcess])

/-- The effect is a `kill()`. -/
def Effect.isKill : Effect → Bool
  | .processKill _ => true
  | _ => false

/-- The application with two workers registered, one of them in a pool. -/
def sampleRunningStack : AppDelegate :=
  afterCalls sampleGlobalData (fun p => (p : Int)) [.start 7 "", .start 8 "lobby"]

/-- A directory reply whose `domain` object has a `name` that is `null`. -/
def nullNameDocument : QJsonValue :=
  .object [("domain", .object [("name", .null), ("owner_places", .array [])])]

/-- A directory reply whose `domain` object has no `name` and whose first
`owner_places` element has none either. -/
def namelessPlaceDocument : QJsonValue :=
  .object [("domain", .object [("owner_places", .array [.object [("id", .string "p1")]])])]

/-- The manifest `sampleManifest` without its platform group for `solaris`. -/
def sampleManifestWithoutSolaris : Manifest :=
  [ .other .startDocument,
    .other (.startElement "projects" []),
    .other (.characters "\n  "),
    .project
      { attributes := [("name", "stackmanager")],
        items :=
          [ .other (.characters "\n    "),
            .platform
              { attributes := [("name", "ubuntu")],
                items :=
                  [ .build { items := [.field .version "10", .field .url "http://s3/sm-10.deb",
                                       .field .note "first"] },
                    .other (.characters "\n      "),
                    .build { items := [.other (.characters " "), .field .url "http://s3/sm-12.deb",
                                       .field .version "12", .field .timestamp "2014-08-01",
                                       .field .note "second", .field .note "third"] } ] } ] },
    .other (.endElement "projects") ]

/-- The token stream of a reply cut off inside a project: the document
starts, the project `stackmanager` and its platform group `ubuntu` open, a
build gives its version, and the stream ends (or the reader reports a parse
error) before any closing tag. -/
def truncatedDocument : List XmlToken :=
  [ .startDocument,
    .startElement "projects" [],
    .startElement "project" [("name", "stackmanager")],
    .startElement "platform" [("name", "ubuntu")],
    .startElement "build" [],
    .startElement "version" [],
    .characters "12" ]

/-! ### UUID text, stated by position -/

/-- The character is a hexadecimal digit: `0`..`9`, `A`..`F` or `a`..`f`. -/
def isHexDigit (c : Char) : Bool :=
  (decide (48 ≤ c.toNat) && decide (c.toNat ≤ 57)) ||
  (decide (65 ≤ c.toNat) && decide (c.toNat ≤ 70)) ||
  (decide (97 ≤ c.toNat) && decide (c.toNat ≤ 102))

/-- The first `n` characters exist and are hexadecimal digits. -/
def hexGroup (n : Nat) (cs : List Char) : Bool :=
  decide (n ≤ cs.length) && (cs.take n).all isHexDigit

/-- The character at position `i` is `-`. -/
def dashAt (i : Nat) (cs : List Char) : Bool :=
  ((cs.drop i).head?.map Char.toNat) == some 45

/-- The text starts with a UUID in its usual form: 36 characters, hexadecimal
digits in groups of 8, 4, 4, 4 and 12 with `-` at the positions 8, 13, 18 and
23. -/
def startsWithUuid (cs : List Char) : Bool :=
  hexGroup 8 cs && dashAt 8 cs && hexGroup 4 (cs.drop 9) && dashAt 13 cs &&
  hexGroup 4 (cs.drop 14) && dashAt 18 cs && hexGroup 4 (cs.drop 19) && dashAt 23 cs &&
  hexGroup 12 (cs.drop 24)

/-- The text without an opening brace at its start. -/
def stripOpeningBrace : List Char → List Char
  | [] => []
  | c :: cs => if c.toNat = 123 then cs else c :: cs

/-- The text is a UUID and nothing else: the 36 characters of its usual form,
or these between an opening and a closing brace. -/
def isUuidText (text : String) : Bool :=
  (text.length == 36 && startsWithUuid text.toList) ||
  (text.length == 38 && (text.toList.head?.map Char.toNat) == some 123 &&
    (text.toList.getLast?.map Char.toNat) == some 125 && startsWithUuid (text.toList.drop 1))

/-- A body that is a UUID followed by a line end and further text. -/
def uuidWithTrailingText : String :=
  "3f2504e0-4f89-11d3-9a0c-0305e82c3301\nnot part of the id"

/-! # Theorems -/

/-! ## Artifact readiness -/

theorem onFileSuccessfullyInstalled_fst (g : GlobalData) (s : AppDelegate) (url : String) :
    (onFileSuccessfullyInstalled g s url).1 = markInstalled g s url := by
  unfold onFileSuccessfullyInstalled
  simp only []
  split <;> rfl

theorem onFileSuccessfullyInstalled_snd (g : GlobalData) (s : AppDelegate) (url : String) :
    (onFileSuccessfullyInstalled g s url).2 =
      if (markInstalled g s url).allReady then
        [Effect.setRequirementsLastChecked, Effect.windowShow] else [] := by
  unfold onFileSuccessfullyInstalled AppDelegate.allReady
  simp only []
  split <;> simp_all

theorem allReady_iff (s : AppDelegate) :
    s.allReady = true ↔
      (s._qtReady = true ∧ s._acReady = true ∧ s._dsReady = true ∧ s._dsResourcesReady = true) := by
  simp [AppDelegate.allReady, and_assoc]

theorem declaresStartable_requestDownloadsOrShow (g : GlobalData) (s : AppDelegate) :
    declaresStartable (requestDownloadsOrShow g s) = s.allReady := by
  rcases s with ⟨a, b, c, d, _, _, _, _, _, _⟩
  cases a <;> cases b <;> cases c <;> cases d <;>
    simp [declaresStartable, requestDownloadsOrShow, AppDelegate.allReady]

/-- The network requests of lines 578-617, given the flags on entry. -/
theorem verifyBundlesAndDownload_snd (g : GlobalData) (w : World)
    (rq rs : QByteArray) (s : AppDelegate) (fx : List Effect) :
    (verifyBundlesAndDownload g w rq rs s fx).2 =
      fx ++ ((if s._qtReady then [Effect.networkGet g.requirementsMD5URL] else []) ++
        (if s._dsResourcesReady then [Effect.networkGet g.domainServerResourcesMD5URL] else []))
        ++ requestDownloadsOrShow g (verifyBundlesAndDownload g w rq rs s fx).1 := by
  unfold verifyBundlesAndDownload
  cases h1 : s._qtReady <;> cases h2 : s._dsResourcesReady <;>
    cases h3 : checksumMatches w (remoteMd5 g w g.requirementsMD5URL) rq <;>
    cases h4 : checksumMatches w (remoteMd5 g w g.domainServerResourcesMD5URL) rs <;>
    simp [h1, h2, h3, h4]

/-- The state after lines 578-617. -/
theorem verifyBundlesAndDownload_fst (g : GlobalData) (w : World)
    (rq rs : QByteArray) (s : AppDelegate) (fx : List Effect) :
    (verifyBundlesAndDownload g w rq rs s fx).1 =
      { s with
        _qtReady := s._qtReady && checksumMatches w (remoteMd5 g w g.requirementsMD5URL) rq,
        _dsResourcesReady := s._dsResourcesReady &&
          checksumMatches w (remoteMd5 g w g.domainServerResourcesMD5URL) rs } := by
  unfold verifyBundlesAndDownload
  cases h1 : s._qtReady <;> cases h2 : s._dsResourcesReady <;>
    cases h3 : checksumMatches w (remoteMd5 g w g.requirementsMD5URL) rq <;>
    cases h4 : checksumMatches w (remoteMd5 g w g.domainServerResourcesMD5URL) rs <;>
    simp [h1, h2, h3, h4] <;> (rcases s with ⟨a, b, c, d, _, _, _, _, _, _⟩; simp_all)

/-- The state in which a run of `downloadLatestExecutablesAndRequirements`
ends, flag by flag. -/
theorem downloadLatest_fst (g : GlobalData) (w : World) (s : AppDelegate) :
    (downloadLatestExecutablesAndRequirements g w s).1 =
      { s with
        _qtReady := (s._qtReady || qtInstalled g w) &&
          (abortedForNoNetwork g w ||
            checksumMatches w (remoteMd5 g w g.requirementsMD5URL)
              (w.readFile g.requirementsZipPath)),
        _dsResourcesReady :=
          (s._dsResourcesReady || !(decide (w.entryCount g.clientsResourcesPath < 3))) &&
          (abortedForNoNetwork g w ||
            checksumMatches w (remoteMd5 g w g.domainServerResourcesMD5URL)
              (w.readFile g.domainServerResourcesZipPath)),
        _acReady := g.hifiBuildDirectorySet || s._acReady ||
          (!abortedForNoNetwork g w &&
            checksumMatches w (remoteMd5 g w g.assignmentClientMD5URL)
              (w.readFile g.assignmentClientExecutablePath)),
        _dsReady := g.hifiBuildDirectorySet || s._dsReady ||
          (!abortedForNoNetwork g w &&
            checksumMatches w (remoteMd5 g w g.domainServerMD5URL)
              (w.readFile g.domainServerExecutablePath)) } := by
  unfold downloadLatestExecutablesAndRequirements abortedForNoNetwork
  rcases s with ⟨a, b, c, d, _, _, _, _, _, _⟩
  cases hb : g.hifiBuildDirectorySet
  · by_cases hz : (remoteMd5 g w g.assignmentClientMD5URL).length = 0
    · cases qtInstalled g w <;>
        cases decide (w.entryCount g.clientsResourcesPath < 3) <;>
        cases a <;> cases c <;> simp [hz]
    · have hz' : ((remoteMd5 g w g.assignmentClientMD5URL).length == 0) = false := by
        simpa using hz
      cases qtInstalled g w <;>
        cases decide (w.entryCount g.clientsResourcesPath < 3) <;>
        cases h1 : checksumMatches w (remoteMd5 g w g.assignmentClientMD5URL)
          (w.readFile g.assignmentClientExecutablePath) <;>
        cases h2 : checksumMatches w (remoteMd5 g w g.domainServerMD5URL)
          (w.readFile g.domainServerExecutablePath) <;>
        cases a <;> cases b <;> cases c <;> cases d <;>
        simp [hz, hz', h1, h2, verifyBundlesAndDownload_fst]
  · cases qtInstalled g w <;>
      cases decide (w.entryCount g.clientsResourcesPath < 3) <;>
      cases a <;> cases c <;> simp [verifyBundlesAndDownload_fst]

/-- The effects of a run that takes the early `return` of line 551. -/
theorem downloadLatest_snd_aborted (g : GlobalData) (w : World) (s : AppDelegate)
    (h : abortedForNoNetwork g w = true) :
    (downloadLatestExecutablesAndRequirements g w s).2 =
      [Effect.networkGet g.assignmentClientMD5URL, Effect.windowShow] := by
  unfold abortedForNoNetwork at h
  unfold downloadLatestExecutablesAndRequirements
  simp at h
  simp [h.1, h.2]

theorem verifyBundlesAndDownload_snd_requests (g : GlobalData) (w : World)
    (rq rs : QByteArray) (s : AppDelegate) (urls₀ : List String) :
    ∃ urls : List String,
      (verifyBundlesAndDownload g w rq rs s (urls₀.map Effect.networkGet)).2 =
        urls.map Effect.networkGet ++
          requestDownloadsOrShow g
            (verifyBundlesAndDownload g w rq rs s (urls₀.map Effect.networkGet)).1 := by
  rw [verifyBundlesAndDownload_snd]
  refine ⟨urls₀ ++ ((if s._qtReady then [g.requirementsMD5URL] else []) ++
    (if s._dsResourcesReady then [g.domainServerResourcesMD5URL] else [])), ?_⟩
  cases s._qtReady <;> cases s._dsResourcesReady <;> simp

/-- The effects of a run that does not take the early `return`: network
requests only, then lines 619-646 on the final flags. -/
theorem downloadLatest_snd_completed (g : GlobalData) (w : World) (s : AppDelegate)
    (h : abortedForNoNetwork g w = false) :
    ∃ urls : List String,
      (downloadLatestExecutablesAndRequirements g w s).2 =
        urls.map Effect.networkGet ++
          requestDownloadsOrShow g (downloadLatestExecutablesAndRequirements g w s).1 := by
  unfold abortedForNoNetwork at h
  unfold downloadLatestExecutablesAndRequirements
  cases hb : g.hifiBuildDirectorySet
  · have hz : ¬ (remoteMd5 g w g.assignmentClientMD5URL).length = 0 := by
      simpa [hb] using h
    simp only [hz, ↓reduceIte, Bool.false_eq_true]
    exact verifyBundlesAndDownload_snd_requests g w _ _ _
      [g.assignmentClientMD5URL, g.domainServerMD5URL]
  · simp only [↓reduceIte]
    exact verifyBundlesAndDownload_snd_requests g w _ _ _ []

/-- C1: `onFileSuccessfullyInstalled` (for every state of the four flags and
every URL), lines 619-646 that end `downloadLatestExecutablesAndRequirements`
(for every state of the four flags reaching them), and the whole run of that
function as the constructor starts it, record "requirements last checked" and
show the main window if and only if all four readiness flags are then true. -/
theorem startable_iff_all_flags_ready (g : GlobalData) (w : World) (s : AppDelegate)
    (url : String) :
    (declaresStartable (onFileSuccessfullyInstalled g s url).2 = true ↔
      ((onFileSuccessfullyInstalled g s url).1._qtReady = true ∧
       (onFileSuccessfullyInstalled g s url).1._acReady = true ∧
       (onFileSuccessfullyInstalled g s url).1._dsReady = true ∧
       (onFileSuccessfullyInstalled g s url).1._dsResourcesReady = true)) ∧
    (declaresStartable (requestDownloadsOrShow g s) = true ↔
      (s._qtReady = true ∧ s._acReady = true ∧ s._dsReady = true ∧
        s._dsResourcesReady = true)) ∧
    (declaresStartable
        (downloadLatestExecutablesAndRequirements g w (AppDelegate.constructed g)).2 = true ↔
      ((downloadLatestExecutablesAndRequirements g w (AppDelegate.constructed g)).1._qtReady
          = true ∧
       (downloadLatestExecutablesAndRequirements g w (AppDelegate.constructed g)).1._acReady
          = true ∧
       (downloadLatestExecutablesAndRequirements g w (AppDelegate.constructed g)).1._dsReady
          = true ∧
       (downloadLatestExecutablesAndRequirements g w
          (AppDelegate.constructed g)).1._dsResourcesReady = true)) := by
  refine ⟨?_, ?_, ?_⟩
  · rw [onFileSuccessfullyInstalled_snd, onFileSuccessfullyInstalled_fst, ← allReady_iff]
    cases (markInstalled g s url).allReady <;> simp [declaresStartable]
  · rw [declaresStartable_requestDownloadsOrShow, allReady_iff]
  · rw [← allReady_iff]
    cases h : abortedForNoNetwork g w
    · obtain ⟨urls, hu⟩ := downloadLatest_snd_completed g w (AppDelegate.constructed g) h
      rw [hu]
      rw [← declaresStartable_requestDownloadsOrShow g]
      simp [declaresStartable, List.contains_eq_any_beq]
    · rw [downloadLatest_snd_aborted g w _ h, downloadLatest_fst]
      simp [declaresStartable, AppDelegate.allReady, AppDelegate.constructed,
        AppDelegate.initial, h]
      intro _ hb
      simp [abortedForNoNetwork, hb] at h

/-- C9 fails as stated: with no build directory configured and an empty
checksum reply for the assignment client, the run still ends with `_qtReady`
(and `_dsResourcesReady`) marked ready when the local presence checks of
lines 482-513 pass. -/
theorem abort_leaves_presence_flags_set :
    sampleGlobalData.hifiBuildDirectorySet = false ∧
    (remoteMd5 sampleGlobalData offlineWorld sampleGlobalData.assignmentClientMD5URL).length = 0 ∧
    (downloadLatestExecutablesAndRequirements sampleGlobalData offlineWorld
      (AppDelegate.constructed sampleGlobalData)).1._qtReady = true ∧
    (downloadLatestExecutablesAndRequirements sampleGlobalData offlineWorld
      (AppDelegate.constructed sampleGlobalData)).1._dsResourcesReady = true := by
  decide

/-- C9 (amended): when no local build directory is configured and the
normalised checksum reply for the assignment client has length zero, the run
performs exactly the request of that checksum and then shows the main window
(no further checksum request, no download manager, no download), and leaves
the state unchanged except that `_qtReady` and `_dsResourcesReady` have been
set where the local presence checks of lines 482-513 passed; `_acReady` and
`_dsReady` are not set. -/
theorem abort_on_empty_assignment_client_checksum (g : GlobalData) (w : World)
    (s : AppDelegate)
    (hb : g.hifiBuildDirectorySet = false)
    (hz : (remoteMd5 g w g.assignmentClientMD5URL).length = 0) :
    (downloadLatestExecutablesAndRequirements g w s).2 =
      [Effect.networkGet g.assignmentClientMD5URL, Effect.windowShow] ∧
    (downloadLatestExecutablesAndRequirements g w s).1 =
      { s with
        _qtReady := s._qtReady || qtInstalled g w,
        _dsResourcesReady :=
          s._dsResourcesReady || !(decide (w.entryCount g.clientsResourcesPath < 3)) } := by
  have h : abortedForNoNetwork g w = true := by simp [abortedForNoNetwork, hb, hz]
  refine ⟨downloadLatest_snd_aborted g w s h, ?_⟩
  rw [downloadLatest_fst]
  simp [h, hb]

theorem abort_on_empty_assignment_client_checksum_witness :
    (downloadLatestExecutablesAndRequirements sampleGlobalData offlineWorld
        (AppDelegate.constructed sampleGlobalData)).2 =
      [Effect.networkGet sampleGlobalData.assignmentClientMD5URL, Effect.windowShow] ∧
    (downloadLatestExecutablesAndRequirements sampleGlobalData offlineWorld
        (AppDelegate.constructed sampleGlobalData)).1 =
      { AppDelegate.constructed sampleGlobalData with
        _qtReady := (AppDelegate.constructed sampleGlobalData)._qtReady ||
          qtInstalled sampleGlobalData offlineWorld,
        _dsResourcesReady := (AppDelegate.constructed sampleGlobalData)._dsResourcesReady ||
          !(decide (offlineWorld.entryCount sampleGlobalData.clientsResourcesPath < 3)) } :=
  abort_on_empty_assignment_client_checksum sampleGlobalData offlineWorld
    (AppDelegate.constructed sampleGlobalData) (by decide) (by decide)

theorem mem_requestDownloadsOrShow (g : GlobalData) (s : AppDelegate) (url : String) :
    Effect.downloadFile url ∈ requestDownloadsOrShow g s ↔
      ((s._qtReady = false ∧ url = g.requirementsURL) ∨
       (s._acReady = false ∧ url = g.assignmentClientURL) ∨
       (s._dsReady = false ∧ url = g.domainServerURL) ∨
       (s._dsResourcesReady = false ∧ url = g.domainServerResourcesURL)) := by
  rcases s with ⟨a, b, c, d, _, _, _, _, _, _⟩
  cases a <;> cases b <;> cases c <;> cases d <;> simp [requestDownloadsOrShow]

/-- C10: in a run of `downloadLatestExecutablesAndRequirements` that does not
take the early return for lack of network, the effects are a sequence of
checksum requests (the readiness determinations) followed by: the display of
the download manager when some flag is false, otherwise the record of the
check and the display of the main window; then, in the order runtime bundle,
worker, coordinator, resources, one download request for exactly each
artifact whose flag is false at the end. Hence a download of a URL is
requested iff it is the URL of an artifact whose final flag is false, no
download precedes a determination, and with all four flags true the tail is
just the display of the main window. -/
theorem downloads_follow_determinations (g : GlobalData) (w : World) (s : AppDelegate)
    (h : abortedForNoNetwork g w = false) :
    ∃ urls : List String,
      (downloadLatestExecutablesAndRequirements g w s).2 =
        urls.map Effect.networkGet ++
          ((if (downloadLatestExecutablesAndRequirements g w s).1._qtReady &&
                (downloadLatestExecutablesAndRequirements g w s).1._acReady &&
                (downloadLatestExecutablesAndRequirements g w s).1._dsReady &&
                (downloadLatestExecutablesAndRequirements g w s).1._dsResourcesReady
            then [Effect.setRequirementsLastChecked, Effect.windowShow]
            else [Effect.downloadManagerShow]) ++
           (if (downloadLatestExecutablesAndRequirements g w s).1._qtReady then []
            else [Effect.downloadFile g.requirementsURL]) ++
           (if (downloadLatestExecutablesAndRequirements g w s).1._acReady then []
            else [Effect.downloadFile g.assignmentClientURL]) ++
           (if (downloadLatestExecutablesAndRequirements g w s).1._dsReady then []
            else [Effect.downloadFile g.domainServerURL]) ++
           (if (downloadLatestExecutablesAndRequirements g w s).1._dsResourcesReady then []
            else [Effect.downloadFile g.domainServerResourcesURL])) ∧
      ∀ url : String,
        Effect.downloadFile url ∈ (downloadLatestExecutablesAndRequirements g w s).2 ↔
          (((downloadLatestExecutablesAndRequirements g w s).1._qtReady = false ∧
              url = g.requirementsURL) ∨
           ((downloadLatestExecutablesAndRequirements g w s).1._acReady = false ∧
              url = g.assignmentClientURL) ∨
           ((downloadLatestExecutablesAndRequirements g w s).1._dsReady = false ∧
              url = g.domainServerURL) ∨
           ((downloadLatestExecutablesAndRequirements g w s).1._dsResourcesReady = false ∧
              url = g.domainServerResourcesURL)) := by
  obtain ⟨urls, hu⟩ := downloadLatest_snd_completed g w s h
  refine ⟨urls, ?_, ?_⟩
  · rw [hu]
    congr 1
    generalize (downloadLatestExecutablesAndRequirements g w s).1 = s'
    rcases s' with ⟨a, b, c, d, _, _, _, _, _, _⟩
    cases a <;> cases b <;> cases c <;> cases d <;> simp [requestDownloadsOrShow]
  · intro url
    rw [hu, List.mem_append, mem_requestDownloadsOrShow]
    simp

theorem downloads_follow_determinations_witness :
    ∃ urls : List String,
      (downloadLatestExecutablesAndRequirements sampleGlobalData staleWorld
          (AppDelegate.constructed sampleGlobalData)).2 =
        urls.map Effect.networkGet ++
          [Effect.downloadManagerShow,
           Effect.downloadFile "http://s3/requirements.zip",
           Effect.downloadFile "http://s3/assignment-client",
           Effect.downloadFile "http://s3/domain-server",
           Effect.downloadFile "http://s3/resources.zip"] := by
  obtain ⟨urls, hu, _⟩ := downloads_follow_determinations sampleGlobalData staleWorld
    (AppDelegate.constructed sampleGlobalData) (by decide)
  exact ⟨urls, hu⟩

theorem installAll_cons (g : GlobalData) (s : AppDelegate) (url : String) (urls : List String) :
    installAll g s (url :: urls) = installAll g (markInstalled g s url) urls := by
  simp [installAll, onFileSuccessfullyInstalled_fst]

/-- The flags after a list of installation signals, for pairwise different
download URLs. -/
theorem installAll_flags (g : GlobalData)
    (hd : [g.requirementsURL, g.assignmentClientURL, g.domainServerURL,
      g.domainServerResourcesURL].Nodup) (urls : List String) (s : AppDelegate) :
    ((installAll g s urls)._qtReady = true ↔
      (s._qtReady = true ∨ g.requirementsURL ∈ urls)) ∧
    ((installAll g s urls)._acReady = true ↔
      (s._acReady = true ∨ g.assignmentClientURL ∈ urls)) ∧
    ((installAll g s urls)._dsReady = true ↔
      (s._dsReady = true ∨ g.domainServerURL ∈ urls)) ∧
    ((installAll g s urls)._dsResourcesReady = true ↔
      (s._dsResourcesReady = true ∨ g.domainServerResourcesURL ∈ urls)) := by
  simp only [List.nodup_cons, List.mem_cons, List.mem_singleton, not_or, List.not_mem_nil,
    not_false_eq_true, List.nodup_nil, and_true] at hd
  obtain ⟨⟨h12, h13, h14⟩, ⟨h23, h24⟩, h34⟩ := hd
  induction urls generalizing s with
  | nil => simp [installAll]
  | cons u us ih =>
    rw [installAll_cons]
    obtain ⟨i1, i2, i3, i4⟩ := ih (markInstalled g s u)
    rw [i1, i2, i3, i4]
    unfold markInstalled
    have h21 := Ne.symm h12
    have h31 := Ne.symm h13
    have h41 := Ne.symm h14
    have h32 := Ne.symm h23
    have h42 := Ne.symm h24
    have h43 := Ne.symm h34
    by_cases e1 : u = g.requirementsURL
    · subst e1
      simp [h12, h13, h14, h23, h24, h34, h21, h31, h41, h32, h42, h43]
    · by_cases e2 : u = g.assignmentClientURL
      · subst e2
        simp [h12, h13, h14, h23, h24, h34, h21, h31, h41, h32, h42, h43]
      · by_cases e3 : u = g.domainServerURL
        · subst e3
          simp [h12, h13, h14, h23, h24, h34, h21, h31, h41, h32, h42, h43]
        · by_cases e4 : u = g.domainServerResourcesURL
          · subst e4
            simp [h12, h13, h14, h23, h24, h34, h21, h31, h41, h32, h42, h43]
          · simp [e1, e2, e3, e4, Ne.symm e1, Ne.symm e2, Ne.symm e3, Ne.symm e4]

/-- C2 fails as stated. With a build directory configured the worker flag is
true although its checksum does not match and nothing was installed; and
with the Qt library missing locally the runtime-bundle flag is false although
the checksum of the local archive matches the remote one. -/
theorem readiness_is_not_checksum_or_install :
    ¬ ((installAll sampleBuildDirGlobalData
          (downloadLatestExecutablesAndRequirements sampleBuildDirGlobalData staleWorld
            (AppDelegate.constructed sampleBuildDirGlobalData)).1 [])._acReady = true ↔
        (checksumMatches staleWorld
            (remoteMd5 sampleBuildDirGlobalData staleWorld
              sampleBuildDirGlobalData.assignmentClientMD5URL)
            (staleWorld.readFile sampleBuildDirGlobalData.assignmentClientExecutablePath) = true ∨
          sampleBuildDirGlobalData.assignmentClientURL ∈ ([] : List String))) ∧
    ¬ ((installAll sampleGlobalData
          (downloadLatestExecutablesAndRequirements sampleGlobalData matchingWorld
            (AppDelegate.constructed sampleGlobalData)).1 [])._qtReady = true ↔
        (checksumMatches matchingWorld
            (remoteMd5 sampleGlobalData matchingWorld sampleGlobalData.requirementsMD5URL)
            (matchingWorld.readFile sampleGlobalData.requirementsZipPath) = true ∨
          sampleGlobalData.requirementsURL ∈ ([] : List String))) := by
  decide

/-- C2 (amended): for pairwise different download URLs, the flag of an
artifact after the constructor's run of
`downloadLatestExecutablesAndRequirements` followed by any sequence of
`onFileSuccessfullyInstalled` calls is true iff the start-up determination
set it or `onFileSuccessfullyInstalled` has since been called with that
artifact's URL. The determination sets the worker and coordinator flags when
a build directory is configured, or when the run is not aborted for lack of
network and the lower-cased normalised remote checksum equals the hex MD5 of
the local bytes; it sets the runtime-bundle and resource-bundle flags when the
local presence check passes (Qt core library found; at least 3 entries in the
resources directory) and the checksum matches likewise or the run was aborted
before that comparison. -/
theorem readiness_iff_determined_or_installed (g : GlobalData) (w : World)
    (urls : List String)
    (hd : [g.requirementsURL, g.assignmentClientURL, g.domainServerURL,
      g.domainServerResourcesURL].Nodup) :
    ((installAll g (downloadLatestExecutablesAndRequirements g w
          (AppDelegate.constructed g)).1 urls)._qtReady = true ↔
      ((qtInstalled g w = true ∧
          (abortedForNoNetwork g w = true ∨
            checksumMatches w (remoteMd5 g w g.requirementsMD5URL)
              (w.readFile g.requirementsZipPath) = true)) ∨
        g.requirementsURL ∈ urls)) ∧
    ((installAll g (downloadLatestExecutablesAndRequirements g w
          (AppDelegate.constructed g)).1 urls)._acReady = true ↔
      ((g.hifiBuildDirectorySet = true ∨
          (abortedForNoNetwork g w = false ∧
            checksumMatches w (remoteMd5 g w g.assignmentClientMD5URL)
              (w.readFile g.assignmentClientExecutablePath) = true)) ∨
        g.assignmentClientURL ∈ urls)) ∧
    ((installAll g (downloadLatestExecutablesAndRequirements g w
          (AppDelegate.constructed g)).1 urls)._dsReady = true ↔
      ((g.hifiBuildDirectorySet = true ∨
          (abortedForNoNetwork g w = false ∧
            checksumMatches w (remoteMd5 g w g.domainServerMD5URL)
              (w.readFile g.domainServerExecutablePath) = true)) ∨
        g.domainServerURL ∈ urls)) ∧
    ((installAll g (downloadLatestExecutablesAndRequirements g w
          (AppDelegate.constructed g)).1 urls)._dsResourcesReady = true ↔
      ((3 ≤ w.entryCount g.clientsResourcesPath ∧
          (abortedForNoNetwork g w = true ∨
            checksumMatches w (remoteMd5 g w g.domainServerResourcesMD5URL)
              (w.readFile g.domainServerResourcesZipPath) = true)) ∨
        g.domainServerResourcesURL ∈ urls)) := by
  obtain ⟨i1, i2, i3, i4⟩ := installAll_flags g hd urls
    (downloadLatestExecutablesAndRequirements g w (AppDelegate.constructed g)).1
  rw [i1, i2, i3, i4, downloadLatest_fst]
  simp [AppDelegate.constructed, AppDelegate.initial]

theorem readiness_iff_determined_or_installed_witness :
    (installAll sampleGlobalData (downloadLatestExecutablesAndRequirements sampleGlobalData
          upToDateWorld (AppDelegate.constructed sampleGlobalData)).1
        ["http://s3/domain-server"])._qtReady = true ↔
      ((qtInstalled sampleGlobalData upToDateWorld = true ∧
          (abortedForNoNetwork sampleGlobalData upToDateWorld = true ∨
            checksumMatches upToDateWorld
              (remoteMd5 sampleGlobalData upToDateWorld sampleGlobalData.requirementsMD5URL)
              (upToDateWorld.readFile sampleGlobalData.requirementsZipPath) = true)) ∨
        sampleGlobalData.requirementsURL ∈ ["http://s3/domain-server"]) :=
  (readiness_iff_determined_or_installed sampleGlobalData upToDateWorld
    ["http://s3/domain-server"] (by decide)).1

/-! ## Checksum normalisation -/

theorem hexDigit_range (n : Nat) (h : n < 16) :
    (48 ≤ hexDigit n ∧ hexDigit n ≤ 57) ∨ (97 ≤ hexDigit n ∧ hexDigit n ≤ 102) := by
  unfold hexDigit
  split <;> omega

theorem toHex_range (d : QByteArray) :
    ∀ x ∈ toHex d, (48 ≤ x ∧ x ≤ 57) ∨ (97 ≤ x ∧ x ≤ 102) := by
  induction d with
  | nil => simp [toHex]
  | cons b bs ih =>
    intro x hx
    simp only [toHex, List.mem_cons] at hx
    rcases hx with rfl | rfl | hx
    · exact hexDigit_range _ (Nat.mod_lt _ (by decide))
    · exact hexDigit_range _ (Nat.mod_lt _ (by decide))
    · exact ih x hx

theorem toHex_length (d : QByteArray) : (toHex d).length = 2 * d.length := by
  induction d with
  | nil => rfl
  | cons b bs ih => simp [toHex, ih]; omega

/-- A character whose lower-case form is a hexadecimal digit is no whitespace. -/
theorem not_space_of_toLowerByte_hex (c : Nat)
    (h : (48 ≤ toLowerByte c ∧ toLowerByte c ≤ 57) ∨
      (97 ≤ toLowerByte c ∧ toLowerByte c ≤ 102)) :
    asciiIsSpace c = false := by
  unfold toLowerByte at h
  unfold asciiIsSpace
  simp only [Bool.or_eq_false_iff, Bool.and_eq_false_imp, decide_eq_true_eq, beq_eq_false_iff_ne,
    decide_eq_false_iff_not]
  split at h <;> rename_i hc <;> simp at hc <;> omega

/-- Every character of a case variant of a hexadecimal rendering is no
whitespace. -/
theorem no_space_of_toLower_eq_toHex (t d : QByteArray) (ht : toLower t = toHex d) :
    ∀ c ∈ t, asciiIsSpace c = false := by
  intro c hc
  apply not_space_of_toLowerByte_hex
  apply toHex_range d
  rw [← ht]
  exact List.mem_map_of_mem _ hc

theorem dropWhile_append_of_all {p : Nat → Bool} (a b : List Nat) (ha : ∀ c ∈ a, p c = true) :
    (a ++ b).dropWhile p = b.dropWhile p := by
  induction a with
  | nil => rfl
  | cons x xs ih =>
    have hx : p x = true := ha x (List.mem_cons_self _ _)
    simp only [List.cons_append, List.dropWhile_cons, hx, if_true]
    exact ih (fun c hc => ha c (List.mem_cons_of_mem _ hc))

theorem dropWhile_eq_self_of_none {p : Nat → Bool} (b : List Nat)
    (hb : ∀ c ∈ b, p c = false) : b.dropWhile p = b := by
  cases b with
  | nil => rfl
  | cons x xs => simp [List.dropWhile_cons, hb x (List.mem_cons_self _ _)]

theorem dropWhile_append_of_none {p : Nat → Bool} (a b : List Nat)
    (hb : ∀ c ∈ b, p c = false) : (a ++ b).dropWhile p = a.dropWhile p ++ b := by
  induction a with
  | nil => simpa using dropWhile_eq_self_of_none b hb
  | cons x xs ih =>
    simp only [List.cons_append, List.dropWhile_cons]
    split
    · exact ih
    · rfl

/-- Trimming removes leading whitespace, and of what follows a word without
whitespace it keeps an initial segment. -/
theorem trimmed_word (ws t u : QByteArray) (hws : ∀ c ∈ ws, asciiIsSpace c = true)
    (ht : ∀ c ∈ t, asciiIsSpace c = false) (hne : t ≠ []) :
    trimmed (ws ++ t ++ u) = t ++ (u.reverse.dropWhile asciiIsSpace).reverse := by
  unfold trimmed
  rw [List.append_assoc, dropWhile_append_of_all ws _ hws]
  have h1 : (t ++ u).dropWhile asciiIsSpace = t ++ u := by
    cases t with
    | nil => exact absurd rfl hne
    | cons x xs => simp [List.dropWhile_cons, ht x (List.mem_cons_self _ _)]
  rw [h1, List.reverse_append, dropWhile_append_of_none _ _ (by simpa using ht)]
  simp

theorem takeWhile_word (t r : QByteArray) (ht : ∀ c ∈ t, asciiIsSpace c = false)
    (hr : r = [] ∨ ∃ c rest, r = c :: rest ∧ asciiIsSpace c = true) :
    (t ++ r).takeWhile (fun c => !asciiIsSpace c) = t := by
  induction t with
  | nil =>
    rcases hr with rfl | ⟨c, rest, rfl, hc⟩
    · rfl
    · simp [List.takeWhile_cons, hc]
  | cons x xs ih =>
    have hx := ht x (List.mem_cons_self _ _)
    simp only [List.cons_append, List.takeWhile_cons, hx, Bool.not_false, if_true]
    rw [ih (fun c hc => ht c (List.mem_cons_of_mem _ hc))]

/-- What trimming on the right leaves of a list is empty or starts like it. -/
theorem rtrim_head (c : Nat) (rest : List Nat) :
    (((c :: rest).reverse.dropWhile asciiIsSpace).reverse = [] ∨
      ∃ rest', ((c :: rest).reverse.dropWhile asciiIsSpace).reverse = c :: rest') := by
  have h := List.takeWhile_append_dropWhile asciiIsSpace (c :: rest).reverse
  have h' := congrArg List.reverse h
  rw [List.reverse_append, List.reverse_reverse] at h'
  generalize ((c :: rest).reverse.dropWhile asciiIsSpace).reverse = r at h'
  cases r with
  | nil => exact Or.inl rfl
  | cons y ys =>
    right
    simp only [List.cons_append, List.cons.injEq] at h'
    exact ⟨ys, by rw [h'.1]⟩

/-- The normalisation of a reply that holds a case variant `t` of the
hexadecimal digest, surrounded as C8 describes, is `t`. -/
theorem remoteMd5_of_wrapped (g : GlobalData) (w : World) (url : String)
    (ws t post d : QByteArray)
    (hurl : w.httpGet url = ws ++ t ++ post)
    (hws : ∀ c ∈ ws, asciiIsSpace c = true)
    (ht : toLower t = toHex d) (hne : t ≠ [])
    (hpost : (∀ c ∈ post, asciiIsSpace c = true) ∨
      (g.platform = "win" ∧ ∃ c rest, post = c :: rest ∧ asciiIsSpace c = true)) :
    remoteMd5 g w url = t := by
  have hns := no_space_of_toLower_eq_toHex t d ht
  unfold remoteMd5
  simp only [hurl]
  rw [trimmed_word ws t post hws hns hne]
  have hword : ∀ r : QByteArray, (r = [] ∨ ∃ c rest, r = c :: rest ∧ asciiIsSpace c = true) →
      readWord (t ++ r) = t := by
    intro r hr
    unfold readWord
    have h1 : (t ++ r).dropWhile asciiIsSpace = t ++ r := by
      cases t with
      | nil => exact absurd rfl hne
      | cons x xs => simp [List.dropWhile_cons, hns x (List.mem_cons_self _ _)]
    rw [h1, takeWhile_word t r hns hr]
  rcases hpost with hall | ⟨hwin, c, rest, rfl, hc⟩
  · have h0 : (post.reverse.dropWhile asciiIsSpace).reverse = [] := by
      have := dropWhile_append_of_all post.reverse [] (by simpa using hall)
      simp only [List.append_nil, List.dropWhile_nil] at this
      rw [this]; rfl
    rw [h0, List.append_nil]
    split
    · simpa using hword [] (Or.inl rfl)
    · rfl
  · simp only [hwin, if_true]
    apply hword
    rcases rtrim_head c rest with h | ⟨rest', h⟩
    · exact Or.inl h
    · exact Or.inr ⟨c, rest', h, hc⟩

/-- C8: for every local byte buffer whose digest has 16 octets, and every
remote reply made of whitespace, then the hexadecimal MD5 of the buffer in any
mix of upper and lower case, then either whitespace only or (on the platform
`"win"`) a whitespace character and arbitrary further bytes, the start-up
comparison `md5Data.toLower() == hash.toHex()` on the normalised reply reports
a match, and the normalised reply is not of length zero (so the worker check
does not take it for a missing network). -/
theorem checksum_comparison_tolerates_case_and_whitespace (g : GlobalData) (w : World)
    (url : String) (data ws t post : QByteArray)
    (hlen : (w.md5 data).length = 16)
    (hurl : w.httpGet url = ws ++ t ++ post)
    (hws : ∀ c ∈ ws, asciiIsSpace c = true)
    (ht : toLower t = toHex (w.md5 data))
    (hpost : (∀ c ∈ post, asciiIsSpace c = true) ∨
      (g.platform = "win" ∧ ∃ c rest, post = c :: rest ∧ asciiIsSpace c = true)) :
    checksumMatches w (remoteMd5 g w url) data = true ∧ (remoteMd5 g w url).length ≠ 0 := by
  have hl : t.length = 32 := by
    have := congrArg List.length ht
    simpa [toLower, toHex_length, hlen] using this
  have hne : t ≠ [] := by
    intro h; simp [h] at hl
  rw [remoteMd5_of_wrapped g w url ws t post (w.md5 data) hurl hws ht hne hpost]
  exact ⟨by simp [checksumMatches, ht], by omega⟩

theorem checksum_comparison_tolerates_case_and_whitespace_witness :
    checksumMatches matchingWorld
        (remoteMd5 sampleGlobalData matchingWorld "http://s3/domain-server.md5") [1, 2, 3] = true ∧
      (remoteMd5 sampleGlobalData matchingWorld "http://s3/domain-server.md5").length ≠ 0 :=
  checksum_comparison_tolerates_case_and_whitespace sampleGlobalData matchingWorld
    "http://s3/domain-server.md5" [1, 2, 3] [32] (List.replicate 16 [65, 98]).flatten [13, 10]
    (by decide) (by decide) (by decide) (by decide) (Or.inl (by decide))

/-! ## Worker registry -/

/-- The keys of the registry. -/
theorem hashValue_eq_zero_of_not_mem (h : List (QUuid × ProcessPtr)) (key : QUuid)
    (hk : key ∉ h.map Prod.fst) : hashValue h key = 0 := by
  unfold hashValue
  induction h with
  | nil => rfl
  | cons e es ih =>
    obtain ⟨k, v⟩ := e
    simp only [List.map_cons, List.mem_cons, not_or] at hk
    have hne : (key == k) = false := by simpa using hk.1
    simp only [List.lookup, hne]
    exact ih hk.2

theorem hashValue_ne_zero_of_mem (h : List (QUuid × ProcessPtr)) (key : QUuid)
    (hv : ∀ e ∈ h, e.2 ≠ 0) (hk : key ∈ h.map Prod.fst) : hashValue h key ≠ 0 := by
  unfold hashValue
  induction h with
  | nil => simp at hk
  | cons e es ih =>
    obtain ⟨k, v⟩ := e
    by_cases hkk : key = k
    · subst hkk
      simpa [List.lookup] using hv (key, v) (List.mem_cons_self _ _)
    · have hne : (key == k) = false := by simpa using hkk
      simp only [List.lookup, hne]
      simp only [List.map_cons, List.mem_cons, hkk, false_or] at hk
      exact ih (fun e he => hv e (List.mem_cons_of_mem _ he)) hk

theorem filter_ne_key_of_not_mem (h : List (QUuid × ProcessPtr)) (key : QUuid)
    (hk : key ∉ h.map Prod.fst) : h.filter (fun e => e.1 != key) = h := by
  rw [List.filter_eq_self]
  intro e he
  have : e.1 ≠ key := fun heq => hk (heq ▸ List.mem_map_of_mem Prod.fst he)
  simpa using this

theorem keys_filter_ne (h : List (QUuid × ProcessPtr)) (key : QUuid) :
    (h.filter (fun e => e.1 != key)).map Prod.fst = (h.map Prod.fst).filter (fun k => k != key) := by
  induction h with
  | nil => rfl
  | cons e es ih =>
    simp only [List.filter_cons, List.map_cons]
    split <;> simp [ih]

theorem start_registered (g : GlobalData) (pid : ProcessPtr → Int) (s : AppDelegate)
    (scriptID : QUuid) (pool : String) (hs : RegistryOk s)
    (hk : scriptID ∈ s._scriptProcesses.map Prod.fst) :
    startScriptedAssignment g pid s scriptID pool =
      (s, [Effect.processRestart (hashValue s._scriptProcesses scriptID)],
        pid (hashValue s._scriptProcesses scriptID)) := by
  have h := hashValue_ne_zero_of_mem _ _ hs.2 hk
  unfold startScriptedAssignment
  simp [h]

theorem start_unregistered (g : GlobalData) (pid : ProcessPtr → Int) (s : AppDelegate)
    (scriptID : QUuid) (pool : String)
    (hk : scriptID ∉ s._scriptProcesses.map Prod.fst) :
    (startScriptedAssignment g pid s scriptID pool).1 =
      { s with
        heap := s.heap ++ [{ program := g.assignmentClientExecutablePath,
                             lastArgList := ["-t", "2"] ++
                               (if pool ≠ "" then ["--pool", pool] else []) }],
        _scriptProcesses := (scriptID, s.heap.length + 1) :: s._scriptProcesses } := by
  have h := hashValue_eq_zero_of_not_mem _ _ hk
  unfold startScriptedAssignment
  simp [h, hashInsert, filter_ne_key_of_not_mem _ _ hk]

theorem stop_fst (s : AppDelegate) (scriptID : QUuid) :
    (stopScriptedAssignment s scriptID).1 =
      { s with _scriptProcesses := s._scriptProcesses.filter (fun e => e.1 != scriptID) } := by
  unfold stopScriptedAssignment hashTake
  simp only []
  split <;> rfl

theorem registryOk_start (g : GlobalData) (pid : ProcessPtr → Int) (s : AppDelegate)
    (scriptID : QUuid) (pool : String) (hs : RegistryOk s) :
    RegistryOk (startScriptedAssignment g pid s scriptID pool).1 := by
  by_cases hk : scriptID ∈ s._scriptProcesses.map Prod.fst
  · rw [start_registered g pid s scriptID pool hs hk]; exact hs
  · rw [start_unregistered g pid s scriptID pool hk]
    refine ⟨?_, ?_⟩
    · simpa [List.nodup_cons] using ⟨by simpa using hk, hs.1⟩
    · intro e he
      simp only [List.mem_cons] at he
      rcases he with rfl | he
      · simp
      · exact hs.2 e he

theorem registryOk_stop (s : AppDelegate) (scriptID : QUuid) (hs : RegistryOk s) :
    RegistryOk (stopScriptedAssignment s scriptID).1 := by
  rw [stop_fst]
  refine ⟨?_, ?_⟩
  · simp only [keys_filter_ne]
    exact hs.1.filter _
  · intro e he
    exact hs.2 e (List.mem_of_mem_filter he)

theorem afterCalls_concat (g : GlobalData) (pid : ProcessPtr → Int)
    (calls : List RegistryCall) (c : RegistryCall) :
    afterCalls g pid (calls ++ [c]) = applyCall g pid (afterCalls g pid calls) c := by
  simp [afterCalls, List.foldl_append]

theorem registryOk_afterCalls (g : GlobalData) (pid : ProcessPtr → Int)
    (calls : List RegistryCall) : RegistryOk (afterCalls g pid calls) := by
  induction calls using List.reverseRecOn with
  | nil => exact ⟨by simp [afterCalls, AppDelegate.constructed, AppDelegate.initial],
      by simp [afterCalls, AppDelegate.constructed, AppDelegate.initial]⟩
  | append_singleton cs c ih =>
    rw [afterCalls_concat]
    cases c with
    | start scriptID pool => exact registryOk_start g pid _ scriptID pool ih
    | stop scriptID => exact registryOk_stop _ scriptID ih

theorem lastCallIsStart_concat (calls : List RegistryCall) (c : RegistryCall) (k : QUuid) :
    lastCallIsStart (calls ++ [c]) k =
      if c.scriptID = k then (match c with | .start _ _ => true | .stop _ => false)
      else lastCallIsStart calls k := by
  unfold lastCallIsStart
  simp only [List.reverse_append, List.reverse_cons, List.reverse_nil, List.nil_append,
    List.singleton_append, List.find?_cons]
  by_cases h : c.scriptID = k
  · simp only [h, beq_self_eq_true, if_true]
    cases c <;> rfl
  · have : (c.scriptID == k) = false := by simpa using h
    simp only [this, h, if_false]

/-- The keys of the registry are the ids whose most recent call is a start. -/
theorem mem_keys_afterCalls (g : GlobalData) (pid : ProcessPtr → Int)
    (calls : List RegistryCall) (k : QUuid) :
    k ∈ (afterCalls g pid calls)._scriptProcesses.map Prod.fst ↔
      lastCallIsStart calls k = true := by
  induction calls using List.reverseRecOn with
  | nil => simp [afterCalls, AppDelegate.constructed, AppDelegate.initial, lastCallIsStart]
  | append_singleton cs c ih =>
    rw [afterCalls_concat, lastCallIsStart_concat]
    have hok := registryOk_afterCalls g pid cs
    cases c with
    | start scriptID pool =>
      simp only [applyCall, RegistryCall.scriptID]
      by_cases hk : scriptID ∈ (afterCalls g pid cs)._scriptProcesses.map Prod.fst
      · rw [start_registered g pid _ scriptID pool hok hk]
        by_cases e : scriptID = k
        · subst e; simpa using hk
        · simp only [e, if_false]; exact ih
      · rw [start_unregistered g pid _ scriptID pool hk]
        by_cases e : scriptID = k
        · subst e; simp
        · simp only [e, if_false, List.map_cons, List.mem_cons, Ne.symm e, false_or]
          exact ih
    | stop scriptID =>
      simp only [applyCall, RegistryCall.scriptID, stop_fst, keys_filter_ne, List.mem_filter]
      by_cases e : scriptID = k
      · subst e; simp
      · simp only [e, if_false]
        have : (k != scriptID) = true := by simpa using Ne.symm e
        simp only [this, and_true]
        exact ih

theorem mem_startedIds_of_lastCallIsStart (calls : List RegistryCall) (k : QUuid)
    (h : lastCallIsStart calls k = true) : k ∈ startedIds calls := by
  unfold lastCallIsStart at h
  split at h
  · rename_i sid pool hf
    have hmem := List.mem_of_find?_eq_some hf
    have hp := List.find?_some hf
    simp only [RegistryCall.scriptID, beq_iff_eq] at hp
    subst hp
    unfold startedIds
    rw [List.mem_filterMap]
    exact ⟨.start sid pool, List.mem_reverse.mp hmem, rfl⟩
  · exact absurd h (by simp)

/-- The size of the registry is the number of live ids. -/
theorem registry_size_afterCalls (g : GlobalData) (pid : ProcessPtr → Int)
    (calls : List RegistryCall) :
    (afterCalls g pid calls)._scriptProcesses.length = (liveIds calls).length := by
  have hnd := (registryOk_afterCalls g pid calls).1
  have hnd2 : (liveIds calls).Nodup := (List.nodup_dedup _).filter _
  have hperm : List.Perm ((afterCalls g pid calls)._scriptProcesses.map Prod.fst)
      (liveIds calls) := by
    rw [List.perm_ext_iff_of_nodup hnd hnd2]
    intro k
    rw [mem_keys_afterCalls]
    unfold liveIds
    rw [List.mem_filter, List.mem_dedup]
    exact ⟨fun h => ⟨mem_startedIds_of_lastCallIsStart calls k h, h⟩, fun h => h.2⟩
  simpa using hperm.length_eq

theorem entries_of_key_length (h : List (QUuid × ProcessPtr)) (key : QUuid)
    (hnd : (h.map Prod.fst).Nodup) (hk : key ∈ h.map Prod.fst) :
    (h.filter (fun e => e.1 == key)).length = 1 := by
  induction h with
  | nil => simp at hk
  | cons e es ih =>
    simp only [List.map_cons, List.nodup_cons] at hnd
    by_cases he : e.1 = key
    · have hnone : es.filter (fun e => e.1 == key) = [] := by
        rw [List.filter_eq_nil_iff]
        intro x hx
        have : x.1 ≠ key := fun hxe => hnd.1 (he ▸ hxe ▸ List.mem_map_of_mem Prod.fst hx)
        simpa using this
      simp [List.filter_cons, he, hnone]
    · have hk' : key ∈ es.map Prod.fst := by
        simp only [List.map_cons, List.mem_cons] at hk
        rcases hk with hk | hk
        · exact absurd hk.symm he
        · exact hk
      simp [List.filter_cons, he, ih hnd.2 hk']

theorem start_mem_keys (g : GlobalData) (pid : ProcessPtr → Int) (s : AppDelegate)
    (scriptID : QUuid) (pool : String) (hs : RegistryOk s) :
    scriptID ∈ (startScriptedAssignment g pid s scriptID pool).1._scriptProcesses.map Prod.fst := by
  by_cases hk : scriptID ∈ s._scriptProcesses.map Prod.fst
  · rw [start_registered g pid s scriptID pool hs hk]; exact hk
  · rw [start_unregistered g pid s scriptID pool hk]; simp

/-- C3 fails as stated: after start, stop, start of one id the registry holds
one entry, while the distinct ids started minus those explicitly stopped are
none (and their counts differ by zero). -/
theorem registry_size_exceeds_started_minus_stopped :
    ¬ ((afterCalls sampleGlobalData (fun p => (p : Int))
          [.start 7 "", .stop 7, .start 7 ""])._scriptProcesses.length ≤
        ((startedIds [.start 7 "", .stop 7, .start 7 ""]).dedup.filter
          (fun k => decide (k ∉ stoppedIds [.start 7 "", .stop 7, .start 7 ""]))).length) ∧
    ¬ ((afterCalls sampleGlobalData (fun p => (p : Int))
          [.start 7 "", .stop 7, .start 7 ""])._scriptProcesses.length ≤
        (startedIds [.start 7 "", .stop 7, .start 7 ""]).dedup.length -
          (stoppedIds [.start 7 "", .stop 7, .start 7 ""]).dedup.length) := by
  decide

/-- C3 (amended): in every state reached from the constructed application by
a sequence of `startScriptedAssignment` / `stopScriptedAssignment(id)` calls,
calling `startScriptedAssignment` twice with the same id and any pools leaves
exactly one registry entry for that id and creates one `BackgroundProcess` and
one entry when the id was not registered, none when it was; the second call
changes nothing and restarts the process registered under the id; and the
size of `_scriptProcesses` is the number of distinct ids started and not
stopped since their last start. -/
theorem startScriptedAssignment_idempotent (g : GlobalData) (pid : ProcessPtr → Int)
    (calls : List RegistryCall) (scriptID : QUuid) (pool₁ pool₂ : String) :
    (startScriptedAssignment g pid
        (startScriptedAssignment g pid (afterCalls g pid calls) scriptID pool₁).1
        scriptID pool₂).1 =
      (startScriptedAssignment g pid (afterCalls g pid calls) scriptID pool₁).1 ∧
    (startScriptedAssignment g pid
        (startScriptedAssignment g pid (afterCalls g pid calls) scriptID pool₁).1
        scriptID pool₂).2.1 =
      [Effect.processRestart (hashValue
        (startScriptedAssignment g pid (afterCalls g pid calls) scriptID pool₁).1._scriptProcesses
        scriptID)] ∧
    hashValue
        (startScriptedAssignment g pid (afterCalls g pid calls) scriptID pool₁).1._scriptProcesses
        scriptID ≠ 0 ∧
    ((startScriptedAssignment g pid (afterCalls g pid calls) scriptID
        pool₁).1._scriptProcesses.filter (fun e => e.1 == scriptID)).length = 1 ∧
    (startScriptedAssignment g pid (afterCalls g pid calls) scriptID pool₁).1.heap.length =
      (afterCalls g pid calls).heap.length +
        (if scriptID ∈ (afterCalls g pid calls)._scriptProcesses.map Prod.fst then 0 else 1) ∧
    (startScriptedAssignment g pid (afterCalls g pid calls) scriptID
        pool₁).1._scriptProcesses.length =
      (afterCalls g pid calls)._scriptProcesses.length +
        (if scriptID ∈ (afterCalls g pid calls)._scriptProcesses.map Prod.fst then 0 else 1) ∧
    (afterCalls g pid calls)._scriptProcesses.length = (liveIds calls).length := by
  have hok := registryOk_afterCalls g pid calls
  have hok₁ := registryOk_start g pid _ scriptID pool₁ hok
  have hmem := start_mem_keys g pid _ scriptID pool₁ hok
  refine ⟨?_, ?_, hashValue_ne_zero_of_mem _ _ hok₁.2 hmem,
    entries_of_key_length _ _ hok₁.1 hmem, ?_, ?_, registry_size_afterCalls g pid calls⟩
  · rw [start_registered g pid _ scriptID pool₂ hok₁ hmem]
  · rw [start_registered g pid _ scriptID pool₂ hok₁ hmem]
  · by_cases hk : scriptID ∈ (afterCalls g pid calls)._scriptProcesses.map Prod.fst
    · rw [start_registered g pid _ scriptID pool₁ hok hk]; simp [hk]
    · rw [start_unregistered g pid _ scriptID pool₁ hk]; simp [hk]
  · by_cases hk : scriptID ∈ (afterCalls g pid calls)._scriptProcesses.map Prod.fst
    · rw [start_registered g pid _ scriptID pool₁ hok hk]; simp [hk]
    · rw [start_unregistered g pid _ scriptID pool₁ hk]; simp [hk]

/-! ## Identity resolution -/

theorem uuidFromString_of_invalid (text : String) (h : isValidUuidText text = false) :
    uuidFromString text = 0 := by
  simp [uuidFromString, h]

/-- The branch of line 312: a body that is not empty and that `QUuid` does not
accept makes `handleDomainIDReply` emit `domainServerIDMissing` and nothing
else. -/
theorem handleDomainIDReply_of_rejected_text (s : AppDelegate) (reply : ReplyStatus)
    (body : String)
    (herr : reply.error = 0) (hstatus : reply.httpStatusCode = 200)
    (hbody : body ≠ "") (hinvalid : isValidUuidText body = false) :
    handleDomainIDReply s reply body =
      ({ s with _domainServerID := body }, [Effect.domainServerIDMissing]) := by
  have h0 := uuidFromString_of_invalid body hinvalid
  simp [handleDomainIDReply, herr, hstatus, hbody, h0]

/-- C7: for every directory reply without error and with HTTP status 200
whose JSON document has a `domain` object, `handleDomainGetReply` sets the
resolved name to the (string of the) `name` member when the object has one,
otherwise to the (string of the) `name` member of the first element of a
non-empty `owner_places` array, and `getServerAddress` then returns `hifi://`
followed by that name; a `domain` object holding `name` = `bobtown` yields
`hifi://bobtown`, and the address of the application as constructed is
`hifi://localhost`. -/
theorem directory_reply_sets_name (s : AppDelegate) (reply : ReplyStatus)
    (responseDocument : QJsonValue) (domainObject : List (String × QJsonValue))
    (herr : reply.error = 0) (hstatus : reply.httpStatusCode = 200)
    (hdomain : jsonMember responseDocument.toObject "domain" = QJsonValue.object domainObject) :
    (∀ name : QJsonValue, domainObject.lookup "name" = some name →
      (handleDomainGetReply s reply responseDocument).1._domainServerName = name.toString ∧
      getServerAddress (handleDomainGetReply s reply responseDocument).1 =
        "hifi://" ++ name.toString) ∧
    (∀ (first : QJsonValue) (others : List QJsonValue),
      domainObject.lookup "name" = none →
      domainObject.lookup "owner_places" = some (QJsonValue.array (first :: others)) →
      (handleDomainGetReply s reply responseDocument).1._domainServerName =
        (jsonMember first.toObject "name").toString ∧
      getServerAddress (handleDomainGetReply s reply responseDocument).1 =
        "hifi://" ++ (jsonMember first.toObject "name").toString) ∧
    getServerAddress (handleDomainGetReply s reply bobtownDocument).1 = "hifi://bobtown" ∧
    (∀ g : GlobalData, getServerAddress (AppDelegate.constructed g) = "hifi://localhost") := by
  have hobj : (jsonMember responseDocument.toObject "domain").toObject = domainObject := by
    rw [hdomain]; rfl
  have hrun : handleDomainGetReply s reply responseDocument =
      ((if jsonContains domainObject "name" then
          { s with _domainServerName := (jsonMember domainObject "name").toString }
        else if jsonContains domainObject "owner_places" then
          if (jsonMember domainObject "owner_places").toArray.length > 0 then
            { s with _domainServerName :=
                (jsonMember (jsonAt (jsonMember domainObject "owner_places").toArray
                  0).toObject "name").toString }
          else s
        else s), [Effect.domainAddressChanged]) := by
    unfold handleDomainGetReply
    simp only [herr, hstatus, and_self, if_true, hobj]
  refine ⟨?_, ?_, ?_, ?_⟩
  · intro name hname
    have hc : jsonContains domainObject "name" = true := by simp [jsonContains, hname]
    have hm : jsonMember domainObject "name" = name := by simp [jsonMember, hname]
    rw [hrun]
    simp [hc, hm, getServerAddress]
  · intro first others hname hplaces
    have hc : jsonContains domainObject "name" = false := by simp [jsonContains, hname]
    have hc' : jsonContains domainObject "owner_places" = true := by
      simp [jsonContains, hplaces]
    have hm : jsonMember domainObject "owner_places" = QJsonValue.array (first :: others) := by
      simp [jsonMember, hplaces]
    rw [hrun]
    simp [hc, hc', hm, getServerAddress, QJsonValue.toArray, jsonAt]
  · simp [handleDomainGetReply, herr, hstatus, bobtownDocument, QJsonValue.toObject,
      jsonContains, jsonMember, getServerAddress, QJsonValue.toString, List.lookup]
  · intro g
    rfl

theorem directory_reply_sets_name_witness :
    getServerAddress (handleDomainGetReply (AppDelegate.constructed sampleGlobalData) okReply
      bobtownDocument).1 = "hifi://" ++ (QJsonValue.string "bobtown").toString :=
  ((directory_reply_sets_name (AppDelegate.constructed sampleGlobalData) okReply
    bobtownDocument [("name", .string "bobtown")] (by decide) (by decide) rfl).1
      (.string "bobtown") rfl).2

/-! ## Release manifest -/

theorem isEndOf_cons (t : XmlToken) (xs : List XmlToken) (name : String) :
    isEndOf (t :: xs) name = t.isEnd name := by
  cases t <;> rfl

theorem isStartOf_cons (t : XmlToken) (xs : List XmlToken) (name : String) :
    isStartOf (t :: xs) name = t.isStart name := by
  cases t <;> rfl

theorem buildStep_other (t : XmlToken) (xs : List XmlToken) (info : VersionInformation)
    (h1 : t.isStart "version" = false) (h2 : t.isStart "url" = false)
    (h3 : t.isStart "timestamp" = false) (h4 : t.isStart "note" = false) :
    buildStep (t :: xs) info = (xs, info) := by
  simp [buildStep, isStartOf_cons, h1, h2, h3, h4, readNext]

theorem readBuild_other (fuel : Nat) (t : XmlToken) (xs : List XmlToken)
    (info : VersionInformation) (h0 : t.isEnd "build" = false)
    (h1 : t.isStart "version" = false) (h2 : t.isStart "url" = false)
    (h3 : t.isStart "timestamp" = false) (h4 : t.isStart "note" = false) :
    readBuild (fuel + 1) (t :: xs) info = readBuild fuel xs info := by
  simp [readBuild, isEndOf_cons, h0, buildStep_other t xs info h1 h2 h3 h4]

theorem readBuild_field_empty (fuel : Nat) (kind : FieldKind) (xs : List XmlToken)
    (info : VersionInformation) :
    readBuild (fuel + 1) (fieldTokens kind "" ++ xs) info =
      readBuild fuel xs (BuildItem.apply info (.field kind "")) := by
  cases kind <;>
    simp [readBuild, fieldTokens, FieldKind.tag, isEndOf, isStartOf, buildStep, readNext,
      xmlText, BuildItem.apply]
  by_cases h : info.releaseNotes = "" <;> simp [h]

theorem readBuild_field_text (fuel : Nat) (kind : FieldKind) (text : String)
    (xs : List XmlToken) (info : VersionInformation) (ht : text ≠ "") :
    readBuild (fuel + 2) (fieldTokens kind text ++ xs) info =
      readBuild fuel xs (BuildItem.apply info (.field kind text)) := by
  cases kind <;>
    simp [readBuild, fieldTokens, FieldKind.tag, isEndOf, isStartOf, buildStep, readNext,
      xmlText, BuildItem.apply, ht]
  by_cases h : info.releaseNotes = "" <;> simp [h]

/-- The tokens of the items of a build. -/
theorem readBuild_items (items : List BuildItem) (hwf : items.all BuildItem.wellFormed = true)
    (xs : List XmlToken) :
    ∀ (fuel : Nat) (info : VersionInformation),
      ((items.map BuildItem.tokens).flatten).length < fuel →
      readBuild fuel ((items.map BuildItem.tokens).flatten ++ XmlToken.endElement "build" :: xs)
          info =
        some (XmlToken.endElement "build" :: xs, items.foldl BuildItem.apply info) := by
  induction items with
  | nil =>
    intro fuel info hf
    cases fuel with
    | zero => simp at hf
    | succ f => simp [readBuild, isEndOf]
  | cons item rest ih =>
    intro fuel info hf
    simp only [List.all_cons, Bool.and_eq_true] at hwf
    simp only [List.map_cons, List.flatten_cons, List.length_append, List.append_assoc] at hf ⊢
    cases item with
    | other t =>
      simp only [BuildItem.tokens, List.length_singleton, List.singleton_append] at hf ⊢
      have hw := hwf.1
      simp only [BuildItem.wellFormed, Bool.and_eq_true, Bool.not_eq_true'] at hw
      obtain ⟨⟨⟨⟨⟨⟨h0, _⟩, _⟩, h1⟩, h2⟩, h3⟩, h4⟩ := hw
      obtain ⟨f, rfl⟩ : ∃ f, fuel = f + 1 := ⟨fuel - 1, by omega⟩
      rw [readBuild_other f t _ info h0 h1 h2 h3 h4]
      exact ih hwf.2 f info (by omega)
    | field kind text =>
      simp only [BuildItem.tokens] at hf ⊢
      by_cases ht : text = ""
      · subst ht
        have hl : (fieldTokens kind "").length = 2 := by simp [fieldTokens]
        obtain ⟨f, rfl⟩ : ∃ f, fuel = f + 1 := ⟨fuel - 1, by omega⟩
        rw [readBuild_field_empty]
        exact ih hwf.2 f _ (by omega)
      · have hl : (fieldTokens kind text).length = 3 := by simp [fieldTokens, ht]
        obtain ⟨f, rfl⟩ : ∃ f, fuel = f + 2 := ⟨fuel - 2, by omega⟩
        rw [readBuild_field_text f kind text _ info ht]
        exact ih hwf.2 f _ (by omega)

/-- The loop over a well-formed build ends on its end tag with the
information the build describes. -/
theorem readBuild_build (b : Build) (hwf : b.wellFormed = true) (xs : List XmlToken)
    (fuel : Nat) (hf : b.tokens.length ≤ fuel) :
    readBuild fuel (b.tokens ++ xs) {} = some (XmlToken.endElement "build" :: xs, b.info) := by
  unfold Build.tokens at hf ⊢
  simp only [List.length_append, List.length_singleton, List.singleton_append,
    List.cons_append, List.length_cons, List.append_assoc] at hf ⊢
  obtain ⟨f, rfl⟩ : ∃ f, fuel = f + 1 := ⟨fuel - 1, by omega⟩
  rw [readBuild_other f _ _ _ (by decide) (by decide) (by decide) (by decide) (by decide)]
  exact readBuild_items b.items hwf xs f {} (by omega)

theorem fieldTokens_no_end (kind : FieldKind) (text : String) (name : String)
    (hn : name = "platform" ∨ name = "project") :
    ∀ t ∈ fieldTokens kind text, t.isEnd name = false := by
  intro t ht
  unfold fieldTokens at ht
  rcases hn with rfl | rfl <;> cases kind <;> split at ht <;>
    simp only [List.mem_cons, List.mem_singleton, List.not_mem_nil, or_false] at ht <;>
    rcases ht with rfl | rfl | rfl <;> rfl

/-- No token of a well-formed build closes a platform group or a project. -/
theorem build_tokens_no_end (b : Build) (hwf : b.wellFormed = true) (name : String)
    (hn : name = "platform" ∨ name = "project") :
    ∀ t ∈ b.tokens, t.isEnd name = false := by
  intro t ht
  unfold Build.tokens at ht
  simp only [List.mem_append, List.mem_singleton, List.mem_flatten, List.mem_map] at ht
  rcases ht with (rfl | ⟨l, ⟨item, hitem, rfl⟩, htl⟩) | rfl
  · rcases hn with rfl | rfl <;> decide
  · have hw := List.all_eq_true.mp hwf item hitem
    cases item with
    | field kind text => exact fieldTokens_no_end kind text name hn t htl
    | other t' =>
      simp only [BuildItem.tokens, List.mem_singleton] at htl
      subst htl
      simp only [BuildItem.wellFormed, Bool.and_eq_true, Bool.not_eq_true'] at hw
      rcases hn with rfl | rfl
      · exact hw.1.1.1.1.1.2
      · exact hw.1.1.1.1.2
  · rcases hn with rfl | rfl <;> decide

/-- The loop over a platform group that is not for the running operating
system passes over every token up to the end tag. -/
theorem readPlatform_skip (os pn : String) (hne : pn ≠ os) (ts : List XmlToken)
    (hts : ∀ t ∈ ts, t.isEnd "platform" = false) (xs : List XmlToken) :
    ∀ (fuel : Nat) (lv : Int) (li : VersionInformation), ts.length < fuel →
      readPlatform os pn fuel (ts ++ XmlToken.endElement "platform" :: xs) lv li =
        some (XmlToken.endElement "platform" :: xs, lv, li) := by
  induction ts with
  | nil =>
    intro fuel lv li hf
    cases fuel with
    | zero => simp at hf
    | succ f => simp [readPlatform, isEndOf]
  | cons t rest ih =>
    intro fuel lv li hf
    simp only [List.length_cons] at hf
    obtain ⟨f, rfl⟩ : ∃ f, fuel = f + 1 := ⟨fuel - 1, by omega⟩
    have h0 := hts t (List.mem_cons_self _ _)
    simp only [List.cons_append, readPlatform, isEndOf_cons, h0, hne, if_false,
      Bool.false_eq_true, readNext, List.tail_cons]
    exact ih (fun t' ht' => hts t' (List.mem_cons_of_mem _ ht')) f lv li (by omega)

/-- The loop over the items of a platform group for the running operating
system. -/
theorem readPlatform_items (os : String) (items : List PlatformItem)
    (hwf : items.all PlatformItem.wellFormed = true) (xs : List XmlToken) :
    ∀ (fuel : Nat) (lv : Int) (li : VersionInformation),
      ((items.map PlatformItem.tokens).flatten).length < fuel →
      readPlatform os os fuel
          ((items.map PlatformItem.tokens).flatten ++ XmlToken.endElement "platform" :: xs)
          lv li =
        some (XmlToken.endElement "platform" :: xs,
          (items.filterMap (fun i => match i with | .build b => some b | .other _ => none)).foldl
            retainLatest (lv, li)) := by
  induction items with
  | nil =>
    intro fuel lv li hf
    cases fuel with
    | zero => simp at hf
    | succ f => simp [readPlatform, isEndOf]
  | cons item rest ih =>
    intro fuel lv li hf
    simp only [List.all_cons, Bool.and_eq_true] at hwf
    simp only [List.map_cons, List.flatten_cons, List.length_append, List.append_assoc] at hf ⊢
    obtain ⟨f, rfl⟩ : ∃ f, fuel = f + 1 := ⟨fuel - 1, by omega⟩
    cases item with
    | other t =>
      simp only [PlatformItem.tokens, List.length_singleton, List.singleton_append] at hf ⊢
      have hw := hwf.1
      simp only [PlatformItem.wellFormed, Bool.and_eq_true, Bool.not_eq_true'] at hw
      obtain ⟨⟨h0, _⟩, h1⟩ := hw
      simp only [readPlatform, isEndOf_cons, isStartOf_cons, h0, h1, if_true, if_false,
        Bool.false_eq_true, readNext, List.tail_cons, List.filterMap_cons]
      exact ih hwf.2 f lv li (by omega)
    | build b =>
      simp only [PlatformItem.tokens] at hf ⊢
      have hb : 2 ≤ b.tokens.length := by simp [Build.tokens]
      have hstart : isStartOf (b.tokens ++ ((rest.map PlatformItem.tokens).flatten ++
          XmlToken.endElement "platform" :: xs)) "build" = true := by
        simp [Build.tokens, isStartOf]
      have hend : isEndOf (b.tokens ++ ((rest.map PlatformItem.tokens).flatten ++
          XmlToken.endElement "platform" :: xs)) "platform" = false := by
        simp [Build.tokens, isEndOf]
      have hwb : b.wellFormed = true := hwf.1
      simp only [readPlatform, hend, hstart, if_true, if_false, Bool.false_eq_true,
        readBuild_build b hwb _ f (by omega), readNext, List.tail_cons, List.filterMap_cons,
        List.foldl_cons]
      by_cases hlt : lv < toInt b.info.version
      · simp only [hlt, if_true]
        rw [ih hwf.2 f _ _ (by omega)]
        simp [retainLatest, Build.version, hlt]
      · simp only [hlt, if_false]
        rw [ih hwf.2 f _ _ (by omega)]
        simp [retainLatest, Build.version, hlt]

theorem platform_items_no_end (items : List PlatformItem)
    (hwf : items.all PlatformItem.wellFormed = true) (name : String)
    (hn : name = "platform" ∨ name = "project") :
    ∀ t ∈ (items.map PlatformItem.tokens).flatten, t.isEnd name = false := by
  intro t ht
  simp only [List.mem_flatten, List.mem_map] at ht
  obtain ⟨l, ⟨item, hitem, rfl⟩, htl⟩ := ht
  have hw := List.all_eq_true.mp hwf item hitem
  cases item with
  | build b => exact build_tokens_no_end b hw name hn t htl
  | other t' =>
    simp only [PlatformItem.tokens, List.mem_singleton] at htl
    subst htl
    simp only [PlatformItem.wellFormed, Bool.and_eq_true, Bool.not_eq_true'] at hw
    rcases hn with rfl | rfl
    · exact hw.1.1
    · exact hw.1.2

/-- No token of a well-formed platform group closes a project. -/
theorem platform_tokens_no_end_project (p : Platform) (hwf : p.wellFormed = true) :
    ∀ t ∈ p.tokens, t.isEnd "project" = false := by
  intro t ht
  unfold Platform.tokens at ht
  simp only [List.mem_append, List.mem_singleton] at ht
  rcases ht with (rfl | ht) | rfl
  · rfl
  · exact platform_items_no_end p.items hwf "project" (Or.inr rfl) t ht
  · rfl

/-- The loop over a well-formed platform group ends on its end tag with the
latest build of the group, if the group is for the running operating system,
and with the initial values otherwise. -/
theorem readPlatform_platform (os : String) (p : Platform) (hwf : p.wellFormed = true)
    (xs : List XmlToken) (fuel : Nat) (hf : p.tokens.length ≤ fuel) :
    readPlatform os p.name fuel (p.tokens ++ xs) 0 {} =
      some (XmlToken.endElement "platform" :: xs, p.latest os) := by
  unfold Platform.tokens at hf ⊢
  simp only [List.length_append, List.length_singleton, List.singleton_append,
    List.cons_append, List.length_cons, List.append_assoc, List.nil_append,
    List.length_nil] at hf ⊢
  obtain ⟨f, rfl⟩ : ∃ f, fuel = f + 1 := ⟨fuel - 1, by omega⟩
  by_cases hos : p.name = os
  · have hstep : readPlatform os p.name (f + 1)
        (XmlToken.startElement "platform" p.attributes ::
          ((p.items.map PlatformItem.tokens).flatten ++ XmlToken.endElement "platform" :: xs))
        0 {} =
        readPlatform os p.name f
          ((p.items.map PlatformItem.tokens).flatten ++ XmlToken.endElement "platform" :: xs)
          0 {} := by
      simp [readPlatform, isEndOf, isStartOf, readNext]
    rw [hstep, hos, readPlatform_items os p.items hwf xs f 0 {} (by omega)]
    simp [Platform.latest, hos, latestOf, Platform.builds]
  · have hstep : readPlatform os p.name (f + 1)
        (XmlToken.startElement "platform" p.attributes ::
          ((p.items.map PlatformItem.tokens).flatten ++ XmlToken.endElement "platform" :: xs))
        0 {} =
        readPlatform os p.name f
          ((p.items.map PlatformItem.tokens).flatten ++ XmlToken.endElement "platform" :: xs)
          0 {} := by
      simp [readPlatform, isEndOf, hos, readNext]
    rw [hstep, readPlatform_skip os p.name hos _
      (platform_items_no_end p.items hwf "platform" (Or.inl rfl)) xs f 0 {} (by omega)]
    simp [Platform.latest, hos]

/-- The loop over a project without a name passes over every token up to the
end tag. -/
theorem readProject_skip (os : String) (ts : List XmlToken)
    (hts : ∀ t ∈ ts, t.isEnd "project" = false) (xs : List XmlToken) :
    ∀ (fuel : Nat) (pv : ProjectVersions), ts.length < fuel →
      readProject os "" fuel (ts ++ XmlToken.endElement "project" :: xs) pv =
        some (XmlToken.endElement "project" :: xs, pv) := by
  induction ts with
  | nil =>
    intro fuel pv hf
    cases fuel with
    | zero => simp at hf
    | succ f => simp [readProject, isEndOf]
  | cons t rest ih =>
    intro fuel pv hf
    simp only [List.length_cons] at hf
    obtain ⟨f, rfl⟩ : ∃ f, fuel = f + 1 := ⟨fuel - 1, by omega⟩
    have h0 := hts t (List.mem_cons_self _ _)
    simp only [List.cons_append, readProject, isEndOf_cons, h0, if_false,
      Bool.false_eq_true, readNext, List.tail_cons, ne_eq, not_true_eq_false]
    exact ih (fun t' ht' => hts t' (List.mem_cons_of_mem _ ht')) f pv (by omega)

/-- The loop over the items of a project with a name. -/
theorem readProject_items (os name : String) (hname : name ≠ "") (items : List ProjectItem)
    (hwf : items.all ProjectItem.wellFormed = true) (xs : List XmlToken) :
    ∀ (fuel : Nat) (pv : ProjectVersions),
      ((items.map ProjectItem.tokens).flatten).length < fuel →
      readProject os name fuel
          ((items.map ProjectItem.tokens).flatten ++ XmlToken.endElement "project" :: xs) pv =
        some (XmlToken.endElement "project" :: xs,
          (items.filterMap
            (fun i => match i with | .platform q => some q | .other _ => none)).foldl
            (retainPlatform os name) pv) := by
  induction items with
  | nil =>
    intro fuel pv hf
    cases fuel with
    | zero => simp at hf
    | succ f => simp [readProject, isEndOf]
  | cons item rest ih =>
    intro fuel pv hf
    simp only [List.all_cons, Bool.and_eq_true] at hwf
    simp only [List.map_cons, List.flatten_cons, List.length_append, List.append_assoc] at hf ⊢
    obtain ⟨f, rfl⟩ : ∃ f, fuel = f + 1 := ⟨fuel - 1, by omega⟩
    cases item with
    | other t =>
      simp only [ProjectItem.tokens, List.length_singleton, List.singleton_append] at hf ⊢
      have hw := hwf.1
      simp only [ProjectItem.wellFormed, Bool.and_eq_true, Bool.not_eq_true'] at hw
      obtain ⟨h0, h1⟩ := hw
      simp only [readProject, isEndOf_cons, isStartOf_cons, h0, h1, if_true, if_false,
        Bool.false_eq_true, readNext, List.tail_cons, List.filterMap_cons, ne_eq, hname,
        not_false_eq_true]
      exact ih hwf.2 f pv (by omega)
    | platform q =>
      simp only [ProjectItem.tokens] at hf ⊢
      have hq : 2 ≤ q.tokens.length := by simp [Platform.tokens]
      have hstart : isStartOf (q.tokens ++ ((rest.map ProjectItem.tokens).flatten ++
          XmlToken.endElement "project" :: xs)) "platform" = true := by
        simp [Platform.tokens, isStartOf]
      have hend : isEndOf (q.tokens ++ ((rest.map ProjectItem.tokens).flatten ++
          XmlToken.endElement "project" :: xs)) "project" = false := by
        simp [Platform.tokens, isEndOf]
      have hattr : nameAttribute (q.tokens ++ ((rest.map ProjectItem.tokens).flatten ++
          XmlToken.endElement "project" :: xs)) = q.name := by
        simp [Platform.tokens, nameAttribute, Platform.name]
      have hwq : q.wellFormed = true := hwf.1
      simp only [readProject, hend, hstart, hattr, if_true, if_false, Bool.false_eq_true,
        readPlatform_platform os q hwq _ f (by omega), readNext, List.tail_cons,
        List.filterMap_cons, List.foldl_cons, ne_eq, hname, not_false_eq_true]
      by_cases hpos : (q.latest os).1 > 0
      · simp only [hpos, if_true]
        rw [ih hwf.2 f _ (by omega)]
        have : 0 < (q.latest os).1 := hpos
        simp [retainPlatform, this]
      · simp only [hpos, if_false]
        rw [ih hwf.2 f _ (by omega)]
        have : ¬ 0 < (q.latest os).1 := hpos
        simp [retainPlatform, this]

theorem project_items_no_end (items : List ProjectItem)
    (hwf : items.all ProjectItem.wellFormed = true) :
    ∀ t ∈ (items.map ProjectItem.tokens).flatten, t.isEnd "project" = false := by
  intro t ht
  simp only [List.mem_flatten, List.mem_map] at ht
  obtain ⟨l, ⟨item, hitem, rfl⟩, htl⟩ := ht
  have hw := List.all_eq_true.mp hwf item hitem
  cases item with
  | platform q => exact platform_tokens_no_end_project q hw t htl
  | other t' =>
    simp only [ProjectItem.tokens, List.mem_singleton] at htl
    subst htl
    simp only [ProjectItem.wellFormed, Bool.and_eq_true, Bool.not_eq_true'] at hw
    exact hw.1

/-- The loop over a well-formed project ends on its end tag, having retained
the latest build of each of its platform groups in turn. -/
theorem readProject_project (os : String) (p : Project) (hwf : p.wellFormed = true)
    (xs : List XmlToken) (fuel : Nat) (pv : ProjectVersions) (hf : p.tokens.length ≤ fuel) :
    readProject os p.name fuel (p.tokens ++ xs) pv =
      some (XmlToken.endElement "project" :: xs, p.retain os pv) := by
  unfold Project.tokens at hf ⊢
  simp only [List.length_append, List.length_singleton, List.singleton_append,
    List.cons_append, List.length_cons, List.append_assoc, List.nil_append,
    List.length_nil] at hf ⊢
  obtain ⟨f, rfl⟩ : ∃ f, fuel = f + 1 := ⟨fuel - 1, by omega⟩
  have hstep : readProject os p.name (f + 1)
      (XmlToken.startElement "project" p.attributes ::
        ((p.items.map ProjectItem.tokens).flatten ++ XmlToken.endElement "project" :: xs))
      pv =
      readProject os p.name f
        ((p.items.map ProjectItem.tokens).flatten ++ XmlToken.endElement "project" :: xs)
        pv := by
    simp [readProject, isEndOf, isStartOf, readNext]
  rw [hstep]
  by_cases hname : p.name = ""
  · rw [hname, readProject_skip os _ (project_items_no_end p.items hwf) xs f pv (by omega)]
    simp [Project.retain, hname]
  · rw [readProject_items os p.name hname p.items hwf xs f pv (by omega)]
    simp [Project.retain, hname, Project.platforms]

/-- The loop over the items of a document. -/
theorem readDocument_items (os : String) (items : List DocItem)
    (hwf : items.all DocItem.wellFormed = true) :
    ∀ (fuel : Nat) (pv : ProjectVersions),
      ((items.map DocItem.tokens).flatten).length < fuel →
      readDocument os fuel ((items.map DocItem.tokens).flatten ++ [XmlToken.endDocument]) pv =
        some ((items.filterMap
          (fun i => match i with | .project p => some p | .other _ => none)).foldl
          (Project.retain os) pv) := by
  induction items with
  | nil =>
    intro fuel pv hf
    cases fuel with
    | zero => simp at hf
    | succ f => simp [readDocument, atEnd]
  | cons item rest ih =>
    intro fuel pv hf
    simp only [List.all_cons, Bool.and_eq_true] at hwf
    simp only [List.map_cons, List.flatten_cons, List.length_append, List.append_assoc] at hf ⊢
    obtain ⟨f, rfl⟩ : ∃ f, fuel = f + 1 := ⟨fuel - 1, by omega⟩
    cases item with
    | other t =>
      simp only [DocItem.tokens, List.length_singleton, List.singleton_append] at hf ⊢
      have hw := hwf.1
      simp only [DocItem.wellFormed, Bool.and_eq_true, Bool.not_eq_true', bne_iff_ne] at hw
      obtain ⟨h0, h1⟩ := hw
      have hnotEnd : atEnd (t :: ((rest.map DocItem.tokens).flatten ++
          [XmlToken.endDocument])) = false := by
        cases t <;> first | rfl | exact absurd rfl h1
      simp only [readDocument, hnotEnd, hasError, List.isEmpty_cons, Bool.not_false,
        Bool.and_self, if_true, isStartOf_cons, h0, Bool.false_eq_true, if_false, readNext,
        List.tail_cons, List.filterMap_cons]
      exact ih hwf.2 f pv (by omega)
    | project p =>
      simp only [DocItem.tokens] at hf ⊢
      have hp : 2 ≤ p.tokens.length := by simp [Project.tokens]
      have hstart : isStartOf (p.tokens ++ ((rest.map DocItem.tokens).flatten ++
          [XmlToken.endDocument])) "project" = true := by
        simp [Project.tokens, isStartOf]
      have hnotEnd : atEnd (p.tokens ++ ((rest.map DocItem.tokens).flatten ++
          [XmlToken.endDocument])) = false := by
        simp [Project.tokens, atEnd]
      have herr : hasError (p.tokens ++ ((rest.map DocItem.tokens).flatten ++
          [XmlToken.endDocument])) = false := by
        simp [Project.tokens, hasError]
      have hattr : nameAttribute (p.tokens ++ ((rest.map DocItem.tokens).flatten ++
          [XmlToken.endDocument])) = p.name := by
        simp [Project.tokens, nameAttribute, Project.name]
      have hwp : p.wellFormed = true := hwf.1
      simp only [readDocument, hnotEnd, herr, hstart, hattr, Bool.not_false, Bool.and_self,
        if_true, readProject_project os p hwp _ f pv (by omega), readNext, List.tail_cons,
        List.filterMap_cons, List.foldl_cons]
      exact ih hwf.2 f _ (by omega)

/-- On the token stream of a well-formed manifest the loops of
`parseVersionXml` end, with fuel above the number of tokens, and leave in the
hash what the tree of the manifest says. -/
theorem parseProjectVersions_manifest (os : String) (m : Manifest)
    (hwf : m.wellFormed = true) (fuel : Nat) (hf : m.tokens.length < fuel) :
    parseProjectVersions os fuel m.tokens = some (m.retained os) := by
  unfold parseProjectVersions
  unfold Manifest.tokens at hf ⊢
  simp only [List.length_append, List.length_singleton] at hf
  obtain ⟨f, rfl⟩ : ∃ f, fuel = f + 1 := ⟨fuel - 1, by omega⟩
  have hstep : readDocument os (f + 1)
      (XmlToken.noToken :: ((m.map DocItem.tokens).flatten ++ [XmlToken.endDocument])) [] =
      readDocument os f ((m.map DocItem.tokens).flatten ++ [XmlToken.endDocument]) [] := by
    simp [readDocument, atEnd, hasError, isStartOf, readNext]
  rw [hstep, readDocument_items os m hwf f [] (by omega)]
  rfl

/-! ### What the hash holds -/

/-- The loop over the builds of a group keeps the first build of greatest
version, if that version exceeds the initial one. -/
theorem foldl_retainLatest (g : List Build) :
    ∀ (lv : Int) (li : VersionInformation),
      ((∀ b ∈ g, b.version ≤ lv) ∧ g.foldl retainLatest (lv, li) = (lv, li)) ∨
      (∃ pre b post, g = pre ++ b :: post ∧
        g.foldl retainLatest (lv, li) = (b.version, b.info) ∧ lv < b.version ∧
        (∀ x ∈ pre, x.version < b.version) ∧ (∀ x ∈ post, x.version ≤ b.version)) := by
  induction g with
  | nil => intro lv li; exact Or.inl ⟨by simp, rfl⟩
  | cons a rest ih =>
    intro lv li
    simp only [List.foldl_cons]
    by_cases hlt : lv < a.version
    · have hstep : retainLatest (lv, li) a = (a.version, a.info) := by
        simp [retainLatest, hlt]
      rw [hstep]
      rcases ih a.version a.info with ⟨hall, hres⟩ | ⟨pre, b, post, hg, hres, hb, hpre, hpost⟩
      · exact Or.inr ⟨[], a, rest, rfl, hres, hlt, by simp, hall⟩
      · refine Or.inr ⟨a :: pre, b, post, by simp [hg], hres, by omega, ?_, hpost⟩
        intro x hx
        simp only [List.mem_cons] at hx
        rcases hx with rfl | hx
        · exact hb
        · exact hpre x hx
    · have hstep : retainLatest (lv, li) a = (lv, li) := by
        simp [retainLatest, hlt]
      rw [hstep]
      rcases ih lv li with ⟨hall, hres⟩ | ⟨pre, b, post, hg, hres, hb, hpre, hpost⟩
      · refine Or.inl ⟨?_, hres⟩
        intro x hx
        simp only [List.mem_cons] at hx
        rcases hx with rfl | hx
        · omega
        · exact hall x hx
      · refine Or.inr ⟨a :: pre, b, post, by simp [hg], hres, hb, ?_, hpost⟩
        intro x hx
        simp only [List.mem_cons] at hx
        rcases hx with rfl | hx
        · omega
        · exact hpre x hx

theorem chooseGroup_of_nonpositive (entry : Option VersionInformation) (g : List Build)
    (h : ∀ b ∈ g, b.version ≤ 0) : chooseGroup entry g = entry := by
  unfold chooseGroup latestOf
  rcases foldl_retainLatest g 0 {} with ⟨_, hres⟩ | ⟨pre, b, post, hg, _, hb, _, _⟩
  · simp [hres]
  · have := h b (by simp [hg])
    omega

theorem chooseGroup_of_positive (entry : Option VersionInformation) (g : List Build)
    (h : ∃ b ∈ g, 0 < b.version) :
    ∃ pre b post, g = pre ++ b :: post ∧ chooseGroup entry g = some b.info ∧ 0 < b.version ∧
      (∀ x ∈ pre, x.version < b.version) ∧ (∀ x ∈ post, x.version ≤ b.version) := by
  unfold chooseGroup latestOf
  rcases foldl_retainLatest g 0 {} with ⟨hall, _⟩ | ⟨pre, b, post, hg, hres, hb, hpre, hpost⟩
  · obtain ⟨b, hb, hpos⟩ := h
    have := hall b hb
    omega
  · exact ⟨pre, b, post, hg, by simp [hres, hb], hb, hpre, hpost⟩

theorem foldl_chooseGroup_of_nonpositive (gs : List (List Build))
    (h : ∀ g ∈ gs, ∀ b ∈ g, b.version ≤ 0) (entry : Option VersionInformation) :
    gs.foldl chooseGroup entry = entry := by
  induction gs generalizing entry with
  | nil => rfl
  | cons g rest ih =>
    simp only [List.foldl_cons]
    rw [chooseGroup_of_nonpositive entry g (h g (List.mem_cons_self _ _))]
    exact ih (fun g' hg' => h g' (List.mem_cons_of_mem _ hg')) entry

theorem lookup_filter_ne (pv : ProjectVersions) (key k : String) (h : key ≠ k) :
    (pv.filter (fun e => e.1 != k)).lookup key = pv.lookup key := by
  induction pv with
  | nil => rfl
  | cons e rest ih =>
    obtain ⟨k', v⟩ := e
    by_cases hk : k' = k
    · subst hk
      have : (key == k') = false := by simpa using h
      simp [List.filter_cons, List.lookup, this, ih]
    · have hne : (k' != k) = true := by simpa using hk
      simp only [List.filter_cons, hne, if_true, List.lookup]
      split
      · rfl
      · exact ih

theorem lookup_setVersion_self (pv : ProjectVersions) (key : String) (v : VersionInformation) :
    (setVersion pv key v).lookup key = some v := by
  simp [setVersion, List.lookup]

theorem lookup_setVersion_ne (pv : ProjectVersions) (key k : String) (v : VersionInformation)
    (h : key ≠ k) : (setVersion pv k v).lookup key = pv.lookup key := by
  have : (key == k) = false := by simpa using h
  simp [setVersion, List.lookup, this, lookup_filter_ne pv key k h]

/-- The entry of a key after the loop over the platform groups of a project. -/
theorem lookup_foldl_retainPlatform (os name key : String) (qs : List Platform) :
    ∀ pv : ProjectVersions,
      (qs.foldl (retainPlatform os name) pv).lookup key =
        if key = name then
          ((qs.filter (fun q => q.name == os)).map Platform.builds).foldl chooseGroup
            (pv.lookup key)
        else pv.lookup key := by
  induction qs with
  | nil => intro pv; simp
  | cons q rest ih =>
    intro pv
    simp only [List.foldl_cons]
    rw [ih]
    by_cases hk : key = name
    · subst hk
      simp only [if_true]
      by_cases hos : q.name = os
      · have hf : (q.name == os) = true := by simpa using hos
        simp only [List.filter_cons, hf, if_true, List.map_cons, List.foldl_cons]
        congr 1
        unfold retainPlatform chooseGroup Platform.latest
        simp only [hos, if_true]
        split
        · exact lookup_setVersion_self _ _ _
        · rfl
      · have hf : (q.name == os) = false := by simpa using hos
        simp only [List.filter_cons, hf, Bool.false_eq_true, if_false]
        congr 1
        unfold retainPlatform Platform.latest
        simp [hos]
    · simp only [hk, if_false]
      unfold retainPlatform
      split
      · exact lookup_setVersion_ne _ _ _ _ hk
      · rfl

/-- The entry of a key after the loop over a list of projects. -/
theorem lookup_foldl_retain (os key : String) (ps : List Project) :
    ∀ pv : ProjectVersions,
      (ps.foldl (Project.retain os) pv).lookup key =
        (projectGroups ps os key).foldl chooseGroup (pv.lookup key) := by
  induction ps with
  | nil => intro pv; simp [projectGroups]
  | cons p rest ih =>
    intro pv
    simp only [List.foldl_cons]
    rw [ih]
    unfold projectGroups
    by_cases hkey : key = ""
    · subst hkey
      simp only [if_true, List.foldl_nil]
      unfold Project.retain
      split
      · rename_i hn
        rw [lookup_foldl_retainPlatform]
        simp [Ne.symm hn]
      · rfl
    · simp only [hkey, if_false]
      by_cases hp : p.name = key
      · have hf : (p.name == key) = true := by simpa using hp
        simp only [List.filter_cons, hf, if_true, List.map_cons, List.flatten_cons,
          List.foldl_append]
        congr 1
        unfold Project.retain
        have hn : p.name ≠ "" := by rw [hp]; exact hkey
        simp only [hn, ne_eq, not_false_eq_true, if_true]
        rw [lookup_foldl_retainPlatform]
        simp [hp, Project.groups]
      · have hf : (p.name == key) = false := by simpa using hp
        simp only [List.filter_cons, hf, Bool.false_eq_true, if_false]
        congr 1
        unfold Project.retain
        split
        · rw [lookup_foldl_retainPlatform]
          simp [Ne.symm hp]
        · rfl

/-- The entry of a project name in the hash after the loops, from the groups
of the manifest. -/
theorem lookup_retained (m : Manifest) (os name : String) :
    ((m.retained os).lookup name = none ∨ ¬ ∀ g ∈ m.groups os name, ∀ b ∈ g, b.version ≤ 0) ∧
    (∀ before g after, m.groups os name = before ++ g :: after →
      (∃ b ∈ g, 0 < b.version) → (∀ g' ∈ after, ∀ b ∈ g', b.version ≤ 0) →
      ∃ pre b post, g = pre ++ b :: post ∧ (m.retained os).lookup name = some b.info ∧
        0 < b.version ∧ (∀ x ∈ pre, x.version < b.version) ∧
        (∀ x ∈ post, x.version ≤ b.version)) := by
  have hl : (m.retained os).lookup name = (m.groups os name).foldl chooseGroup none := by
    unfold Manifest.retained Manifest.groups
    rw [lookup_foldl_retain]
    rfl
  refine ⟨?_, ?_⟩
  · by_cases hall : ∀ g ∈ m.groups os name, ∀ b ∈ g, b.version ≤ 0
    · left
      rw [hl, foldl_chooseGroup_of_nonpositive _ hall]
    · exact Or.inr hall
  · intro before g after hgs hpos hafter
    rw [hl, hgs, List.foldl_append, List.foldl_cons,
      foldl_chooseGroup_of_nonpositive after hafter]
    exact chooseGroup_of_positive _ g hpos

/-- C4 fails as stated: in a well-formed manifest whose only group for the
running operating system holds one build, of version 0, that build has the
greatest integer version of its group and yet nothing is retained. -/
theorem zero_version_build_is_not_retained :
    zeroVersionManifest.wellFormed = true ∧
    zeroVersionManifest.groups "ubuntu" "stackmanager" =
      [[{ items := [.field .version "0"] }]] ∧
    parseProjectVersions "ubuntu" 100 zeroVersionManifest.tokens = some [] := by
  decide

/-- C4 (amended): on the token stream of every well-formed manifest the
loops of `parseVersionXml` end (with fuel above the number of tokens), and for
every project name the hash then holds: no entry when no group of that name
for the running operating system has a build of positive integer version;
otherwise, from the last such group that has one, the build whose integer
version is the greatest of the group, the first in document order when
several share it. With builds 10 and 12 the entry is version 12. -/
theorem retains_greatest_positive_version (os : String) (m : Manifest) (fuel : Nat)
    (hwf : m.wellFormed = true) (hf : m.tokens.length < fuel) :
    ∃ pv : ProjectVersions, parseProjectVersions os fuel m.tokens = some pv ∧
      (∀ name : String,
        ((∀ g ∈ m.groups os name, ∀ b ∈ g, b.version ≤ 0) → pv.lookup name = none) ∧
        (∀ before g after, m.groups os name = before ++ g :: after →
          (∃ b ∈ g, 0 < b.version) → (∀ g' ∈ after, ∀ b ∈ g', b.version ≤ 0) →
          ∃ pre b post, g = pre ++ b :: post ∧ pv.lookup name = some b.info ∧
            0 < b.version ∧ (∀ x ∈ pre, x.version < b.version) ∧
            (∀ x ∈ post, x.version ≤ b.version))) ∧
      ((parseProjectVersions "ubuntu" 100 sampleManifest.tokens).map
        (fun pv => (pv.lookup "stackmanager").map (fun v => v.version))) = some (some "12") := by
  refine ⟨m.retained os, parseProjectVersions_manifest os m hwf fuel hf, ?_, by decide⟩
  intro name
  obtain ⟨h1, h2⟩ := lookup_retained m os name
  refine ⟨?_, h2⟩
  intro hall
  rcases h1 with h | h
  · exact h
  · exact absurd hall h

theorem retains_greatest_positive_version_witness :
    ∃ pv : ProjectVersions, parseProjectVersions "ubuntu" 100 sampleManifest.tokens = some pv ∧
      ∃ pre b post,
        [ ({ items := [.field .version "10", .field .url "http://s3/sm-10.deb",
                       .field .note "first"] } : Build),
          { items := [.other (.characters " "), .field .url "http://s3/sm-12.deb",
                      .field .version "12", .field .timestamp "2014-08-01",
                      .field .note "second", .field .note "third"] } ] = pre ++ b :: post ∧
        pv.lookup "stackmanager" = some b.info ∧ 0 < b.version ∧
        (∀ x ∈ pre, x.version < b.version) ∧ (∀ x ∈ post, x.version ≤ b.version) := by
  obtain ⟨pv, hpv, hall, _⟩ :=
    retains_greatest_positive_version "ubuntu" sampleManifest 100 (by decide) (by decide)
  exact ⟨pv, hpv, (hall "stackmanager").2 [] _ [] (by decide) (by decide) (by simp)⟩

theorem updateNotification_dev (pv : ProjectVersions) : updateNotification "dev" pv = [] := by
  unfold updateNotification
  split <;> simp

theorem mem_updateNotification (app : String) (pv : ProjectVersions) :
    (∃ text, Effect.setUpdateNotification text ∈ updateNotification app pv) ↔
      ∃ v, pv.lookup "stackmanager" = some v ∧ app ≠ v.version ∧ app ≠ "dev" := by
  unfold updateNotification
  cases hl : pv.lookup "stackmanager" with
  | none => simp
  | some v =>
    simp only [Option.some.injEq, exists_eq_left']
    by_cases h : app ≠ v.version ∧ app ≠ "dev"
    · simp [h]
    · simp only [h, if_false, List.not_mem_nil, exists_false]

/-- C5: on the token stream of every well-formed manifest `parseVersionXml`
ends (with fuel above the number of tokens), and it sets an update
notification if and only if the hash left by the loops has an entry for
`stackmanager` whose version differs from the running application version and
the running version is not `dev`; the notification then names the version of
that entry (running `11` with builds 10 and 12 notifies version 12).
For the running version `dev` no run on any token stream notifies. -/
theorem update_notification_iff_newer_stackmanager (os applicationVersion : String)
    (m : Manifest) (fuel : Nat) (hwf : m.wellFormed = true) (hf : m.tokens.length < fuel) :
    ∃ (pv : ProjectVersions) (fx : List Effect),
      parseProjectVersions os fuel m.tokens = some pv ∧
      parseVersionXml os applicationVersion fuel m.tokens = some fx ∧
      ((∃ text, Effect.setUpdateNotification text ∈ fx) ↔
        ∃ v, pv.lookup "stackmanager" = some v ∧ applicationVersion ≠ v.version ∧
          applicationVersion ≠ "dev") ∧
      (∀ v, pv.lookup "stackmanager" = some v → applicationVersion ≠ v.version →
        applicationVersion ≠ "dev" →
        fx = [Effect.setUpdateNotification
                ("There is an update available. Please download and install version " ++
                  v.version ++ "."),
              Effect.windowUpdate]) ∧
      (∀ (fuel' : Nat) (document : List XmlToken) (fx' : List Effect),
        parseVersionXml os "dev" fuel' document = some fx' → fx' = []) ∧
      parseVersionXml "ubuntu" "11" 100 sampleManifest.tokens =
        some [Effect.setUpdateNotification
                "There is an update available. Please download and install version 12.",
              Effect.windowUpdate] := by
  have hpv := parseProjectVersions_manifest os m hwf fuel hf
  refine ⟨m.retained os, updateNotification applicationVersion (m.retained os), hpv, ?_,
    mem_updateNotification _ _, ?_, ?_, by decide⟩
  · simp [parseVersionXml, hpv]
  · intro v hv h1 h2
    simp [updateNotification, hv, h1, h2]
  · intro fuel' document fx' h
    unfold parseVersionXml at h
    split at h
    · exact absurd h (by simp)
    · simp only [Option.some.injEq] at h
      rw [← h, updateNotification_dev]

theorem update_notification_iff_newer_stackmanager_witness :
    ∃ (pv : ProjectVersions) (fx : List Effect),
      parseProjectVersions "ubuntu" 100 sampleManifest.tokens = some pv ∧
      parseVersionXml "ubuntu" "11" 100 sampleManifest.tokens = some fx ∧
      ((∃ text, Effect.setUpdateNotification text ∈ fx) ↔
        ∃ v, pv.lookup "stackmanager" = some v ∧ "11" ≠ v.version ∧ "11" ≠ "dev") := by
  obtain ⟨pv, fx, h1, h2, h3, _⟩ :=
    update_notification_iff_newer_stackmanager "ubuntu" "11" sampleManifest 100
      (by decide) (by decide)
  exact ⟨pv, fx, h1, h2, h3⟩

/-! ## Identity resolution: replies that fail or lack fields -/

theorem handleDomainGetReply_of_failure (s : AppDelegate) (reply : ReplyStatus)
    (responseDocument : QJsonValue) (h : reply.error ≠ 0 ∨ reply.httpStatusCode ≠ 200) :
    handleDomainGetReply s reply responseDocument = (s, []) := by
  unfold handleDomainGetReply
  have : ¬ (reply.error = 0 ∧ reply.httpStatusCode = 200) := by
    rcases h with h | h
    · exact fun hc => h hc.1
    · exact fun hc => h hc.2
  simp only [this, if_false]

/-- The name after a reply without error and with status 200, from the
members of the `domain` object. -/
theorem handleDomainGetReply_name (s : AppDelegate) (reply : ReplyStatus)
    (responseDocument : QJsonValue) (herr : reply.error = 0)
    (hstatus : reply.httpStatusCode = 200) :
    (handleDomainGetReply s reply responseDocument).1._domainServerName =
      match ((jsonMember responseDocument.toObject "domain").toObject).lookup "name" with
      | some name => name.toString
      | none =>
        match ((jsonMember responseDocument.toObject "domain").toObject).lookup
            "owner_places" with
        | some places =>
          match places.toArray with
          | first :: _ => (jsonMember first.toObject "name").toString
          | [] => s._domainServerName
        | none => s._domainServerName := by
  unfold handleDomainGetReply
  simp only [herr, hstatus, and_self, if_true]
  generalize (jsonMember responseDocument.toObject "domain").toObject = d
  cases hn : d.lookup "name" with
  | some name => simp [jsonContains, jsonMember, hn]
  | none =>
    cases hp : d.lookup "owner_places" with
    | none => simp [jsonContains, hn, hp]
    | some places =>
      cases ha : places.toArray with
      | nil => simp [jsonContains, jsonMember, hn, hp, ha]
      | cons first rest => simp [jsonContains, jsonMember, hn, hp, ha, jsonAt]

/-- C11 fails as stated: a reply without error and with status 200 whose
`domain` object has a `name` that is not a string (here `null`), or no `name`
and a first `owner_places` element without a `name`, replaces the held name
`localhost` by the empty string. -/
theorem incomplete_directory_reply_clears_name :
    (AppDelegate.constructed sampleGlobalData)._domainServerName = "localhost" ∧
    (handleDomainGetReply (AppDelegate.constructed sampleGlobalData) okReply
      nullNameDocument).1._domainServerName = "" ∧
    (handleDomainGetReply (AppDelegate.constructed sampleGlobalData) okReply
      namelessPlaceDocument).1._domainServerName = "" := by
  decide

/-- What Qt's lenient conversions do with the members C11 names beyond the
missing ones: a `name` member that is present but not a string, and, without a
`name` member, a first `owner_places` element without a string `name`, set
the name to the empty string. -/
theorem handleDomainGetReply_of_non_string_name (s : AppDelegate) (reply : ReplyStatus)
    (responseDocument : QJsonValue) (domainObject : List (String × QJsonValue))
    (herr : reply.error = 0) (hstatus : reply.httpStatusCode = 200)
    (hdomain : jsonMember responseDocument.toObject "domain" = QJsonValue.object domainObject) :
    (∀ name, domainObject.lookup "name" = some name → (∀ text, name ≠ QJsonValue.string text) →
      (handleDomainGetReply s reply responseDocument).1._domainServerName = "") ∧
    (∀ first others, domainObject.lookup "name" = none →
      domainObject.lookup "owner_places" = some (QJsonValue.array (first :: others)) →
      (∀ text, jsonMember first.toObject "name" ≠ QJsonValue.string text) →
      (handleDomainGetReply s reply responseDocument).1._domainServerName = "") := by
  have htoString : ∀ v : QJsonValue, (∀ text, v ≠ QJsonValue.string text) → v.toString = "" := by
    intro v hv
    cases v <;> first | rfl | exact absurd rfl (hv _)
  have hd : (jsonMember responseDocument.toObject "domain").toObject = domainObject := by
    rw [hdomain]; rfl
  refine ⟨?_, ?_⟩
  · intro name hname hnot
    rw [handleDomainGetReply_name s reply responseDocument herr hstatus]
    simp [hd, hname, htoString name hnot]
  · intro first others hname hplaces hnot
    rw [handleDomainGetReply_name s reply responseDocument herr hstatus]
    simp [hd, hname, hplaces, QJsonValue.toArray, htoString _ hnot]

/-- C11 (amended): `handleDomainGetReply` leaves the previously held name
(initially the placeholder `localhost`) unchanged for every directory reply
that fails (network error or status other than 200), and for every
successful reply whose JSON has no `domain` object, or whose `domain` object
has no `name` member and either no `owner_places` member or an `owner_places`
that is an empty list (or no list). -/
theorem failed_or_empty_directory_reply_keeps_name (s : AppDelegate) (reply : ReplyStatus)
    (responseDocument : QJsonValue) :
    ((reply.error ≠ 0 ∨ reply.httpStatusCode ≠ 200) →
      handleDomainGetReply s reply responseDocument = (s, [])) ∧
    (reply.error = 0 → reply.httpStatusCode = 200 →
      (∀ o, jsonMember responseDocument.toObject "domain" ≠ QJsonValue.object o) →
      (handleDomainGetReply s reply responseDocument).1._domainServerName =
        s._domainServerName) ∧
    (∀ domainObject, reply.error = 0 → reply.httpStatusCode = 200 →
      jsonMember responseDocument.toObject "domain" = QJsonValue.object domainObject →
      domainObject.lookup "name" = none →
      (domainObject.lookup "owner_places" = none ∨
        ∃ places, domainObject.lookup "owner_places" = some places ∧ places.toArray = []) →
      (handleDomainGetReply s reply responseDocument).1._domainServerName =
        s._domainServerName) ∧
    AppDelegate.initial._domainServerName = "localhost" ∧
    (handleDomainGetReply (AppDelegate.constructed sampleGlobalData)
        { error := 0, httpStatusCode := 404 } bobtownDocument).1._domainServerName =
      "localhost" ∧
    (handleDomainGetReply (AppDelegate.constructed sampleGlobalData) okReply
        (QJsonValue.object [("domain", .object [("owner_places", .array [])])])
      ).1._domainServerName = "localhost" := by
  refine ⟨handleDomainGetReply_of_failure s reply responseDocument, ?_, ?_, rfl,
    by decide, by decide⟩
  · intro herr hstatus hno
    rw [handleDomainGetReply_name s reply responseDocument herr hstatus]
    have hd : (jsonMember responseDocument.toObject "domain").toObject = [] := by
      cases h : jsonMember responseDocument.toObject "domain" <;>
        first | rfl | exact absurd h (hno _)
    simp [hd]
  · intro d herr hstatus hdom hname hplaces
    rw [handleDomainGetReply_name s reply responseDocument herr hstatus]
    have hd : (jsonMember responseDocument.toObject "domain").toObject = d := by
      rw [hdom]; rfl
    rcases hplaces with hp | ⟨places, hp, ha⟩
    · simp [hd, hname, hp]
    · simp [hd, hname, hp, ha]

/-- C12 fails as stated: on a reply without error and with status 200 whose
body is empty, `handleDomainIDReply` emits nothing, and in particular not
`domainServerIDMissing`. -/
theorem empty_domain_id_emits_nothing :
    okReply.error = 0 ∧ okReply.httpStatusCode = 200 ∧
    (handleDomainIDReply (AppDelegate.constructed sampleGlobalData) okReply "").2 = [] ∧
    Effect.domainServerIDMissing ∉
      (handleDomainIDReply (AppDelegate.constructed sampleGlobalData) okReply "").2 := by
  decide

/-- C12 (amended): when the coordinator answers the `/id` request without
error and with status 200 and an empty body, `handleDomainIDReply` halts the
chain: it stores the empty identifier, issues no directory lookup, emits no
signal (`domainServerIDMissing` is emitted only for a body that is not empty
and that `QUuid` reads as null), and leaves the name unchanged. -/
theorem empty_domain_id_halts_silently (s : AppDelegate) (reply : ReplyStatus)
    (herr : reply.error = 0) (hstatus : reply.httpStatusCode = 200) :
    handleDomainIDReply s reply "" = ({ s with _domainServerID := "" }, []) ∧
    (∀ url, Effect.networkGet url ∉ (handleDomainIDReply s reply "").2) ∧
    Effect.domainServerIDMissing ∉ (handleDomainIDReply s reply "").2 ∧
    (handleDomainIDReply s reply "").1._domainServerName = s._domainServerName ∧
    (∀ body, Effect.domainServerIDMissing ∈ (handleDomainIDReply s reply body).2 ↔
      (body ≠ "" ∧ uuidFromString body = 0)) := by
  have h0 : handleDomainIDReply s reply "" = ({ s with _domainServerID := "" }, []) := by
    simp [handleDomainIDReply, herr, hstatus]
  refine ⟨h0, ?_, ?_, ?_, ?_⟩
  · intro url; rw [h0]; simp
  · rw [h0]; simp
  · rw [h0]
  · intro body
    unfold handleDomainIDReply
    simp only [herr, hstatus, and_self, if_true]
    by_cases hb : body = ""
    · simp [hb]
    · by_cases hu : uuidFromString body = 0
      · simp [hb, hu]
      · simp [hb, hu]

theorem empty_domain_id_halts_silently_witness :
    handleDomainIDReply (AppDelegate.constructed sampleGlobalData) okReply "" =
      ({ AppDelegate.constructed sampleGlobalData with _domainServerID := "" }, []) :=
  (empty_domain_id_halts_silently (AppDelegate.constructed sampleGlobalData) okReply
    (by decide) (by decide)).1

/-! ## Starting and stopping the stack -/

theorem foldl_toggleScriptProcess_stop (ps : List ProcessPtr) (s : AppDelegate)
    (fx : List Effect) :
    ps.foldl (toggleScriptProcess false) (s, fx) =
      (s, fx ++ (ps.map (fun p =>
        [Effect.processTerminate p,
         Effect.processWaitForFinished p (some WAIT_FOR_CHILD_MSECS),
         Effect.processKill p])).flatten) := by
  induction ps generalizing fx with
  | nil => simp
  | cons p rest ih =>
    simp only [List.foldl_cons, List.map_cons, List.flatten_cons]
    have : toggleScriptProcess false (s, fx) p = (s, fx ++ terminateWaitKill p) := by
      simp [toggleScriptProcess]
    rw [this, ih]
    simp [terminateWaitKill]

theorem destroyScriptProcesses_eq (h : List (QUuid × ProcessPtr)) :
    destroyScriptProcesses h =
      (h.map (fun e =>
        [Effect.processTerminate e.2,
         Effect.processWaitForFinished e.2 none,
         Effect.processDeleteLater e.2])).flatten := by
  induction h with
  | nil => rfl
  | cons e rest ih =>
    obtain ⟨k, p⟩ := e
    simp [destroyScriptProcesses, ih]

/-- C13, the code at the places where a child process is torn down: the
four stopping functions (coordinator, monitor, all workers, one worker) call
`terminate()`, `waitForFinished(WAIT_FOR_CHILD_MSECS)` with the constant 5000
and `kill()`, in this order, on each process; the destructor calls
`terminate()`, `waitForFinished()` without the constant and `deleteLater()`,
and never `kill()`. -/
theorem destructor_waits_without_constant_and_never_kills (s : AppDelegate) :
    WAIT_FOR_CHILD_MSECS = 5000 ∧
    (toggleDomainServer s false).2 =
      [Effect.processTerminate s._domainServerProcess,
       Effect.processWaitForFinished s._domainServerProcess (some WAIT_FOR_CHILD_MSECS),
       Effect.processKill s._domainServerProcess] ∧
    (toggleAssignmentClientMonitor s false).2 =
      [Effect.processTerminate s._acMonitorProcess,
       Effect.processWaitForFinished s._acMonitorProcess (some WAIT_FOR_CHILD_MSECS),
       Effect.processKill s._acMonitorProcess] ∧
    (toggleScriptedAssignmentClients s false).2 =
      (s._scriptProcesses.map (fun e =>
        [Effect.processTerminate e.2,
         Effect.processWaitForFinished e.2 (some WAIT_FOR_CHILD_MSECS),
         Effect.processKill e.2])).flatten ∧
    (∀ p, stopScriptedAssignmentProcess p =
      [Effect.removeLogTab p, Effect.processTerminate p,
       Effect.processWaitForFinished p (some WAIT_FOR_CHILD_MSECS), Effect.processKill p]) ∧
    (destructor s).2 =
      (s._scriptProcesses.map (fun e =>
        [Effect.processTerminate e.2,
         Effect.processWaitForFinished e.2 none,
         Effect.processDeleteLater e.2])).flatten ++
      [Effect.processTerminate s._domainServerProcess,
       Effect.processWaitForFinished s._domainServerProcess none,
       Effect.processTerminate s._acMonitorProcess,
       Effect.processWaitForFinished s._acMonitorProcess none,
       Effect.processDeleteLater s._domainServerProcess,
       Effect.processDeleteLater s._acMonitorProcess] ∧
    (∀ e ∈ (destructor s).2, e.isKill = false) ∧
    (∀ p, Effect.processWaitForFinished p (some WAIT_FOR_CHILD_MSECS) ∉ (destructor s).2) ∧
    (destructor sampleRunningStack).2 =
      [Effect.processTerminate 4, Effect.processWaitForFinished 4 none,
       Effect.processDeleteLater 4,
       Effect.processTerminate 3, Effect.processWaitForFinished 3 none,
       Effect.processDeleteLater 3,
       Effect.processTerminate 1, Effect.processWaitForFinished 1 none,
       Effect.processTerminate 2, Effect.processWaitForFinished 2 none,
       Effect.processDeleteLater 1, Effect.processDeleteLater 2] := by
  have hd : (destructor s).2 =
      (s._scriptProcesses.map (fun e =>
        [Effect.processTerminate e.2,
         Effect.processWaitForFinished e.2 none,
         Effect.processDeleteLater e.2])).flatten ++
      [Effect.processTerminate s._domainServerProcess,
       Effect.processWaitForFinished s._domainServerProcess none,
       Effect.processTerminate s._acMonitorProcess,
       Effect.processWaitForFinished s._acMonitorProcess none,
       Effect.processDeleteLater s._domainServerProcess,
       Effect.processDeleteLater s._acMonitorProcess] := by
    simp [destructor, destroyScriptProcesses_eq]
  refine ⟨rfl, by simp [toggleDomainServer, terminateWaitKill],
    by simp [toggleAssignmentClientMonitor, terminateWaitKill], ?_, fun p => rfl, hd, ?_, ?_,
    by decide⟩
  · unfold toggleScriptedAssignmentClients
    rw [foldl_toggleScriptProcess_stop]
    simp [List.map_map, Function.comp_def]
  · intro e he
    rw [hd] at he
    simp only [List.mem_append, List.mem_flatten, List.mem_map, List.mem_cons,
      List.mem_singleton, List.not_mem_nil, or_false] at he
    rcases he with ⟨l, ⟨x, _, rfl⟩, hl⟩ | he
    · simp only [List.mem_cons, List.mem_singleton, List.not_mem_nil, or_false] at hl
      rcases hl with rfl | rfl | rfl <;> rfl
    · rcases he with rfl | rfl | rfl | rfl | rfl | rfl <;> rfl
  · intro p hp
    rw [hd] at hp
    simp only [List.mem_append, List.mem_flatten, List.mem_map, List.mem_cons,
      List.mem_singleton, List.not_mem_nil, or_false] at hp
    rcases hp with ⟨l, ⟨x, _, rfl⟩, hl⟩ | hp
    · simp at hl
    · simp at hp

theorem list_set_self {α : Type} (l : List α) (i : Nat) (b : α) (h : l[i]? = some b) :
    l.set i b = l := by
  apply List.ext_getElem?
  intro n
  by_cases hn : i = n
  · subst hn
    rw [List.getElem?_set_self', h]
    simp
  · rw [List.getElem?_set_ne hn]

/-- Starting a process with the argument list it was last started with
leaves the state as it is. -/
theorem backgroundProcessStart_last (s : AppDelegate) (p : ProcessPtr) :
    backgroundProcessStart s p (lastArgListOf s p) =
      (s, [Effect.processStart p (lastArgListOf s p)]) := by
  unfold backgroundProcessStart lastArgListOf
  by_cases hp : p = 0
  · simp [hp]
  · simp only [hp, if_false, List.get?_eq_getElem?]
    cases hb : s.heap[p - 1]? with
    | none => simp
    | some b =>
      simp only [Option.map_some', Option.getD_some]
      rw [list_set_self s.heap (p - 1) b hb]

/-- Starting a process leaves the recorded argument lists of the other
processes as they are. -/
theorem lastArgListOf_backgroundProcessStart_ne (s : AppDelegate) (p q : Nat)
    (args : List String) (h : q ≠ p) :
    lastArgListOf (backgroundProcessStart s p args).1 q = lastArgListOf s q := by
  unfold backgroundProcessStart lastArgListOf
  by_cases hq : q = 0
  · simp [hq]
  · by_cases hp : p = 0
    · simp [hp]
    · have hne : p - 1 ≠ q - 1 := by omega
      simp only [hp, hq, if_false, List.get?_eq_getElem?]
      cases hb : s.heap[p - 1]? with
      | none => rfl
      | some b =>
        simp only []
        rw [List.getElem?_set_ne hne]

theorem foldl_toggleScriptProcess_start (ps : List ProcessPtr) (s : AppDelegate)
    (fx : List Effect) :
    ps.foldl (toggleScriptProcess true) (s, fx) =
      (s, fx ++ ps.map (fun p => Effect.processStart p (lastArgListOf s p))) := by
  induction ps generalizing fx with
  | nil => simp
  | cons p rest ih =>
    simp only [List.foldl_cons, List.map_cons]
    have : toggleScriptProcess true (s, fx) p =
        (s, fx ++ [Effect.processStart p (lastArgListOf s p)]) := by
      simp [toggleScriptProcess, backgroundProcessStart_last]
    rw [this, ih]
    simp

theorem backgroundProcessStart_fields (s : AppDelegate) (p : ProcessPtr) (args : List String) :
    (backgroundProcessStart s p args).1._scriptProcesses = s._scriptProcesses ∧
    (backgroundProcessStart s p args).1._domainServerProcess = s._domainServerProcess ∧
    (backgroundProcessStart s p args).1._acMonitorProcess = s._acMonitorProcess ∧
    (backgroundProcessStart s p args).1._domainServerID = s._domainServerID ∧
    (backgroundProcessStart s p args).2 = [Effect.processStart p args] := by
  simp [backgroundProcessStart]

/-- C15: `toggleStack(start)` acts on the coordinator, then the monitor, then
the workers, and then emits `stackStateChanged(start)`. With `start` true the
coordinator is started with an empty argument list, the monitor with `-n`,
`4`, and every registered worker, in the order of the hash, with the argument
list recorded for it before the call (the worker processes being other
objects than the coordinator and the monitor); with `start` false each process
of the three groups, in the same order, gets `terminate()`,
`waitForFinished(WAIT_FOR_CHILD_MSECS)`, `kill()`. In both cases
`_scriptProcesses` is unchanged. -/
theorem toggleStack_order_and_arguments (s : AppDelegate)
    (hdist : ∀ e ∈ s._scriptProcesses,
      e.2 ≠ s._domainServerProcess ∧ e.2 ≠ s._acMonitorProcess) :
    (toggleStack s true).2 =
      [Effect.processStart s._domainServerProcess [],
       Effect.addLogTab s._domainServerProcess "Domain Server"] ++
      (if s._domainServerID = "" then [Effect.scheduleRequestDomainServerID 1000] else []) ++
      [Effect.processStart s._acMonitorProcess ["-n", "4"],
       Effect.addLogTab s._acMonitorProcess "Assignment Clients"] ++
      s._scriptProcesses.map (fun e => Effect.processStart e.2 (lastArgListOf s e.2)) ++
      [Effect.stackStateChanged true] ∧
    (toggleStack s false).2 =
      [Effect.processTerminate s._domainServerProcess,
       Effect.processWaitForFinished s._domainServerProcess (some WAIT_FOR_CHILD_MSECS),
       Effect.processKill s._domainServerProcess,
       Effect.processTerminate s._acMonitorProcess,
       Effect.processWaitForFinished s._acMonitorProcess (some WAIT_FOR_CHILD_MSECS),
       Effect.processKill s._acMonitorProcess] ++
      (s._scriptProcesses.map (fun e =>
        [Effect.processTerminate e.2,
         Effect.processWaitForFinished e.2 (some WAIT_FOR_CHILD_MSECS),
         Effect.processKill e.2])).flatten ++
      [Effect.stackStateChanged false] ∧
    (toggleStack s true).1._scriptProcesses = s._scriptProcesses ∧
    (toggleStack s false).1._scriptProcesses = s._scriptProcesses ∧
    (∀ e ∈ s._scriptProcesses,
      lastArgListOf (toggleStack s true).1 e.2 = lastArgListOf s e.2) := by
  -- the state after the coordinator and the monitor were started
  obtain ⟨h1r, h1d, h1a, h1i, h1x⟩ := backgroundProcessStart_fields s s._domainServerProcess []
  generalize hs₁ : (backgroundProcessStart s s._domainServerProcess []).1 = s₁ at h1r h1d h1a h1i
  obtain ⟨h2r, h2d, h2a, h2i, h2x⟩ :=
    backgroundProcessStart_fields s₁ s₁._acMonitorProcess ["-n", "4"]
  generalize hs₂ : (backgroundProcessStart s₁ s₁._acMonitorProcess ["-n", "4"]).1 = s₂
    at h2r h2d h2a h2i
  have hlast : ∀ e ∈ s._scriptProcesses, lastArgListOf s₂ e.2 = lastArgListOf s e.2 := by
    intro e he
    obtain ⟨hd, ha⟩ := hdist e he
    rw [← hs₂, lastArgListOf_backgroundProcessStart_ne s₁ _ e.2 _ (by rw [h1a]; exact ha),
      ← hs₁, lastArgListOf_backgroundProcessStart_ne s _ e.2 _ hd]
  have hds : toggleDomainServer s true =
      (s₁, [Effect.processStart s._domainServerProcess [],
            Effect.addLogTab s._domainServerProcess "Domain Server"] ++
          (if s._domainServerID = "" then [Effect.scheduleRequestDomainServerID 1000]
           else [])) := by
    unfold toggleDomainServer
    simp only [if_true]
    rw [show backgroundProcessStart s s._domainServerProcess [] =
      (s₁, [Effect.processStart s._domainServerProcess []]) from Prod.ext hs₁ h1x]
    simp only [h1d, h1i]
    split <;> simp
  have hac : toggleAssignmentClientMonitor s₁ true =
      (s₂, [Effect.processStart s._acMonitorProcess ["-n", "4"],
            Effect.addLogTab s._acMonitorProcess "Assignment Clients"]) := by
    unfold toggleAssignmentClientMonitor
    simp only [if_true]
    rw [show backgroundProcessStart s₁ s₁._acMonitorProcess ["-n", "4"] =
      (s₂, [Effect.processStart s₁._acMonitorProcess ["-n", "4"]]) from Prod.ext hs₂ h2x]
    simp [h2a, h1a]
  have hws : toggleScriptedAssignmentClients s₂ true =
      (s₂, s._scriptProcesses.map (fun e => Effect.processStart e.2 (lastArgListOf s e.2))) := by
    unfold toggleScriptedAssignmentClients
    rw [foldl_toggleScriptProcess_start, h2r, h1r]
    simp only [List.nil_append, List.map_map, Prod.mk.injEq, true_and]
    apply List.map_congr_left
    intro e he
    simp [hlast e he]
  have hstart : toggleStack s true =
      (s₂, [Effect.processStart s._domainServerProcess [],
            Effect.addLogTab s._domainServerProcess "Domain Server"] ++
          (if s._domainServerID = "" then [Effect.scheduleRequestDomainServerID 1000]
           else []) ++
          [Effect.processStart s._acMonitorProcess ["-n", "4"],
           Effect.addLogTab s._acMonitorProcess "Assignment Clients"] ++
          s._scriptProcesses.map (fun e => Effect.processStart e.2 (lastArgListOf s e.2)) ++
          [Effect.stackStateChanged true]) := by
    unfold toggleStack
    simp only [hds, hac, hws]
  have hstop : toggleStack s false =
      (s, [Effect.processTerminate s._domainServerProcess,
           Effect.processWaitForFinished s._domainServerProcess (some WAIT_FOR_CHILD_MSECS),
           Effect.processKill s._domainServerProcess,
           Effect.processTerminate s._acMonitorProcess,
           Effect.processWaitForFinished s._acMonitorProcess (some WAIT_FOR_CHILD_MSECS),
           Effect.processKill s._acMonitorProcess] ++
          (s._scriptProcesses.map (fun e =>
            [Effect.processTerminate e.2,
             Effect.processWaitForFinished e.2 (some WAIT_FOR_CHILD_MSECS),
             Effect.processKill e.2])).flatten ++
          [Effect.stackStateChanged false]) := by
    unfold toggleStack toggleDomainServer toggleAssignmentClientMonitor
      toggleScriptedAssignmentClients
    simp only [Bool.false_eq_true, if_false]
    rw [foldl_toggleScriptProcess_stop]
    simp [terminateWaitKill, List.map_map, Function.comp_def]
  rw [hstart, hstop]
  exact ⟨rfl, rfl, by rw [h2r, h1r], rfl, hlast⟩

theorem toggleStack_order_and_arguments_witness :
    (toggleStack sampleRunningStack true).2 =
      [Effect.processStart 1 [], Effect.addLogTab 1 "Domain Server",
       Effect.scheduleRequestDomainServerID 1000,
       Effect.processStart 2 ["-n", "4"], Effect.addLogTab 2 "Assignment Clients",
       Effect.processStart 4 ["-t", "2", "--pool", "lobby"],
       Effect.processStart 3 ["-t", "2"],
       Effect.stackStateChanged true] :=
  (toggleStack_order_and_arguments sampleRunningStack (by decide)).1

/-! ## Release manifest: foreign platform groups and truncated streams -/

theorem retainPlatform_of_foreign (os name : String) (pv : ProjectVersions) (q : Platform)
    (hq : q.name ≠ os) : retainPlatform os name pv q = pv := by
  simp [retainPlatform, Platform.latest, hq]

theorem retain_without_foreign_platform (os : String) (pv : ProjectVersions)
    (attrs : List (String × String)) (ipre ipost : List ProjectItem) (q : Platform)
    (hq : q.name ≠ os) :
    Project.retain os pv { attributes := attrs, items := ipre ++ ProjectItem.platform q :: ipost } =
      Project.retain os pv { attributes := attrs, items := ipre ++ ipost } := by
  unfold Project.retain Project.platforms Project.name
  simp only [List.filterMap_append, List.filterMap_cons, List.foldl_append, List.foldl_cons]
  split
  · rw [retainPlatform_of_foreign os _ _ q hq]
  · rfl

theorem retained_without_foreign_platform (os : String) (pre post : List DocItem)
    (attrs : List (String × String)) (ipre ipost : List ProjectItem) (q : Platform)
    (hq : q.name ≠ os) :
    Manifest.retained
        (pre ++ DocItem.project
          { attributes := attrs, items := ipre ++ ProjectItem.platform q :: ipost } :: post) os =
      Manifest.retained
        (pre ++ DocItem.project { attributes := attrs, items := ipre ++ ipost } :: post) os := by
  unfold Manifest.retained Manifest.projects
  simp only [List.filterMap_append, List.filterMap_cons, List.foldl_append, List.foldl_cons]
  rw [retain_without_foreign_platform os _ attrs ipre ipost q hq]

theorem wellFormed_without_platform (pre post : List DocItem)
    (attrs : List (String × String)) (ipre ipost : List ProjectItem) (q : Platform)
    (hwf : Manifest.wellFormed
      (pre ++ DocItem.project
        { attributes := attrs, items := ipre ++ ProjectItem.platform q :: ipost } :: post) = true) :
    Manifest.wellFormed
      (pre ++ DocItem.project { attributes := attrs, items := ipre ++ ipost } :: post) = true := by
  unfold Manifest.wellFormed at hwf ⊢
  simp only [List.all_append, List.all_cons, Bool.and_eq_true, DocItem.wellFormed,
    Project.wellFormed] at hwf ⊢
  exact ⟨hwf.1, ⟨hwf.2.1.1, hwf.2.1.2.2⟩, hwf.2.2⟩

theorem tokens_length_without_platform (pre post : List DocItem)
    (attrs : List (String × String)) (ipre ipost : List ProjectItem) (q : Platform) :
    (Manifest.tokens
      (pre ++ DocItem.project { attributes := attrs, items := ipre ++ ipost } :: post)).length ≤
    (Manifest.tokens
      (pre ++ DocItem.project
        { attributes := attrs, items := ipre ++ ProjectItem.platform q :: ipost } :: post)).length := by
  simp only [Manifest.tokens, List.map_append, List.map_cons, List.flatten_append,
    List.flatten_cons, List.length_append, DocItem.tokens, Project.tokens, ProjectItem.tokens,
    List.length_cons, List.length_nil]
  omega

/-- C14: in every well-formed manifest, a platform group inside a project
whose name is not the running operating system identifier is passed over: on
the token stream of the manifest the loops of `parseVersionXml` end (with fuel
above the number of tokens) with the same hash, and `parseVersionXml` with the
same notification, as on the token stream of the manifest without that group.
The group `solaris` of the sample manifest is such a group for `ubuntu`. -/
theorem foreign_platform_group_is_skipped (os applicationVersion : String)
    (pre post : List DocItem) (attrs : List (String × String))
    (ipre ipost : List ProjectItem) (q : Platform) (fuel : Nat)
    (hwf : Manifest.wellFormed
      (pre ++ DocItem.project
        { attributes := attrs, items := ipre ++ ProjectItem.platform q :: ipost } :: post) = true)
    (hq : q.name ≠ os)
    (hf : (Manifest.tokens
      (pre ++ DocItem.project
        { attributes := attrs, items := ipre ++ ProjectItem.platform q :: ipost } :: post)).length
        < fuel) :
    (∃ pv : ProjectVersions,
      parseProjectVersions os fuel
        (Manifest.tokens
          (pre ++ DocItem.project
            { attributes := attrs, items := ipre ++ ProjectItem.platform q :: ipost } :: post)) =
        some pv ∧
      parseProjectVersions os fuel
        (Manifest.tokens
          (pre ++ DocItem.project { attributes := attrs, items := ipre ++ ipost } :: post)) =
        some pv) ∧
    parseVersionXml os applicationVersion fuel
        (Manifest.tokens
          (pre ++ DocItem.project
            { attributes := attrs, items := ipre ++ ProjectItem.platform q :: ipost } :: post)) =
      parseVersionXml os applicationVersion fuel
        (Manifest.tokens
          (pre ++ DocItem.project { attributes := attrs, items := ipre ++ ipost } :: post)) ∧
    parseProjectVersions "ubuntu" 100 sampleManifest.tokens =
      parseProjectVersions "ubuntu" 100 sampleManifestWithoutSolaris.tokens := by
  have h1 := parseProjectVersions_manifest os _ hwf fuel hf
  have h2 := parseProjectVersions_manifest os _
    (wellFormed_without_platform pre post attrs ipre ipost q hwf) fuel
    (Nat.lt_of_le_of_lt (tokens_length_without_platform pre post attrs ipre ipost q) hf)
  rw [← retained_without_foreign_platform os pre post attrs ipre ipost q hq] at h2
  refine ⟨⟨_, h1, h2⟩, ?_, by decide⟩
  unfold parseVersionXml
  rw [h1, h2]

theorem foreign_platform_group_is_skipped_witness :
    ∃ pv : ProjectVersions,
      parseProjectVersions "ubuntu" 100 sampleManifest.tokens = some pv ∧
      parseProjectVersions "ubuntu" 100 sampleManifestWithoutSolaris.tokens = some pv :=
  (foreign_platform_group_is_skipped "ubuntu" "11"
    [.other .startDocument, .other (.startElement "projects" []), .other (.characters "\n  ")]
    [.other (.endElement "projects")] [("name", "stackmanager")]
    [ .other (.characters "\n    "),
      .platform
        { attributes := [("name", "ubuntu")],
          items :=
            [ .build { items := [.field .version "10", .field .url "http://s3/sm-10.deb",
                                 .field .note "first"] },
              .other (.characters "\n      "),
              .build { items := [.other (.characters " "), .field .url "http://s3/sm-12.deb",
                                 .field .version "12", .field .timestamp "2014-08-01",
                                 .field .note "second", .field .note "third"] } ] } ]
    []
    { attributes := [("name", "solaris")],
      items := [ .build { items := [.field .version "99"] } ] }
    100 (by decide) (by decide) (by decide)).1

theorem mem_of_mem_tail {α : Type} (l : List α) (t : α) (h : t ∈ l.tail) : t ∈ l := by
  cases l with
  | nil => simp at h
  | cons x xs => exact List.mem_cons_of_mem _ h

theorem buildStep_tokens (xml : XmlReader) (info : VersionInformation) :
    ∀ t ∈ (buildStep xml info).1, t ∈ xml := by
  intro t ht
  unfold buildStep at ht
  simp only [readNext] at ht
  have h1 := mem_of_mem_tail _ t ht
  clear ht
  repeat' split at h1
  all_goals
    simp only [] at h1
    first
      | exact h1
      | exact mem_of_mem_tail _ t h1
      | exact mem_of_mem_tail _ t (mem_of_mem_tail _ t h1)
      | exact mem_of_mem_tail _ t (mem_of_mem_tail _ t (mem_of_mem_tail _ t h1))
      | exact mem_of_mem_tail _ t
          (mem_of_mem_tail _ t (mem_of_mem_tail _ t (mem_of_mem_tail _ t h1)))

/-- What the loop over a build leaves to be read is part of what it was
given. -/
theorem readBuild_tokens (fuel : Nat) :
    ∀ (xml : XmlReader) (info : VersionInformation) (xml' : XmlReader)
      (info' : VersionInformation),
      readBuild fuel xml info = some (xml', info') → ∀ t ∈ xml', t ∈ xml := by
  induction fuel with
  | zero => intro xml info xml' info' h; simp [readBuild] at h
  | succ f ih =>
    intro xml info xml' info' h t ht
    unfold readBuild at h
    split at h
    · simp only [Option.some.injEq, Prod.mk.injEq] at h
      rw [h.1]; exact ht
    · exact buildStep_tokens xml info t (ih _ _ _ _ h t ht)

/-- What the loop over a platform group leaves to be read is part of what it
was given. -/
theorem readPlatform_tokens (os pn : String) (fuel : Nat) :
    ∀ (xml : XmlReader) (lv : Int) (li : VersionInformation) (xml' : XmlReader)
      (r : Int × VersionInformation),
      readPlatform os pn fuel xml lv li = some (xml', r) → ∀ t ∈ xml', t ∈ xml := by
  induction fuel with
  | zero => intro xml lv li xml' r h; simp [readPlatform] at h
  | succ f ih =>
    intro xml lv li xml' r h t ht
    unfold readPlatform at h
    split at h
    · simp only [Option.some.injEq, Prod.mk.injEq] at h
      rw [h.1]; exact ht
    · split at h
      · split at h
        · split at h
          · exact absurd h (by simp)
          · rename_i xml₁ info₁ hb
            have hsub := readBuild_tokens f _ _ _ _ hb
            split at h
            · exact hsub t (mem_of_mem_tail _ t (ih _ _ _ _ _ h t ht))
            · exact hsub t (mem_of_mem_tail _ t (ih _ _ _ _ _ h t ht))
        · exact mem_of_mem_tail _ t (ih _ _ _ _ _ h t ht)
      · exact mem_of_mem_tail _ t (ih _ _ _ _ _ h t ht)

/-- On a stream without an end tag of `project` the loop over a project does
not end, whatever the fuel. -/
theorem readProject_without_end (os name : String) (fuel : Nat) :
    ∀ (xml : XmlReader) (pv : ProjectVersions),
      (∀ t ∈ xml, t.isEnd "project" = false) → readProject os name fuel xml pv = none := by
  induction fuel with
  | zero => intro xml pv _; rfl
  | succ f ih =>
    intro xml pv hxml
    have hend : isEndOf xml "project" = false := by
      cases xml with
      | nil => rfl
      | cons t rest => rw [isEndOf_cons]; exact hxml t (List.mem_cons_self _ _)
    have htail : ∀ t ∈ readNext xml, t.isEnd "project" = false :=
      fun t ht => hxml t (mem_of_mem_tail _ t ht)
    unfold readProject
    simp only [hend, Bool.false_eq_true, if_false]
    split
    · split
      · split
        · rfl
        · rename_i xml₁ lv₁ li₁ hp
          have hsub := readPlatform_tokens os _ f _ _ _ _ _ hp
          have h₁ : ∀ t ∈ readNext xml₁, t.isEnd "project" = false :=
            fun t ht => hxml t (hsub t (mem_of_mem_tail _ t ht))
          split
          · exact ih _ _ h₁
          · exact ih _ _ h₁
      · exact ih _ _ htail
    · exact ih _ _ htail

/-- On a stream that opens a project and has no end tag of `project` after
it, the loop over the document does not end, whatever the fuel. -/
theorem readDocument_without_end (os : String) (leading : List XmlToken)
    (attrs : List (String × String)) (ts : List XmlToken)
    (hlead : ∀ t ∈ leading, t.isStart "project" = false ∧ t ≠ XmlToken.endDocument)
    (hts : ∀ t ∈ ts, t.isEnd "project" = false) :
    ∀ (fuel : Nat) (pv : ProjectVersions),
      readDocument os fuel (leading ++ XmlToken.startElement "project" attrs :: ts) pv = none := by
  induction leading with
  | nil =>
    intro fuel pv
    cases fuel with
    | zero => rfl
    | succ f =>
      have hp : readProject os (nameAttribute (XmlToken.startElement "project" attrs :: ts)) f
          (XmlToken.startElement "project" attrs :: ts) pv = none := by
        apply readProject_without_end
        intro t ht
        simp only [List.mem_cons] at ht
        rcases ht with rfl | ht
        · rfl
        · exact hts t ht
      simp only [List.nil_append, readDocument, atEnd, hasError, List.isEmpty_cons,
        Bool.not_false, Bool.and_self, if_true, isStartOf, beq_self_eq_true, hp]
  | cons t rest ih =>
    intro fuel pv
    cases fuel with
    | zero => rfl
    | succ f =>
      obtain ⟨h0, h1⟩ := hlead t (List.mem_cons_self _ _)
      have hnotEnd : atEnd (t :: (rest ++ XmlToken.startElement "project" attrs :: ts)) =
          false := by
        cases t <;> first | rfl | exact absurd rfl h1
      simp only [List.cons_append, readDocument, hnotEnd, hasError, List.isEmpty_cons,
        Bool.not_false, Bool.and_self, if_true, isStartOf_cons, h0, Bool.false_eq_true,
        if_false, readNext, List.tail_cons]
      exact ih (fun t' ht' => hlead t' (List.mem_cons_of_mem _ ht')) f pv

/-- A reply cut off inside an open project: `parseVersionXml` does not
return, whatever the fuel. -/
theorem parseVersionXml_without_end (os applicationVersion : String)
    (leading : List XmlToken) (attrs : List (String × String)) (ts : List XmlToken)
    (hlead : ∀ t ∈ leading, t.isStart "project" = false ∧ t ≠ XmlToken.endDocument)
    (hts : ∀ t ∈ ts, t.isEnd "project" = false) (fuel : Nat) :
    parseVersionXml os applicationVersion fuel
      (leading ++ XmlToken.startElement "project" attrs :: ts) = none := by
  unfold parseVersionXml parseProjectVersions
  have h := readDocument_without_end os (XmlToken.noToken :: leading) attrs ts
    (by
      intro t ht
      simp only [List.mem_cons] at ht
      rcases ht with rfl | ht
      · exact ⟨rfl, by simp⟩
      · exact hlead t ht)
    hts fuel []
  simp only [List.cons_append] at h
  rw [h]

/-- C16, the code on a stream that ends (or reports a parse error) before
the closing tag of an open project: the loops of lines 695, 707 and 711 wait
for an end tag and have no test of `atEnd()` or `hasError()`, so
`parseVersionXml` does not return, whatever the fuel; shown on a reply cut off
inside a build of the project `stackmanager`. On the token stream of a
well-formed manifest it returns. -/
theorem truncated_manifest_never_returns (os applicationVersion : String) (fuel : Nat) :
    parseVersionXml os applicationVersion fuel truncatedDocument = none ∧
    (∀ (m : Manifest), m.wellFormed = true → m.tokens.length < fuel →
      (parseVersionXml os applicationVersion fuel m.tokens).isSome = true) := by
  refine ⟨?_, ?_⟩
  · exact parseVersionXml_without_end os applicationVersion
      [.startDocument, .startElement "projects" []] [("name", "stackmanager")]
      [.startElement "platform" [("name", "ubuntu")], .startElement "build" [],
       .startElement "version" [], .characters "12"]
      (by decide) (by decide) fuel
  · intro m hwf hf
    simp [parseVersionXml, parseProjectVersions_manifest os m hwf fuel hf]

/-! ## Identity resolution: what `QUuid` accepts -/

theorem hexValue_isSome (c : Char) : (hexValue c).isSome = isHexDigit c := by
  unfold hexValue isHexDigit
  by_cases h1 : 48 ≤ c.toNat ∧ c.toNat ≤ 57
  · simp [h1]
  · by_cases h2 : 97 ≤ c.toNat ∧ c.toNat ≤ 102
    · simp [h1, h2]
    · by_cases h3 : 65 ≤ c.toNat ∧ c.toNat ≤ 70
      · simp [h1, h2, h3]
      · simp only [h1, h2, h3, if_false, Option.isSome_none]
        simp only [not_and, not_le] at h1 h2 h3
        symm
        simp only [Bool.or_eq_false_iff, Bool.and_eq_false_imp, decide_eq_true_eq,
          decide_eq_false_iff_not, not_le]
        exact ⟨⟨h1, h3⟩, h2⟩

theorem hexGroup_zero (cs : List Char) : hexGroup 0 cs = true := by
  simp [hexGroup]

theorem hexGroup_succ_nil (n : Nat) : hexGroup (n + 1) [] = false := by
  simp [hexGroup]

theorem hexGroup_succ_cons (n : Nat) (c : Char) (cs : List Char) :
    hexGroup (n + 1) (c :: cs) = (isHexDigit c && hexGroup n cs) := by
  simp only [hexGroup, List.length_cons, List.take_succ_cons, List.all_cons,
    Nat.add_le_add_iff_right]
  cases isHexDigit c <;> simp

/-- `_q_fromHex` reads exactly a group of hexadecimal digits. -/
theorem fromHex_of_hexGroup (n : Nat) :
    ∀ (acc : Nat) (cs : List Char),
      (hexGroup n cs = true → ∃ v, fromHex n acc cs = some (v, cs.drop n)) ∧
      (hexGroup n cs = false → fromHex n acc cs = none) := by
  induction n with
  | zero =>
    intro acc cs
    exact ⟨fun _ => ⟨acc, by simp [fromHex]⟩, fun h => by simp [hexGroup_zero] at h⟩
  | succ n ih =>
    intro acc cs
    cases cs with
    | nil =>
      exact ⟨fun h => by simp [hexGroup_succ_nil] at h, fun _ => by simp [fromHex]⟩
    | cons c rest =>
      rw [hexGroup_succ_cons, ← hexValue_isSome]
      cases hv : hexValue c with
      | none =>
        exact ⟨fun h => by simp at h, fun _ => by simp [fromHex, hv]⟩
      | some v =>
        simp only [Option.isSome_some, Bool.true_and, fromHex, hv, List.drop_succ_cons]
        exact ih (acc * 16 + v) rest

theorem expectDash_eq (cs : List Char) :
    expectDash cs = if dashAt 0 cs then some (cs.drop 1) else none := by
  cases cs with
  | nil => rfl
  | cons c rest =>
    simp only [expectDash, dashAt, List.drop_zero, List.head?_cons, Option.map_some',
      List.drop_succ_cons, beq_iff_eq, Option.some.injEq]

theorem dashAt_drop (i j : Nat) (cs : List Char) : dashAt i (cs.drop j) = dashAt (j + i) cs := by
  simp [dashAt, List.drop_drop, Nat.add_comm]

/-- `_q_uuidFromHex` reads a text exactly when, after an opening brace if
there is one, the text starts with a UUID in its usual form. -/
theorem uuidFromHex_isSome (cs : List Char) :
    (uuidFromHex cs).isSome = startsWithUuid (stripOpeningBrace cs) := by
  have hs : (match cs with
      | c :: cs' => if c.toNat = 123 then cs' else c :: cs'
      | [] => []) = stripOpeningBrace cs := by
    cases cs <;> rfl
  unfold uuidFromHex
  simp only [hs]
  generalize stripOpeningBrace cs = src
  unfold startsWithUuid
  cases h1 : hexGroup 8 src
  · simp [(fromHex_of_hexGroup 8 0 src).2 h1]
  obtain ⟨v1, e1⟩ := (fromHex_of_hexGroup 8 0 src).1 h1
  simp only [e1, expectDash_eq, dashAt_drop, List.drop_drop, List.tail_drop, Bool.true_and,
    Nat.reduceAdd]
  cases h2 : dashAt 8 src
  · simp
  simp only [if_true, Bool.true_and]
  cases h3 : hexGroup 4 (src.drop 9)
  · simp [(fromHex_of_hexGroup 4 v1 (src.drop 9)).2 h3]
  obtain ⟨v2, e2⟩ := (fromHex_of_hexGroup 4 v1 (src.drop 9)).1 h3
  simp only [e2, dashAt_drop, List.drop_drop, List.tail_drop, Bool.true_and, Nat.reduceAdd]
  cases h4 : dashAt 13 src
  · simp
  simp only [if_true, Bool.true_and]
  cases h5 : hexGroup 4 (src.drop 14)
  · simp [(fromHex_of_hexGroup 4 v2 (src.drop 14)).2 h5]
  obtain ⟨v3, e3⟩ := (fromHex_of_hexGroup 4 v2 (src.drop 14)).1 h5
  simp only [e3, dashAt_drop, List.drop_drop, List.tail_drop, Bool.true_and, Nat.reduceAdd]
  cases h6 : dashAt 18 src
  · simp
  simp only [if_true, Bool.true_and]
  cases h7 : hexGroup 4 (src.drop 19)
  · simp [(fromHex_of_hexGroup 4 v3 (src.drop 19)).2 h7]
  obtain ⟨v4, e4⟩ := (fromHex_of_hexGroup 4 v3 (src.drop 19)).1 h7
  simp only [e4, dashAt_drop, List.drop_drop, List.tail_drop, Bool.true_and, Nat.reduceAdd]
  cases h8 : dashAt 23 src
  · simp
  simp only [if_true, Bool.true_and]
  cases h9 : hexGroup 12 (src.drop 24)
  · simp [(fromHex_of_hexGroup 12 v4 (src.drop 24)).2 h9]
  obtain ⟨v5, e5⟩ := (fromHex_of_hexGroup 12 v4 (src.drop 24)).1 h9
  simp [e5]

theorem length_of_startsWithUuid (cs : List Char) (h : startsWithUuid cs = true) :
    36 ≤ cs.length := by
  unfold startsWithUuid at h
  simp only [Bool.and_eq_true] at h
  have h12 := h.2
  unfold hexGroup at h12
  simp only [Bool.and_eq_true, decide_eq_true_eq, List.length_drop] at h12
  omega

theorem length_stripOpeningBrace_le (cs : List Char) :
    (stripOpeningBrace cs).length ≤ cs.length := by
  cases cs with
  | nil => simp [stripOpeningBrace]
  | cons c rest =>
    simp only [stripOpeningBrace]
    split <;> simp

/-- The constructor `QUuid(const QString&)` accepts exactly the texts that
start, after an opening brace if there is one, with a UUID in its usual form;
what follows the 36 characters is not read. -/
theorem isValidUuidText_eq (text : String) :
    isValidUuidText text = startsWithUuid (stripOpeningBrace text.toList) := by
  unfold isValidUuidText
  rw [uuidFromHex_isSome]
  cases h : startsWithUuid (stripOpeningBrace text.toList)
  · simp
  · have hlen := length_of_startsWithUuid _ h
    have hle := length_stripOpeningBrace_le text.toList
    have htl : text.length = text.toList.length := rfl
    have h36 : 36 ≤ text.length := by omega
    simp only [h36, decide_True, Bool.true_and, Bool.and_true, Bool.not_eq_true',
      Bool.and_eq_false_imp, decide_eq_true_eq, decide_eq_false_iff_not, not_lt]
    intro hbrace
    cases hcs : text.toList with
    | nil => rw [hcs] at hbrace; simp at hbrace
    | cons c rest =>
      rw [hcs] at hbrace hlen
      simp only [List.head?_cons, Option.some.injEq] at hbrace
      have hc : c.toNat = 123 := by rw [hbrace]; rfl
      simp only [stripOpeningBrace, hc, if_true] at hlen
      rw [htl, hcs]
      simp only [List.length_cons]
      omega

/-- A text of fewer than 36 characters does not start with a UUID. -/
theorem not_startsWithUuid_of_short (text : String) (h : text.length < 36) :
    startsWithUuid (stripOpeningBrace text.toList) = false := by
  cases hs : startsWithUuid (stripOpeningBrace text.toList)
  · rfl
  · have hlen := length_of_startsWithUuid _ hs
    have hle := length_stripOpeningBrace_le text.toList
    have htl : text.length = text.toList.length := rfl
    omega

/-- C6 fails as stated: a body that is a UUID followed by a line end and
further text is not a valid UUID, yet on a reply without error and with
status 200 `handleDomainIDReply` requests the directory service with it and
does not emit `domainServerIDMissing`. -/
theorem uuid_with_trailing_text_is_looked_up :
    okReply.error = 0 ∧ okReply.httpStatusCode = 200 ∧ uuidWithTrailingText ≠ "" ∧
    isUuidText uuidWithTrailingText = false ∧
    (handleDomainIDReply (AppDelegate.constructed sampleGlobalData) okReply
        uuidWithTrailingText).2 =
      [Effect.networkGet (HIGH_FIDELITY_API_URL ++ "/domains/" ++ uuidWithTrailingText)] ∧
    Effect.domainServerIDMissing ∉
      (handleDomainIDReply (AppDelegate.constructed sampleGlobalData) okReply
        uuidWithTrailingText).2 := by
  decide

/-- C6 (amended): for every reply to the `/id` request without error and with
HTTP status 200 whose body is not empty and does not start, after an opening
brace if there is one, with a UUID in its usual form (hexadecimal digits in
groups of 8, 4, 4, 4 and 12 separated by `-`), `handleDomainIDReply` emits
`domainServerIDMissing` and nothing else (in particular no request to the
directory service) and leaves the resolved name and the address unchanged.
The body `abc-123` is such a body, as is every body of fewer than 36
characters. -/
theorem malformed_domain_id_is_reported_missing (s : AppDelegate) (reply : ReplyStatus)
    (body : String)
    (herr : reply.error = 0) (hstatus : reply.httpStatusCode = 200)
    (hbody : body ≠ "")
    (hshape : startsWithUuid (stripOpeningBrace body.toList) = false) :
    (handleDomainIDReply s reply body).2 = [Effect.domainServerIDMissing] ∧
    (∀ url, Effect.networkGet url ∉ (handleDomainIDReply s reply body).2) ∧
    (handleDomainIDReply s reply body).1._domainServerName = s._domainServerName ∧
    getServerAddress (handleDomainIDReply s reply body).1 = getServerAddress s ∧
    startsWithUuid (stripOpeningBrace "abc-123".toList) = false ∧
    (∀ text : String, text.length < 36 →
      startsWithUuid (stripOpeningBrace text.toList) = false) := by
  have hinvalid : isValidUuidText body = false := by rw [isValidUuidText_eq, hshape]
  rw [handleDomainIDReply_of_rejected_text s reply body herr hstatus hbody hinvalid]
  refine ⟨rfl, ?_, rfl, rfl, by decide, not_startsWithUuid_of_short⟩
  intro url
  simp

theorem malformed_domain_id_is_reported_missing_witness :
    (handleDomainIDReply (AppDelegate.constructed sampleGlobalData) okReply "abc-123").2 =
      [Effect.domainServerIDMissing] :=
  (malformed_domain_id_is_reported_missing (AppDelegate.constructed sampleGlobalData) okReply
    "abc-123" (by decide) (by decide) (by decide) (by decide)).1

end StackManager
